import Mathlib

/-!
# Sistema de Gerenciamento de Eventos: a shallow embedding of `src/main.c`

The C program keeps three linked collections: a NULL-terminated chain of
`Evento` nodes, a circular chain of `Participante` nodes and a NULL-terminated
chain of `Inscricao` records.  An `Inscricao` holds *pointers* to an `Evento`
node and to a `Participante` node.

Modelling choices

* A chain is the `List` of its nodes in traversal order; the `proximo` link of a
  node is its position in that list.  A node is a pair of its address and the
  record stored at that address (`NoEvento`, `NoParticipante`), so that a
  pointer held elsewhere is an address (`Nat`).
* Reading through a pointer (`p->campo`) looks the address up among the live
  nodes and is `none` when no live node has that address (a dangling pointer,
  undefined behaviour in C).
* `int` is `Int`; signed overflow (undefined behaviour in C) is not modelled.
  A statement that depends on a value staying in the range of `int` says so
  with `cabe_int` (a value fits an `int`) or `sem_transbordo` (no `int`
  overflows along a run).
* `char[]` fields are `String`; the inputs are taken to fit the field sizes, so
  `strncpy` copies them whole.  The constructors copy at most `sizeof - 1`
  characters into memory obtained from `malloc` and write no terminator after a
  text of exactly that length (a date of 10 characters); the model takes the
  field to end there.
* Console input is a parameter of the function that reads it, and the message
  a function prints is its result (`Resultado`).
-/

namespace SGE

/-! ## Data model (main.c lines 14-61) -/

/-- Status of a registration (`enum StatusInscricao`). -/
inductive StatusInscricao where
  | CONFIRMADA
  | PENDENTE
  | CANCELADA
deriving DecidableEq

/-- The fields of `struct evento` other than the link `proximo`. -/
structure Evento where
  id : Int
  nome : String
  descricao : String
  categoria : String
  data : String
  capacidade : Int
  vagasDisponiveis : Int
deriving DecidableEq, Inhabited

/-- One allocated `struct evento`: its address and the record stored there. -/
structure NoEvento where
  endereco : Nat
  dados : Evento
deriving DecidableEq

/-- The fields of `struct participante` other than the link `proximo`. -/
structure Participante where
  id : Int
  nome : String
  email : String
  telefone : String
deriving DecidableEq, Inhabited

/-- One allocated `struct participante`: its address and the record stored there. -/
structure NoParticipante where
  endereco : Nat
  dados : Participante
deriving DecidableEq

/-- A record of the registration chain (`struct inscricao`): `participante` and
`evento` are the two pointers, kept as addresses. -/
structure Inscricao where
  participante : Nat
  evento : Nat
  dataInscricao : String
  status : StatusInscricao
deriving DecidableEq

/-- The registration log (`struct lista_inscricoes`): the chain from `inicio`
and the counter `tamanho`. -/
structure ListaInscricoes where
  inicio : List Inscricao
  tamanho : Int
deriving DecidableEq

/-- The whole program state of `main`: the event chain, the participant chain
read once around from `inicio`, the registration log and the two id counters. -/
structure Sistema where
  lista_eventos : List NoEvento
  lista_participantes : List NoParticipante
  lista_inscricoes : ListaInscricoes
  proximoIdEvento : Int
  proximoIdParticipante : Int
deriving DecidableEq

/-! ## Memory access through pointers -/

/-- Read `*p` for an `Evento*`: the record of the live node at that address. -/
def ler_evento : List NoEvento → Nat → Option Evento
  | [], _ => none
  | n :: resto, p => if n.endereco = p then some n.dados else ler_evento resto p

/-- Write through an `Evento*`: the record at address `p` becomes `f` of it. -/
def escrever_evento (lista : List NoEvento) (p : Nat) (f : Evento → Evento) : List NoEvento :=
  lista.map (fun n => if n.endereco = p then { n with dados := f n.dados } else n)

/-- Read `*p` for a `Participante*`. -/
def ler_participante : List NoParticipante → Nat → Option Participante
  | [], _ => none
  | n :: resto, p => if n.endereco = p then some n.dados else ler_participante resto p

/-! ## Events (main.c lines 85-159, 550-560) -/

/-- The record built by `evento_criar`: `vagasDisponiveis` starts at `capacidade`. -/
def evento_criar (id : Int) (nome descricao categoria data : String) (capacidade : Int) : Evento :=
  { id := id, nome := nome, descricao := descricao, categoria := categoria, data := data,
    capacidade := capacidade, vagasDisponiveis := capacidade }

/-- Walk to the last node and link `novo` after it (`eventos_adicionar`). -/
def eventos_adicionar : List NoEvento → NoEvento → List NoEvento
  | [], novo => [novo]
  | atual :: resto, novo => atual :: eventos_adicionar resto novo

/-- Linear scan for the first node whose id matches (`eventos_buscar_por_id`). -/
def eventos_buscar_por_id : List NoEvento → Int → Option NoEvento
  | [], _ => none
  | atual :: resto, id => if atual.dados.id = id then some atual else eventos_buscar_por_id resto id

/-- Number of nodes of the chain (`contar_eventos`). -/
def contar_eventos : List NoEvento → Int
  | [] => 0
  | _ :: resto => contar_eventos resto + 1

/-! ## Participants (main.c lines 230-244) -/

/-- The do-while scan from `inicio` once around the cycle
(`lista_participantes_buscar_por_id`); the argument is the cycle read from
`inicio`, empty when `inicio` is NULL. -/
def lista_participantes_buscar_por_id : List NoParticipante → Int → Option NoParticipante
  | [], _ => none
  | atual :: resto, id =>
    if atual.dados.id = id then some atual else lista_participantes_buscar_por_id resto id

/-! ## Registrations (main.c lines 331-405) -/

/-- An empty log (`lista_inscricoes_criar`). -/
def lista_inscricoes_criar : ListaInscricoes := { inicio := [], tamanho := 0 }

/-- The record built by `inscricao_criar`. -/
def inscricao_criar (participante evento : Nat) (dataInscricao : String)
    (status : StatusInscricao) : Inscricao :=
  { participante := participante, evento := evento, dataInscricao := dataInscricao,
    status := status }

/-- The loop of `inscricao_existe`: `atual->participante->id` is read first and
`atual->evento->id` only when it matched (short-circuit `&&`). -/
def inscricao_existe_laco (eventos : List NoEvento) (participantes : List NoParticipante) :
    List Inscricao → Int → Int → Option Bool
  | [], _, _ => some false
  | atual :: resto, idParticipante, idEvento =>
    match ler_participante participantes atual.participante with
    | none => none
    | some p =>
      if p.id = idParticipante then
        match ler_evento eventos atual.evento with
        | none => none
        | some e =>
          if e.id = idEvento ∧ atual.status ≠ StatusInscricao.CANCELADA then some true
          else inscricao_existe_laco eventos participantes resto idParticipante idEvento
      else inscricao_existe_laco eventos participantes resto idParticipante idEvento

/-- Whether a record that is not CANCELADA matches both ids (`inscricao_existe`). -/
def inscricao_existe (eventos : List NoEvento) (participantes : List NoParticipante)
    (lista : ListaInscricoes) (idParticipante idEvento : Int) : Option Bool :=
  inscricao_existe_laco eventos participantes lista.inicio idParticipante idEvento

/-- Link `nova` after the last record and count it (`lista_inscricoes_adicionar`). -/
def lista_inscricoes_adicionar (lista : ListaInscricoes) (nova : Inscricao) : ListaInscricoes :=
  { inicio := lista.inicio ++ [nova], tamanho := lista.tamanho + 1 }

/-- The loop of `lista_inscricoes_cancelar`: the first CONFIRMADA record that
matches both ids becomes CANCELADA and the event it points to gets one place
back.  The result is the returned flag, the event chain and the records. -/
def lista_inscricoes_cancelar_laco (eventos : List NoEvento)
    (participantes : List NoParticipante) :
    List Inscricao → Int → Int → Option (Bool × List NoEvento × List Inscricao)
  | [], _, _ => some (false, eventos, [])
  | atual :: resto, idParticipante, idEvento =>
    match ler_participante participantes atual.participante with
    | none => none
    | some p =>
      if p.id = idParticipante then
        match ler_evento eventos atual.evento with
        | none => none
        | some e =>
          if e.id = idEvento ∧ atual.status = StatusInscricao.CONFIRMADA then
            some (true,
              escrever_evento eventos atual.evento
                (fun ev => { ev with vagasDisponiveis := ev.vagasDisponiveis + 1 }),
              { atual with status := StatusInscricao.CANCELADA } :: resto)
          else
            match lista_inscricoes_cancelar_laco eventos participantes resto
                idParticipante idEvento with
            | none => none
            | some (b, evs, rs) => some (b, evs, atual :: rs)
      else
        match lista_inscricoes_cancelar_laco eventos participantes resto
            idParticipante idEvento with
        | none => none
        | some (b, evs, rs) => some (b, evs, atual :: rs)

/-- Cancel a registration (`lista_inscricoes_cancelar`); `tamanho` is not touched. -/
def lista_inscricoes_cancelar (eventos : List NoEvento) (participantes : List NoParticipante)
    (lista : ListaInscricoes) (idParticipante idEvento : Int) :
    Option (Bool × List NoEvento × ListaInscricoes) :=
  match lista_inscricoes_cancelar_laco eventos participantes lista.inicio
      idParticipante idEvento with
  | none => none
  | some (b, evs, rs) => some (b, evs, { inicio := rs, tamanho := lista.tamanho })

/-! ## Sorting by date (main.c lines 473-537) -/

/-- Bytes of a C string: the UTF-8 encoding of the text, without the final NUL. -/
def bytes (s : String) : List Nat :=
  (s.toList.flatMap String.utf8EncodeChar).map UInt8.toNat

/-- Compare two byte strings as `strcmp` does: the bytes are compared in turn up
to the first pair that differs, whose difference is returned, or up to a NUL
byte in both, where the strings are equal; the end of the list is the final NUL.
Only the sign of the result is specified by C, and only the sign is used. -/
def strcmp_bytes : List Nat → List Nat → Int
  | [], [] => 0
  | [], b :: _ => 0 - (b : Int)
  | a :: _, [] => (a : Int)
  | a :: resto_a, b :: resto_b =>
    if a = b then (if a = 0 then 0 else strcmp_bytes resto_a resto_b)
    else (a : Int) - (b : Int)

/-- The C library `strcmp` on two text fields. -/
def strcmp (a b : String) : Int := strcmp_bytes (bytes a) (bytes b)

/-- The order of the sort: `strcmp(a.data, b.data) <= 0`. -/
def data_le (a b : Evento) : Prop := strcmp a.data b.data ≤ 0

instance (a b : Evento) : Decidable (data_le a b) := by
  unfold data_le
  exact inferInstance

/-- Read `eventos[k]` of the scratch array. -/
def ler_indice (eventos : List Evento) (k : Int) : Evento := eventos.getD k.toNat default

/-- Exchange `eventos[a]` and `eventos[b]` (`trocar_eventos`).  The C function
copies the whole structs and then exchanges the two `proximo` fields back, so
each slot keeps its own link and only the other fields move: in the model the
link is the position, and the records at the two positions are exchanged. -/
def trocar_eventos (eventos : List Evento) (a b : Int) : List Evento :=
  let temp := ler_indice eventos a
  let eventos1 := eventos.set a.toNat (ler_indice eventos b)
  eventos1.set b.toNat temp

/-- The `for` loop of `particionar_por_data`, with `n` iterations left to run,
the current `i` and `j`.  `pivo` is a pointer into slot `alto`, so the pivot
date is read from the array at each comparison. -/
def particionar_laco : Nat → List Evento → Int → Int → Int → List Evento × Int
  | 0, eventos, _, i, _ => (eventos, i)
  | n + 1, eventos, alto, i, j =>
    if strcmp (ler_indice eventos j).data (ler_indice eventos alto).data ≤ 0 then
      particionar_laco n (trocar_eventos eventos (i + 1) j) alto (i + 1) (j + 1)
    else
      particionar_laco n eventos alto i (j + 1)

/-- Lomuto partition around the date of the last element
(`particionar_por_data`): `j` runs from `baixo` to `alto - 1`, that is
`alto - baixo` iterations. -/
def particionar_por_data (eventos : List Evento) (baixo alto : Int) : List Evento × Int :=
  let r := particionar_laco (alto - baixo).toNat eventos alto (baixo - 1) baixo
  (trocar_eventos r.1 (r.2 + 1) alto, r.2 + 1)

/-- Recursion of `quicksort_eventos_por_data` with an explicit bound on the
recursion depth; `quicksort_eventos_por_data` supplies a bound that is never
reached (theorem `quicksort_rec_profundidade`). -/
def quicksort_rec : Nat → List Evento → Int → Int → List Evento
  | 0, eventos, _, _ => eventos
  | prof + 1, eventos, baixo, alto =>
    if baixo < alto then
      let r := particionar_por_data eventos baixo alto
      let eventos1 := quicksort_rec prof r.1 baixo (r.2 - 1)
      quicksort_rec prof eventos1 (r.2 + 1) alto
    else eventos

/-- Quicksort of `eventos[baixo..alto]` by date (`quicksort_eventos_por_data`). -/
def quicksort_eventos_por_data (eventos : List Evento) (baixo alto : Int) : List Evento :=
  quicksort_rec (alto - baixo + 1).toNat eventos baixo alto

/-- The last loop of `ordenar_eventos_por_data`: walking the chain from its
head, the i-th node receives `eventos_array[i]` (its link is unchanged, see
`trocar_eventos`); nodes past the array are not visited. -/
def reconstruir : List NoEvento → List Evento → List NoEvento
  | [], _ => []
  | atual :: resto, [] => atual :: resto
  | atual :: resto, e :: es => { atual with dados := e } :: reconstruir resto es

/-- Sort the chain by date (`ordenar_eventos_por_data`): copy the first
`tamanho` records to an array, quicksort it, write the array back over the nodes
in traversal order.  With `tamanho` larger than the chain the C code reads
uninitialised array slots and then follows a NULL link: `none`. -/
def ordenar_eventos_por_data (lista : List NoEvento) (tamanho : Int) :
    Option (List NoEvento) :=
  match lista with
  | [] => some []
  | _ :: _ =>
    if tamanho ≤ 1 then some lista
    else if (lista.length : Int) < tamanho then none
    else
      let eventos_array := (lista.take tamanho.toNat).map (fun n => n.dados)
      let ordenado := quicksort_eventos_por_data eventos_array 0 (tamanho - 1)
      some (reconstruir lista ordenado)

/-! ## Menu operations (main.c lines 625-941) -/

/-- The outcome a registration request reports on the console. -/
inductive Resultado where
  | sucesso
  | eventoNaoEncontrado
  | semVagas
  | participanteNaoEncontrado
  | jaInscrito
deriving DecidableEq

/-- The two messages of `nova_inscricao` that report an id missing from its store. -/
def Resultado.naoEncontrado : Resultado → Bool
  | Resultado.eventoNaoEncontrado => true
  | Resultado.participanteNaoEncontrado => true
  | _ => false

/-- Add an event (`adicionar_evento`): `endereco` is the address returned by
`alocar_memoria`, the id is the current counter, and the counter advances. -/
def adicionar_evento (s : Sistema) (endereco : Nat) (nome descricao categoria data : String)
    (capacidade : Int) : Sistema :=
  let novo : NoEvento :=
    { endereco := endereco,
      dados := evento_criar s.proximoIdEvento nome descricao categoria data capacidade }
  { s with lista_eventos := eventos_adicionar s.lista_eventos novo,
           proximoIdEvento := s.proximoIdEvento + 1 }

/-- What `editar_evento` does to the record it found: a text field is replaced
when a non-empty line was typed (`some`), and a capacity greater than 0 replaces
the capacity and moves `vagasDisponiveis` by the difference, not below 0.  The
difference and the sum are computed on `Int`; `edicao_cabe` says that they fit
an `int`. -/
def editar_campos (ev : Evento) (nome descricao categoria data : Option String)
    (capacidade : Int) : Evento :=
  let ev1 := match nome with
    | some x => { ev with nome := x }
    | none => ev
  let ev2 := match descricao with
    | some x => { ev1 with descricao := x }
    | none => ev1
  let ev3 := match categoria with
    | some x => { ev2 with categoria := x }
    | none => ev2
  let ev4 := match data with
    | some x => { ev3 with data := x }
    | none => ev3
  if capacidade > 0 then
    let diferenca := capacidade - ev4.capacidade
    let vagas := ev4.vagasDisponiveis + diferenca
    { ev4 with capacidade := capacidade, vagasDisponiveis := if vagas < 0 then 0 else vagas }
  else ev4

/-- Edit the event with the given id (`editar_evento`); the chain is unchanged
when the id is not found. -/
def editar_evento (lista_eventos : List NoEvento) (id : Int)
    (nome descricao categoria data : Option String) (capacidade : Int) : List NoEvento :=
  match eventos_buscar_por_id lista_eventos id with
  | none => lista_eventos
  | some evento =>
    escrever_evento lista_eventos evento.endereco
      (fun ev => editar_campos ev nome descricao categoria data capacidade)

/-- A registration request (`nova_inscricao`).  The event id is read and checked
first, then the places left, and only then is the participant id read and
checked, then the duplicate test.  `dataAtual` is the result of
`obter_data_atual`. -/
def nova_inscricao (s : Sistema) (idEvento idParticipante : Int) (dataAtual : String) :
    Option (Resultado × Sistema) :=
  match eventos_buscar_por_id s.lista_eventos idEvento with
  | none => some (Resultado.eventoNaoEncontrado, s)
  | some evento =>
    if evento.dados.vagasDisponiveis ≤ 0 then some (Resultado.semVagas, s)
    else
      match lista_participantes_buscar_por_id s.lista_participantes idParticipante with
      | none => some (Resultado.participanteNaoEncontrado, s)
      | some participante =>
        match inscricao_existe s.lista_eventos s.lista_participantes s.lista_inscricoes
            idParticipante idEvento with
        | none => none
        | some true => some (Resultado.jaInscrito, s)
        | some false =>
          let nova := inscricao_criar participante.endereco evento.endereco dataAtual
            StatusInscricao.CONFIRMADA
          some (Resultado.sucesso,
            { s with
              lista_inscricoes := lista_inscricoes_adicionar s.lista_inscricoes nova,
              lista_eventos := escrever_evento s.lista_eventos evento.endereco
                (fun ev => { ev with vagasDisponiveis := ev.vagasDisponiveis - 1 }) })

/-- A cancellation request (`cancelar_inscricao`): the flag returned by
`lista_inscricoes_cancelar` and the state it leaves. -/
def cancelar_inscricao (s : Sistema) (idEvento idParticipante : Int) :
    Option (Bool × Sistema) :=
  match lista_inscricoes_cancelar s.lista_eventos s.lista_participantes s.lista_inscricoes
      idParticipante idEvento with
  | none => none
  | some (b, evs, li) => some (b, { s with lista_eventos := evs, lista_inscricoes := li })

/-- The sort as `main` calls it: on the whole chain, with its length. -/
def ordenar_sistema (s : Sistema) : Option Sistema :=
  match ordenar_eventos_por_data s.lista_eventos (contar_eventos s.lista_eventos) with
  | none => none
  | some l => some { s with lista_eventos := l }

/-! ## Runs of the program -/

/-- The state of `main` before anything is loaded or typed, over a given
participant store: no event, no registration, both counters at 1. -/
def sistema_vazio (participantes : List NoParticipante) : Sistema :=
  { lista_eventos := [], lista_participantes := participantes,
    lista_inscricoes := lista_inscricoes_criar, proximoIdEvento := 1,
    proximoIdParticipante := 1 }

/-- One menu operation together with what the user types and, for an addition,
the address the allocator returns. -/
inductive Op where
  | adicionar (endereco : Nat) (nome descricao categoria data : String) (capacidade : Int)
  | editar (id : Int) (nome descricao categoria data : Option String) (capacidade : Int)
  | inscrever (idEvento idParticipante : Int) (dataAtual : String)
  | cancelar (idEvento idParticipante : Int)
  | ordenar
deriving DecidableEq

/-- The addresses of the live event nodes. -/
def enderecos (lista : List NoEvento) : List Nat := lista.map (fun n => n.endereco)

/-- One operation on the state.  `none` when the step is no execution of the
program: the allocator returned the address of a live node, or a dangling
pointer was read. -/
def passo (s : Sistema) : Op → Option Sistema
  | Op.adicionar endereco nome descricao categoria data capacidade =>
    if endereco ∈ enderecos s.lista_eventos then none
    else some (adicionar_evento s endereco nome descricao categoria data capacidade)
  | Op.editar id nome descricao categoria data capacidade =>
    some { s with lista_eventos :=
      editar_evento s.lista_eventos id nome descricao categoria data capacidade }
  | Op.inscrever idEvento idParticipante dataAtual =>
    match nova_inscricao s idEvento idParticipante dataAtual with
    | none => none
    | some r => some r.2
  | Op.cancelar idEvento idParticipante =>
    match cancelar_inscricao s idEvento idParticipante with
    | none => none
    | some r => some r.2
  | Op.ordenar => ordenar_sistema s

/-- Run a sequence of operations. -/
def executar : Sistema → List Op → Option Sistema
  | s, [] => some s
  | s, op :: ops =>
    match passo s op with
    | none => none
    | some s1 => executar s1 ops

/-! ## Notions used to state the invariants -/

/-- The pair (participant id, event id) a record stands for, read through its
two pointers. -/
def par_do_registro (eventos : List NoEvento) (participantes : List NoParticipante)
    (r : Inscricao) : Option (Int × Int) :=
  match ler_participante participantes r.participante, ler_evento eventos r.evento with
  | some p, some e => some (p.id, e.id)
  | _, _ => none

/-- A record for the pair (`idParticipante`, `idEvento`) that is not CANCELADA. -/
def ativo (eventos : List NoEvento) (participantes : List NoParticipante)
    (idParticipante idEvento : Int) (r : Inscricao) : Bool :=
  decide (r.status ≠ StatusInscricao.CANCELADA) &&
    decide (par_do_registro eventos participantes r = some (idParticipante, idEvento))

/-- The records of the log for a pair whose status is not CANCELADA. -/
def registros_ativos (s : Sistema) (idParticipante idEvento : Int) : List Inscricao :=
  s.lista_inscricoes.inicio.filter
    (ativo s.lista_eventos s.lista_participantes idParticipante idEvento)

/-- The operation is a registration or a cancellation. -/
def Op.deInscricao : Op → Bool
  | Op.inscrever _ _ _ => true
  | Op.cancelar _ _ => true
  | _ => false

/-- Two event chains store the same id at every address. -/
def mesmos_ids (evs evs1 : List NoEvento) : Prop :=
  ∀ a, (ler_evento evs1 a).map (fun e => e.id) = (ler_evento evs a).map (fun e => e.id)

/-- Every event has between 0 and `capacidade` places left. -/
def limites_ok (s : Sistema) : Prop :=
  ∀ n ∈ s.lista_eventos,
    0 ≤ n.dados.vagasDisponiveis ∧ n.dados.vagasDisponiveis ≤ n.dados.capacidade

instance (s : Sistema) : Decidable (limites_ok s) := by
  unfold limites_ok
  exact inferInstance

/-- An addition is made with a capacity that is not negative. -/
def Op.capacidadeNaoNegativa : Op → Bool
  | Op.adicionar _ _ _ _ _ capacidade => decide (0 ≤ capacidade)
  | _ => true

/-- The operation is not the date sort. -/
def Op.semOrdenar : Op → Bool
  | Op.ordenar => false
  | _ => true

/-- An edit that does not hit the floor: the capacity typed is kept (not
greater than 0) or leaves `vagasDisponiveis + (capacidade - old capacity)` at 0
or more. -/
def edicao_sem_piso (s : Sistema) : Op → Bool
  | Op.editar id _ _ _ _ capacidade =>
    match eventos_buscar_por_id s.lista_eventos id with
    | none => true
    | some evento =>
      decide (capacidade ≤ 0 ∨
        0 ≤ evento.dados.vagasDisponiveis + (capacidade - evento.dados.capacidade))
  | _ => true

/-- No edit of the run hits the floor. -/
def sem_piso : Sistema → List Op → Bool
  | _, [] => true
  | s, op :: ops =>
    edicao_sem_piso s op &&
      match passo s op with
      | none => true
      | some s1 => sem_piso s1 ops

/-- Number of CONFIRMADA records that point to the event node at address `a`. -/
def ocupadas (rs : List Inscricao) (a : Nat) : Nat :=
  rs.countP (fun r => decide (r.evento = a) && decide (r.status = StatusInscricao.CONFIRMADA))

/-- The places taken of every event are the CONFIRMADA records pointing to it,
every record points to a live event node and the nodes have distinct addresses. -/
def contagem_ok (s : Sistema) : Prop :=
  (enderecos s.lista_eventos).Nodup ∧
  (∀ r ∈ s.lista_inscricoes.inicio, r.evento ∈ enderecos s.lista_eventos) ∧
  ∀ n ∈ s.lista_eventos,
    n.dados.capacidade - n.dados.vagasDisponiveis =
      (ocupadas s.lista_inscricoes.inicio n.endereco : Int)

/-- The run that breaks the upper bound without any sort: an event of capacity
2 is filled by P1 and P2, its capacity is edited down to 1, and both
registrations are cancelled. -/
def corrida_reducao : List Op :=
  [Op.adicionar 10 "E1" "" "" "2025-03-01" 2,
   Op.inscrever 1 1 "2025-02-01",
   Op.inscrever 1 2 "2025-02-01",
   Op.editar 1 none none none none 1,
   Op.cancelar 1 1,
   Op.cancelar 1 2]

/-- The state in which `corrida_reducao` ends. -/
def estado_reducao : Sistema :=
  Sistema.mk [NoEvento.mk 10 (Evento.mk 1 "E1" "" "" "2025-03-01" 1 2)]
    [NoParticipante.mk 100 (Participante.mk 1 "Ana" "ana@x" "1"),
     NoParticipante.mk 101 (Participante.mk 2 "Bia" "bia@x" "2")]
    (ListaInscricoes.mk
      [Inscricao.mk 100 10 "2025-02-01" StatusInscricao.CANCELADA,
       Inscricao.mk 101 10 "2025-02-01" StatusInscricao.CANCELADA] 2) 2 1

/-- The event chain of the sort scenario: E1 (2025-03-01, capacity 2) in the
node at address 10, followed by E2 (2025-01-10, capacity 1) in the node at
address 11. -/
def lista_cenario_ordenar : List NoEvento :=
  [NoEvento.mk 10 (Evento.mk 1 "E1" "" "" "2025-03-01" 2 1),
   NoEvento.mk 11 (Evento.mk 2 "E2" "" "" "2025-01-10" 1 1)]

/-- The registration of P1 for E1 in the sort scenario: it points to the node
at address 10. -/
def inscricao_cenario_ordenar : Inscricao :=
  inscricao_criar 100 10 "2025-02-01" StatusInscricao.CONFIRMADA

/-- Participant P1 of the scenarios, at address 100. -/
def P1 : NoParticipante :=
  { endereco := 100, dados := { id := 1, nome := "Ana", email := "ana@x", telefone := "1" } }

/-- Participant P2 of the scenarios, at address 101. -/
def P2 : NoParticipante :=
  { endereco := 101, dados := { id := 2, nome := "Bia", email := "bia@x", telefone := "2" } }

/-- The state of the sort scenario: the two events, P1 and P2, and the
registration of P1 for E1. -/
def sistema_cenario_ordenar : Sistema :=
  Sistema.mk lista_cenario_ordenar [P1, P2]
    (ListaInscricoes.mk [inscricao_cenario_ordenar] 1) 3 3

/-! ## Well-formed memory and the scenarios of the specification -/

/-- Distinct live nodes have distinct addresses, in both stores. -/
def Sistema.memoriaOk (s : Sistema) : Prop :=
  (enderecos s.lista_eventos).Nodup ∧
    (s.lista_participantes.map (fun n => n.endereco)).Nodup

instance (s : Sistema) : Decidable s.memoriaOk := by
  unfold Sistema.memoriaOk
  exact inferInstance

/-- The event node of the scenarios: event 1 at address 10, dated 2025-03-01,
with the given capacity and places left. -/
def no_cenario (capacidade vagas : Int) : NoEvento :=
  NoEvento.mk 10 (Evento.mk 1 "E1" "" "" "2025-03-01" capacidade vagas)

/-- A state with the single event `no_cenario`, the participants P1 and P2 and
the given records. -/
def cenario (capacidade vagas : Int) (registros : List Inscricao) : Sistema :=
  { lista_eventos := [no_cenario capacidade vagas],
    lista_participantes := [P1, P2],
    lista_inscricoes := { inicio := registros, tamanho := registros.length },
    proximoIdEvento := 2, proximoIdParticipante := 3 }

/-- The record with one place less (`evento->vagasDisponiveis--`). -/
def menos_uma_vaga (n : NoEvento) : NoEvento :=
  { n with dados := { n.dados with vagasDisponiveis := n.dados.vagasDisponiveis - 1 } }

/-! ## Notions used to state the claims on the log -/

/-- Both pointers of every record designate a live node. -/
def ponteiros_validos (eventos : List NoEvento) (participantes : List NoParticipante)
    (rs : List Inscricao) : Prop :=
  ∀ r ∈ rs, (ler_participante participantes r.participante).isSome = true ∧
    (ler_evento eventos r.evento).isSome = true

instance (eventos : List NoEvento) (participantes : List NoParticipante)
    (rs : List Inscricao) : Decidable (ponteiros_validos eventos participantes rs) := by
  unfold ponteiros_validos
  exact inferInstance

/-- A CONFIRMADA record of the pair (`idParticipante`, `idEvento`). -/
def confirmado (eventos : List NoEvento) (participantes : List NoParticipante)
    (idParticipante idEvento : Int) (r : Inscricao) : Prop :=
  par_do_registro eventos participantes r = some (idParticipante, idEvento) ∧
    r.status = StatusInscricao.CONFIRMADA

instance (eventos : List NoEvento) (participantes : List NoParticipante)
    (idParticipante idEvento : Int) (r : Inscricao) :
    Decidable (confirmado eventos participantes idParticipante idEvento r) := by
  unfold confirmado
  exact inferInstance

/-- The record `depois` is the record `antes` with the same participant, event
and date, and a status that is the same or went from CONFIRMADA to CANCELADA. -/
def mesmo_registro (antes depois : Inscricao) : Prop :=
  depois.participante = antes.participante ∧ depois.evento = antes.evento ∧
    depois.dataInscricao = antes.dataInscricao ∧
    (depois.status = antes.status ∨
      (antes.status = StatusInscricao.CONFIRMADA ∧
        depois.status = StatusInscricao.CANCELADA))

/-- The records of `antes` are all in `depois`, at the same positions and in the
sense of `mesmo_registro`; `depois` may hold more records after them. -/
def estende : List Inscricao → List Inscricao → Prop
  | [], _ => True
  | _ :: _, [] => False
  | r :: antes, r1 :: depois => mesmo_registro r r1 ∧ estende antes depois

/-- A log with one PENDENTE record of P1 for the scenario event. -/
def log_pendente : ListaInscricoes :=
  ListaInscricoes.mk [inscricao_criar 100 10 "2025-02-01" StatusInscricao.PENDENTE] 1

/-! ## Removing events (main.c lines 134-159, 747-762) -/

/-- The loop of `eventos_remover`, standing on `atual` with the chain `resto`
after it: the first node after `atual` whose id matches is unlinked, and the
chain from `atual` on is returned. -/
def eventos_remover_laco : NoEvento → List NoEvento → Int → List NoEvento
  | atual, [], _ => [atual]
  | atual, proximo :: resto, id =>
    if proximo.dados.id = id then atual :: resto
    else atual :: eventos_remover_laco proximo resto id

/-- Unlink and free the first node carrying the id (`eventos_remover`): the
head is tested first, then the loop looks one node ahead. -/
def eventos_remover : List NoEvento → Int → List NoEvento
  | [], _ => []
  | primeiro :: resto, id =>
    if primeiro.dados.id = id then resto else eventos_remover_laco primeiro resto id

/-- The menu operation `remover_evento`: the chain is handed to
`eventos_remover` only when the id is found. -/
def remover_evento (s : Sistema) (id : Int) : Sistema :=
  match eventos_buscar_por_id s.lista_eventos id with
  | some _ => { s with lista_eventos := eventos_remover s.lista_eventos id }
  | none => s

/-- An operation on the event store: an addition (with the address the
allocator returns), a removal or the date sort. -/
inductive OpEvento where
  | adicionar (endereco : Nat) (nome descricao categoria data : String) (capacidade : Int)
  | remover (id : Int)
  | ordenar
deriving DecidableEq

/-- One operation on the event store.  `none` when the allocator returned the
address of a live node. -/
def passo_eventos (s : Sistema) : OpEvento → Option Sistema
  | OpEvento.adicionar endereco nome descricao categoria data capacidade =>
    if endereco ∈ enderecos s.lista_eventos then none
    else some (adicionar_evento s endereco nome descricao categoria data capacidade)
  | OpEvento.remover id => some (remover_evento s id)
  | OpEvento.ordenar => ordenar_sistema s

/-- Run a sequence of operations on the event store. -/
def executar_eventos : Sistema → List OpEvento → Option Sistema
  | s, [] => some s
  | s, op :: ops =>
    match passo_eventos s op with
    | none => none
    | some s1 => executar_eventos s1 ops

/-- Number of additions in a sequence of operations on the event store. -/
def contar_adicoes : List OpEvento → Nat
  | [] => 0
  | OpEvento.adicionar _ _ _ _ _ _ :: ops => contar_adicoes ops + 1
  | _ :: ops => contar_adicoes ops

/-- The ids of the events of a chain, in chain order. -/
def ids_eventos (lista : List NoEvento) : List Int := lista.map (fun n => n.dados.id)

/-! ## The circular participant list at the level of nodes and links
(main.c lines 184-307) -/

namespace Circular

/-- One allocated `struct participante`: the record and the link `proximo`
(`none` is NULL). -/
structure Celula where
  dados : Participante
  proximo : Option Nat
deriving DecidableEq

/-- The memory that holds the participant nodes: what is stored at each
address, `none` where nothing is allocated. -/
abbrev Memoria := Nat → Option Celula

/-- The fields of `struct lista_participantes` together with the memory the
nodes live in. -/
structure ListaParticipantes where
  mem : Memoria
  inicio : Option Nat
  tamanho : Int

/-- An empty list (`lista_participantes_criar`). -/
def lista_participantes_criar : ListaParticipantes :=
  { mem := fun _ => none, inicio := none, tamanho := 0 }

/-- Allocate a node at `endereco` and fill it (`participante_criar`): the link
starts as NULL. -/
def participante_criar (mem : Memoria) (endereco : Nat) (dados : Participante) : Memoria :=
  Function.update mem endereco (some { dados := dados, proximo := none })

/-- The loop `while (ultimo->proximo != lista->inicio) ultimo = ultimo->proximo;`
with at most `n` tests of its condition; `none` when a NULL or dangling pointer
is read or the bound is used up. -/
def ultimo_laco : Nat → Memoria → Nat → Nat → Option Nat
  | 0, _, _, _ => none
  | n + 1, mem, inicio, ultimo =>
    match mem ultimo with
    | none => none
    | some c =>
      if c.proximo = some inicio then some ultimo
      else
        match c.proximo with
        | none => none
        | some p => ultimo_laco n mem inicio p

/-- Link the node at `novo` as the last of the cycle
(`lista_participantes_adicionar`); `n` bounds the loop. -/
def lista_participantes_adicionar (n : Nat) (l : ListaParticipantes) (novo : Nat) :
    Option ListaParticipantes :=
  match l.inicio with
  | none =>
    match l.mem novo with
    | none => none
    | some c =>
      some { mem := Function.update l.mem novo (some { c with proximo := some novo }),
             inicio := some novo, tamanho := l.tamanho + 1 }
  | some inicio =>
    match ultimo_laco n l.mem inicio inicio with
    | none => none
    | some ultimo =>
      match l.mem novo with
      | none => none
      | some c =>
        let mem1 := Function.update l.mem novo (some { c with proximo := some inicio })
        match mem1 ultimo with
        | none => none
        | some cu =>
          some { mem := Function.update mem1 ultimo (some { cu with proximo := some novo }),
                 inicio := some inicio, tamanho := l.tamanho + 1 }

/-- The do-while loop of `lista_participantes_buscar_por_id` standing on
`atual`; the inner option is the pointer returned (`none` is NULL). -/
def buscar_laco : Nat → Memoria → Nat → Nat → Int → Option (Option Nat)
  | 0, _, _, _, _ => none
  | n + 1, mem, inicio, atual, id =>
    match mem atual with
    | none => none
    | some c =>
      if c.dados.id = id then some (some atual)
      else
        match c.proximo with
        | none => none
        | some p => if p = inicio then some none else buscar_laco n mem inicio p id

/-- Find a participant by id (`lista_participantes_buscar_por_id`). -/
def lista_participantes_buscar_por_id (n : Nat) (l : ListaParticipantes) (id : Int) :
    Option (Option Nat) :=
  match l.inicio with
  | none => some none
  | some inicio => buscar_laco n l.mem inicio inicio id

/-- The last loop of `lista_participantes_remover`, standing on `atual`: the
node after `atual` is unlinked and freed when it carries the id. -/
def remover_laco : Nat → ListaParticipantes → Nat → Nat → Int → Option ListaParticipantes
  | 0, _, _, _, _ => none
  | n + 1, l, inicio, atual, id =>
    match l.mem atual with
    | none => none
    | some ca =>
      if ca.proximo = some inicio then some l
      else
        match ca.proximo with
        | none => none
        | some p =>
          match l.mem p with
          | none => none
          | some cp =>
            if cp.dados.id = id then
              some { mem := Function.update
                       (Function.update l.mem atual (some { ca with proximo := cp.proximo }))
                       p none,
                     inicio := l.inicio, tamanho := l.tamanho - 1 }
            else remover_laco n l inicio p id

/-- Remove the first participant carrying the id (`lista_participantes_remover`):
the empty list, the list of one node, the removal of the first node, and the
general case. -/
def lista_participantes_remover (n : Nat) (l : ListaParticipantes) (id : Int) :
    Option ListaParticipantes :=
  match l.inicio with
  | none => some l
  | some inicio =>
    match l.mem inicio with
    | none => none
    | some ci =>
      if ci.dados.id = id ∧ ci.proximo = some inicio then
        some { mem := Function.update l.mem inicio none, inicio := none, tamanho := 0 }
      else if ci.dados.id = id then
        match ultimo_laco n l.mem inicio inicio with
        | none => none
        | some ultimo =>
          match l.mem ultimo with
          | none => none
          | some cu =>
            some { mem := Function.update
                     (Function.update l.mem ultimo (some { cu with proximo := ci.proximo }))
                     inicio none,
                   inicio := ci.proximo, tamanho := l.tamanho - 1 }
      else remover_laco n l inicio inicio id

/-- The do-while loop of `lista_participantes_listar` (and of the save)
standing on `atual`: the nodes visited from there, in order. -/
def listar_laco : Nat → Memoria → Nat → Nat → Option (List NoParticipante)
  | 0, _, _, _ => none
  | n + 1, mem, inicio, atual =>
    match mem atual with
    | none => none
    | some c =>
      match c.proximo with
      | none => none
      | some p =>
        if p = inicio then some [NoParticipante.mk atual c.dados]
        else
          match listar_laco n mem inicio p with
          | none => none
          | some resto => some (NoParticipante.mk atual c.dados :: resto)

/-- The nodes that `lista_participantes_listar` visits, in order. -/
def lista_participantes_listar (n : Nat) (l : ListaParticipantes) :
    Option (List NoParticipante) :=
  match l.inicio with
  | none => some []
  | some inicio => listar_laco n l.mem inicio inicio

/-- The address a node of a chain links to: the next node of the chain, or
`fim` after the last one. -/
def seguinte (fim : Nat) : List NoParticipante → Nat
  | [] => fim
  | y :: _ => y.endereco

/-- The nodes are stored in memory and linked in this order, the last one
linking to `fim`. -/
def cadeia (mem : Memoria) (fim : Nat) : List NoParticipante → Prop
  | [] => True
  | x :: t =>
    mem x.endereco = some { dados := x.dados, proximo := some (seguinte fim t) } ∧
      cadeia mem fim t

/-- The list is a single cycle through `nos`, in this order from `inicio`:
distinct nodes, each linking to the next and the last back to the first,
`inicio` NULL exactly when there is no node, and `tamanho` their number. -/
def representa (l : ListaParticipantes) (nos : List NoParticipante) : Prop :=
  l.inicio = (nos.head?).map (fun n => n.endereco) ∧
  l.tamanho = (nos.length : Int) ∧
  (nos.map (fun n => n.endereco)).Nodup ∧
  cadeia l.mem (seguinte 0 nos) nos

/-- The last node of the non-empty sequence `x :: t`. -/
def ultimo_de : NoParticipante → List NoParticipante → NoParticipante
  | x, [] => x
  | _, y :: t => ultimo_de y t

/-- The non-empty sequence `x :: t` without its last node. -/
def sem_ultimo : NoParticipante → List NoParticipante → List NoParticipante
  | _, [] => []
  | x, y :: t => x :: sem_ultimo y t

/-- A sequence of nodes without the first one that carries the id. -/
def apagar_primeiro : List NoParticipante → Int → List NoParticipante
  | [], _ => []
  | x :: t, id => if x.dados.id = id then t else x :: apagar_primeiro t id

/-- An operation on the participant list: the addition of a node allocated at
`endereco`, or the removal of an id. -/
inductive OpParticipante where
  | adicionar (endereco : Nat) (dados : Participante)
  | remover (id : Int)
deriving DecidableEq

/-- One operation on the participant list, with the bound `n` for its loops. -/
def passo_participantes (n : Nat) (l : ListaParticipantes) :
    OpParticipante → Option ListaParticipantes
  | OpParticipante.adicionar endereco dados =>
    lista_participantes_adicionar n
      { l with mem := participante_criar l.mem endereco dados } endereco
  | OpParticipante.remover id => lista_participantes_remover n l id

/-- Run a sequence of operations on the participant list. -/
def executar_participantes (n : Nat) : ListaParticipantes → List OpParticipante →
    Option ListaParticipantes
  | l, [] => some l
  | l, op :: ops =>
    match passo_participantes n l op with
    | none => none
    | some l1 => executar_participantes n l1 ops

/-- Every addition of the run gets a fresh node: the allocator returns an
address at which nothing is allocated. -/
def nos_frescos (n : Nat) : ListaParticipantes → List OpParticipante → Bool
  | _, [] => true
  | l, op :: ops =>
    (match op with
      | OpParticipante.adicionar endereco _ => (l.mem endereco).isNone
      | OpParticipante.remover _ => true) &&
    (match passo_participantes n l op with
      | none => true
      | some l1 => nos_frescos n l1 ops)

/-- The cycle of the two scenario participants: P1 at address 100 linked to P2
at address 101 and back. -/
def lista_dois : ListaParticipantes :=
  { mem := fun a =>
      if a = 100 then some { dados := P1.dados, proximo := some 101 }
      else if a = 101 then some { dados := P2.dados, proximo := some 100 }
      else none,
    inicio := some 100, tamanho := 2 }

end Circular

/-! ## Saving and loading the events as text (main.c lines 1053-1086)

A text is a sequence of `Char`, each standing for one `char` of the C program.
The content of the file is passed as a value; a file that cannot be opened is
not modelled. -/

/-- The double-quote character. -/
def aspas : Char := Char.ofNat 34

/-- The line-feed character. -/
def nova_linha : Char := Char.ofNat 10

/-- What `%d` prints for an `int`. -/
def formatar_int (i : Int) : List Char :=
  if i < 0 then Char.ofNat 45 :: Nat.toDigits 10 i.natAbs else Nat.toDigits 10 i.toNat

/-- The header line written by `salvar_eventos_csv`. -/
def cabecalho_eventos : List Char :=
  "id,nome,descricao,categoria,data,capacidade,vagasDisponiveis".toList ++ [nova_linha]

/-- One row as `salvar_eventos_csv` prints it: the id, the three texts between
double quotes and copied as they are, the date, the capacity and the places
left, separated by commas and ended by a line feed. -/
def linha_evento (e : Evento) : List Char :=
  formatar_int e.id ++ [Char.ofNat 44, aspas] ++ e.nome.toList ++
    [aspas, Char.ofNat 44, aspas] ++ e.descricao.toList ++
    [aspas, Char.ofNat 44, aspas] ++ e.categoria.toList ++
    [aspas, Char.ofNat 44] ++ e.data.toList ++ [Char.ofNat 44] ++
    formatar_int e.capacidade ++ [Char.ofNat 44] ++ formatar_int e.vagasDisponiveis ++
    [nova_linha]

/-- The text written by `salvar_eventos_csv`: the header and one row per node,
in chain order. -/
def salvar_eventos_csv (lista : List NoEvento) : List Char :=
  cabecalho_eventos ++ (lista.map (fun n => linha_evento n.dados)).flatten

/-- Successive results of `fgets(linha, n, f)` on the text: each line holds at
most `n - 1` characters and ends after a line feed.  `atual` is the line being
read, in reverse, and `k` the room left in the buffer. -/
def fgets_linhas (n : Nat) : List Char → List Char → Nat → List (List Char)
  | [], atual, _ => if atual = [] then [] else [atual.reverse]
  | c :: resto, atual, k =>
    if c = nova_linha ∨ k ≤ 1 then (c :: atual).reverse :: fgets_linhas n resto [] (n - 1)
    else fgets_linhas n resto (c :: atual) (k - 1)

/-- The variables `sscanf` writes to in `carregar_eventos_csv`; `none` while a
variable has never been written. -/
structure VarsEvento where
  id : Option Int
  nome : Option String
  descricao : Option String
  categoria : Option String
  data : Option String
  capacidade : Option Int
  vagas : Option Int
deriving DecidableEq

/-- Names of the variables of `VarsEvento`. -/
inductive Campo where
  | id
  | nome
  | descricao
  | categoria
  | data
  | capacidade
  | vagas
deriving DecidableEq

/-- Store an `int` conversion in its variable. -/
def VarsEvento.guardar_int (v : VarsEvento) : Campo → Int → VarsEvento
  | Campo.id, i => { v with id := some i }
  | Campo.capacidade, i => { v with capacidade := some i }
  | Campo.vagas, i => { v with vagas := some i }
  | _, _ => v

/-- Store a text conversion in its variable. -/
def VarsEvento.guardar_texto (v : VarsEvento) : Campo → String → VarsEvento
  | Campo.nome, s => { v with nome := some s }
  | Campo.descricao, s => { v with descricao := some s }
  | Campo.categoria, s => { v with categoria := some s }
  | Campo.data, s => { v with data := some s }
  | _, _ => v

/-- A directive of a `sscanf` format: `%d`, an ordinary character, or
`%N[^c]`. -/
inductive Diretiva where
  | inteiro (destino : Campo)
  | literal (c : Char)
  | conjunto (largura : Nat) (excluido : Char) (destino : Campo)

/-- The format of `carregar_eventos_csv`:
`%d,"%99[^"]","%499[^"]","%49[^"]",%10[^,],%d,%d`. -/
def formato_eventos : List Diretiva :=
  [Diretiva.inteiro Campo.id, Diretiva.literal (Char.ofNat 44), Diretiva.literal aspas,
   Diretiva.conjunto 99 aspas Campo.nome, Diretiva.literal aspas,
   Diretiva.literal (Char.ofNat 44), Diretiva.literal aspas,
   Diretiva.conjunto 499 aspas Campo.descricao, Diretiva.literal aspas,
   Diretiva.literal (Char.ofNat 44), Diretiva.literal aspas,
   Diretiva.conjunto 49 aspas Campo.categoria, Diretiva.literal aspas,
   Diretiva.literal (Char.ofNat 44),
   Diretiva.conjunto 10 (Char.ofNat 44) Campo.data, Diretiva.literal (Char.ofNat 44),
   Diretiva.inteiro Campo.capacidade, Diretiva.literal (Char.ofNat 44),
   Diretiva.inteiro Campo.vagas]

/-- White space as `isspace` sees it: space, tab, line feed, vertical tab, form
feed, carriage return. -/
def eh_espaco (c : Char) : Bool :=
  c.toNat = 32 || (9 ≤ c.toNat && c.toNat ≤ 13)

/-- Skip the white space a `%d` conversion skips. -/
def pular_espacos : List Char → List Char
  | [] => []
  | c :: resto => if eh_espaco c then pular_espacos resto else c :: resto

/-- Read the decimal digits at the front of the text: their value, how many
they are and the rest of the text. -/
def ler_digitos : List Char → Nat → Nat → Nat × Nat × List Char
  | [], valor, quantos => (valor, quantos, [])
  | c :: resto, valor, quantos =>
    if c.isDigit then ler_digitos resto (valor * 10 + (c.toNat - 48)) (quantos + 1)
    else (valor, quantos, c :: resto)

/-- The conversion `%d`: white space, an optional sign, at least one digit.  The
result is the number written; in C the conversion is undefined when that number
does not fit an `int`. -/
def ler_inteiro (entrada : List Char) : Option (Int × List Char) :=
  match pular_espacos entrada with
  | [] => none
  | c :: resto =>
    if c.toNat = 45 then
      match ler_digitos resto 0 0 with
      | (_, 0, _) => none
      | (valor, _, r) => some (-(valor : Int), r)
    else if c.toNat = 43 then
      match ler_digitos resto 0 0 with
      | (_, 0, _) => none
      | (valor, _, r) => some ((valor : Int), r)
    else
      match ler_digitos (c :: resto) 0 0 with
      | (_, 0, _) => none
      | (valor, _, r) => some ((valor : Int), r)

/-- The conversion `%N[^c]`: the longest run of at most `largura` characters
other than `excluido`, and the rest of the text. -/
def ler_conjunto : Nat → Char → List Char → List Char × List Char
  | 0, _, entrada => ([], entrada)
  | _ + 1, _, [] => ([], [])
  | k + 1, excluido, c :: resto =>
    if c = excluido then ([], c :: resto)
    else ((ler_conjunto k excluido resto).1.cons c, (ler_conjunto k excluido resto).2)

/-- The function `sscanf` on one line: the directives are carried out in order
and the scan stops at the first one that fails, leaving the variables not yet
reached with the value they had. -/
def sscanf : List Diretiva → List Char → VarsEvento → VarsEvento
  | [], _, v => v
  | Diretiva.inteiro destino :: ds, entrada, v =>
    match ler_inteiro entrada with
    | none => v
    | some (i, resto) => sscanf ds resto (v.guardar_int destino i)
  | Diretiva.literal c :: ds, entrada, v =>
    match entrada with
    | [] => v
    | x :: resto => if x = c then sscanf ds resto v else v
  | Diretiva.conjunto largura excluido destino :: ds, entrada, v =>
    match ler_conjunto largura excluido entrada with
    | ([], _) => v
    | (x :: lido, resto) =>
      sscanf ds resto (v.guardar_texto destino (String.mk (x :: lido)))

/-- The record `carregar_eventos_csv` builds from the variables after a line was
scanned (`evento_criar` then `novo->vagasDisponiveis = vagas`); `none` when a
variable that was never written is read. -/
def evento_das_vars (v : VarsEvento) : Option Evento :=
  match v.id, v.nome, v.descricao, v.categoria, v.data, v.capacidade, v.vagas with
  | some id, some nome, some descricao, some categoria, some data, some capacidade,
      some vagas =>
    some { evento_criar id nome descricao categoria data capacidade with
           vagasDisponiveis := vagas }
  | _, _, _, _, _, _, _ => none

/-- The loop of `carregar_eventos_csv` over the lines after the header.  The
variables are declared outside the loop and keep their values from one line to
the next.  The k-th node allocated is given address k.  The counter update
`id + 1` is computed on `Int`; in C it overflows for `id` = `INT_MAX`. -/
def carregar_eventos_laco : List (List Char) → VarsEvento → List NoEvento → Int →
    Option (List NoEvento × Int)
  | [], _, lista, proximoIdEvento => some (lista, proximoIdEvento)
  | linha :: linhas, v, lista, proximoIdEvento =>
    let v1 := sscanf formato_eventos linha v
    match evento_das_vars v1 with
    | none => none
    | some e =>
      carregar_eventos_laco linhas v1
        (eventos_adicionar lista (NoEvento.mk lista.length e))
        (if e.id ≥ proximoIdEvento then e.id + 1 else proximoIdEvento)

/-- Load the events from the text of the file (`carregar_eventos_csv`): the
first line is read and dropped, every other line gives one event. -/
def carregar_eventos_csv (texto : List Char) (proximoIdEvento : Int) :
    Option (List NoEvento × Int) :=
  match fgets_linhas 1024 texto [] 1023 with
  | [] => some ([], proximoIdEvento)
  | _ :: linhas =>
    carregar_eventos_laco linhas
      (VarsEvento.mk none none none none none none none) [] proximoIdEvento

/-- The chain of the save scenario: E1, and an event whose name holds double
quotes. -/
def lista_cenario_csv : List NoEvento :=
  [NoEvento.mk 0 (Evento.mk 1 "E1" "Desc1" "Cat1" "2025-03-01" 2 1),
   NoEvento.mk 1 (Evento.mk 2
     (String.mk ("Festa ".toList ++ [aspas, Char.ofNat 88, aspas]))
     "Desc2" "Cat2" "2025-01-10" 5 5)]

/-- A chain whose second event has an empty description. -/
def lista_cenario_csv_vazio : List NoEvento :=
  [NoEvento.mk 0 (Evento.mk 1 "E1" "Desc1" "Cat1" "2025-03-01" 2 1),
   NoEvento.mk 1 (Evento.mk 2 "E2" "" "Cat2" "2025-01-10" 5 5)]

/-- A chain whose second event has commas in its texts. -/
def lista_cenario_csv_virgula : List NoEvento :=
  [NoEvento.mk 0 (Evento.mk 1 "E1" "Desc1" "Cat1" "2025-03-01" 2 1),
   NoEvento.mk 1 (Evento.mk 2 "A, B" "x,y,z" "c," "2025-01-10" 5 5)]

/-- A chain already in date order in which two events share a date. -/
def lista_datas_iguais : List NoEvento :=
  [NoEvento.mk 0 (Evento.mk 2 "E2" "Desc2" "Cat2" "2025-01-10" 1 1),
   NoEvento.mk 1 (Evento.mk 1 "E1" "Desc1" "Cat1" "2025-03-01" 2 2),
   NoEvento.mk 2 (Evento.mk 3 "E3" "Desc3" "Cat3" "2025-03-01" 4 0)]

/-! ## Dates in the fixed form (four-digit year, hyphen, two-digit month, hyphen,
two-digit day)

The program stores a date as text and never takes it apart.  The definitions
below give the reading of such a text as three numbers, as the specification
describes it; they are what the byte order of `strcmp` is compared with. -/

/-- The value of a decimal digit character. -/
def valor_digito (c : Char) : Nat := c.toNat - 48

/-- The text is written in the fixed form: four digits, a hyphen, two digits, a
hyphen and two digits, and nothing else. -/
def forma_data (s : String) : Bool :=
  match s.toList with
  | [a, b, c, d, h1, e, f, h2, g, h] =>
    a.isDigit && b.isDigit && c.isDigit && d.isDigit && decide (h1 = Char.ofNat 45) &&
      e.isDigit && f.isDigit && decide (h2 = Char.ofNat 45) && g.isDigit && h.isDigit
  | _ => false

/-- The year written in the first four characters. -/
def ano (s : String) : Nat :=
  match s.toList with
  | a :: b :: c :: d :: _ =>
    1000 * valor_digito a + 100 * valor_digito b + 10 * valor_digito c + valor_digito d
  | _ => 0

/-- The month written in the sixth and seventh characters. -/
def mes (s : String) : Nat :=
  match s.toList with
  | _ :: _ :: _ :: _ :: _ :: e :: f :: _ => 10 * valor_digito e + valor_digito f
  | _ => 0

/-- The day written in the ninth and tenth characters. -/
def dia (s : String) : Nat :=
  match s.toList with
  | _ :: _ :: _ :: _ :: _ :: _ :: _ :: _ :: g :: h :: _ => 10 * valor_digito g + valor_digito h
  | _ => 0

/-! ## Loading the participants and the registrations (main.c lines 1088-1158)

The two formats are read by a scanner that returns the converted values in the
order of the arguments; each loader then stores them in its own variables. -/

/-- A directive of a `sscanf` format whose conversions go to the arguments in
order: `%d`, an ordinary character, or `%N[^c]`. -/
inductive Conversao where
  | inteiro
  | literal (c : Char)
  | conjunto (largura : Nat) (excluido : Char)

/-- A value converted by `sscanf`. -/
inductive Valor where
  | inteiro (i : Int)
  | texto (s : String)
deriving DecidableEq

/-- The values `sscanf` converts from a line, in the order of the arguments; the
scan stops at the first directive that fails. -/
def sscanf_valores : List Conversao → List Char → List Valor
  | [], _ => []
  | Conversao.inteiro :: ds, entrada =>
    match ler_inteiro entrada with
    | none => []
    | some (i, resto) => Valor.inteiro i :: sscanf_valores ds resto
  | Conversao.literal c :: ds, entrada =>
    match entrada with
    | [] => []
    | x :: resto => if x = c then sscanf_valores ds resto else []
  | Conversao.conjunto largura excluido :: ds, entrada =>
    match ler_conjunto largura excluido entrada with
    | ([], _) => []
    | (x :: lido, resto) => Valor.texto (String.mk (x :: lido)) :: sscanf_valores ds resto

/-- An `int` variable passed to `sscanf`: it takes the converted value, and keeps
the value it had when the scan stopped before it. -/
def atribuir_int (antes : Option Int) : Option Valor → Option Int
  | some (Valor.inteiro i) => some i
  | _ => antes

/-- A `char` array passed to `sscanf`. -/
def atribuir_texto (antes : Option String) : Option Valor → Option String
  | some (Valor.texto s) => some s
  | _ => antes

/-- The variables `sscanf` writes to in `carregar_participantes_csv`; `none`
while a variable has never been written. -/
structure VarsParticipante where
  id : Option Int
  nome : Option String
  email : Option String
  telefone : Option String
deriving DecidableEq

/-- The header line written by `salvar_participantes_csv`. -/
def cabecalho_participantes : List Char :=
  "id,nome,email,telefone".toList ++ [nova_linha]

/-- One row as `salvar_participantes_csv` prints it. -/
def linha_participante (p : Participante) : List Char :=
  formatar_int p.id ++ [Char.ofNat 44, aspas] ++ p.nome.toList ++
    [aspas, Char.ofNat 44, aspas] ++ p.email.toList ++
    [aspas, Char.ofNat 44, aspas] ++ p.telefone.toList ++ [aspas, nova_linha]

/-- The format of `carregar_participantes_csv`: `%d,"%99[^"]","%99[^"]","%19[^"]"`. -/
def formato_participantes : List Conversao :=
  [Conversao.inteiro, Conversao.literal (Char.ofNat 44), Conversao.literal aspas,
   Conversao.conjunto 99 aspas, Conversao.literal aspas,
   Conversao.literal (Char.ofNat 44), Conversao.literal aspas,
   Conversao.conjunto 99 aspas, Conversao.literal aspas,
   Conversao.literal (Char.ofNat 44), Conversao.literal aspas,
   Conversao.conjunto 19 aspas, Conversao.literal aspas]

/-- The call of `sscanf` in `carregar_participantes_csv` on one line. -/
def VarsParticipante.ler (v : VarsParticipante) (linha : List Char) : VarsParticipante :=
  let valores := sscanf_valores formato_participantes linha
  { id := atribuir_int v.id (valores.get? 0),
    nome := atribuir_texto v.nome (valores.get? 1),
    email := atribuir_texto v.email (valores.get? 2),
    telefone := atribuir_texto v.telefone (valores.get? 3) }

/-- The record `carregar_participantes_csv` passes to `participante_criar` after
a line was scanned; `none` when a variable that was never written is read. -/
def participante_das_vars (v : VarsParticipante) : Option Participante :=
  match v.id, v.nome, v.email, v.telefone with
  | some id, some nome, some email, some telefone =>
    some { id := id, nome := nome, email := email, telefone := telefone }
  | _, _, _, _ => none

/-- The loop of `carregar_participantes_csv` over the lines after the header.
The variables are declared outside the loop.  `n` bounds the loop of
`lista_participantes_adicionar`, and the allocator hands out the addresses
`livre`, `livre + 1`, and so on.  The counter update `id + 1` is computed on
`Int`; in C it overflows for `id` = `INT_MAX`. -/
def carregar_participantes_laco (n : Nat) : List (List Char) → VarsParticipante →
    Circular.ListaParticipantes → Nat → Int → Option (Circular.ListaParticipantes × Int)
  | [], _, lista, _, proximoIdParticipante => some (lista, proximoIdParticipante)
  | linha :: linhas, v, lista, livre, proximoIdParticipante =>
    let v1 := v.ler linha
    match participante_das_vars v1 with
    | none => none
    | some p =>
      match Circular.lista_participantes_adicionar n
          { lista with mem := Circular.participante_criar lista.mem livre p } livre with
      | none => none
      | some lista1 =>
        carregar_participantes_laco n linhas v1 lista1 (livre + 1)
          (if p.id ≥ proximoIdParticipante then p.id + 1 else proximoIdParticipante)

/-- Load the participants from the text of the file
(`carregar_participantes_csv`): the first line is read and dropped, every other
line gives one participant, linked as the last of the cycle. -/
def carregar_participantes_csv (n : Nat) (lista : Circular.ListaParticipantes)
    (texto : List Char) (livre : Nat) (proximoIdParticipante : Int) :
    Option (Circular.ListaParticipantes × Int) :=
  match fgets_linhas 512 texto [] 511 with
  | [] => some (lista, proximoIdParticipante)
  | _ :: linhas =>
    carregar_participantes_laco n linhas (VarsParticipante.mk none none none none) lista
      livre proximoIdParticipante

/-- The variables `sscanf` writes to in `carregar_inscricoes_csv`. -/
structure VarsInscricao where
  idParticipante : Option Int
  idEvento : Option Int
  dataInscricao : Option String
  status : Option Int
deriving DecidableEq

/-- The header line written by `salvar_inscricoes_csv`. -/
def cabecalho_inscricoes : List Char :=
  "idParticipante,idEvento,dataInscricao,status".toList ++ [nova_linha]

/-- One row as `salvar_inscricoes_csv` prints it (`%d,%d,%s,%d`). -/
def linha_inscricao (idParticipante idEvento : Int) (dataInscricao : String) (status : Int) :
    List Char :=
  formatar_int idParticipante ++ [Char.ofNat 44] ++ formatar_int idEvento ++
    [Char.ofNat 44] ++ dataInscricao.toList ++ [Char.ofNat 44] ++ formatar_int status ++
    [nova_linha]

/-- The format of `carregar_inscricoes_csv`: `%d,%d,%10[^,],%d`. -/
def formato_inscricoes : List Conversao :=
  [Conversao.inteiro, Conversao.literal (Char.ofNat 44), Conversao.inteiro,
   Conversao.literal (Char.ofNat 44), Conversao.conjunto 10 (Char.ofNat 44),
   Conversao.literal (Char.ofNat 44), Conversao.inteiro]

/-- The call of `sscanf` in `carregar_inscricoes_csv` on one line. -/
def VarsInscricao.ler (v : VarsInscricao) (linha : List Char) : VarsInscricao :=
  let valores := sscanf_valores formato_inscricoes linha
  { idParticipante := atribuir_int v.idParticipante (valores.get? 0),
    idEvento := atribuir_int v.idEvento (valores.get? 1),
    dataInscricao := atribuir_texto v.dataInscricao (valores.get? 2),
    status := atribuir_int v.status (valores.get? 3) }

/-- The value of an enumerator of `StatusInscricao`. -/
def StatusInscricao.codigo : StatusInscricao → Int
  | StatusInscricao.CONFIRMADA => 0
  | StatusInscricao.PENDENTE => 1
  | StatusInscricao.CANCELADA => 2

/-- The cast `(StatusInscricao)status`.  An `int` that is the value of no
enumerator has no counterpart in `StatusInscricao`: `none`. -/
def status_de_int (status : Int) : Option StatusInscricao :=
  if status = 0 then some StatusInscricao.CONFIRMADA
  else if status = 1 then some StatusInscricao.PENDENTE
  else if status = 2 then some StatusInscricao.CANCELADA
  else none

/-- The loop of `carregar_inscricoes_csv` over the lines after the header: both
ids are looked up, and a record is added when both pointers are not NULL.  The
participant list is the cycle read once from `inicio`.  `none` when a variable
that was never written is read, or when the status read is the value of no
enumerator. -/
def carregar_inscricoes_laco (lista_eventos : List NoEvento)
    (lista_participantes : List NoParticipante) :
    List (List Char) → VarsInscricao → ListaInscricoes → Option ListaInscricoes
  | [], _, lista => some lista
  | linha :: linhas, v, lista =>
    let v1 := v.ler linha
    match v1.idParticipante, v1.idEvento with
    | some idParticipante, some idEvento =>
      match lista_participantes_buscar_por_id lista_participantes idParticipante,
          eventos_buscar_por_id lista_eventos idEvento with
      | some p, some e =>
        match v1.dataInscricao, v1.status.bind status_de_int with
        | some dataInscricao, some status =>
          carregar_inscricoes_laco lista_eventos lista_participantes linhas v1
            (lista_inscricoes_adicionar lista
              (inscricao_criar p.endereco e.endereco dataInscricao status))
        | _, _ => none
      | _, _ => carregar_inscricoes_laco lista_eventos lista_participantes linhas v1 lista
    | _, _ => none

/-- Load the registrations from the text of the file (`carregar_inscricoes_csv`):
the first line is read and dropped. -/
def carregar_inscricoes_csv (lista : ListaInscricoes) (lista_eventos : List NoEvento)
    (lista_participantes : List NoParticipante) (texto : List Char) :
    Option ListaInscricoes :=
  match fgets_linhas 256 texto [] 255 with
  | [] => some lista
  | _ :: linhas =>
    carregar_inscricoes_laco lista_eventos lista_participantes linhas
      (VarsInscricao.mk none none none none) lista

/-- The text of an events file with one row, whose id is -1. -/
def texto_evento_negativo : List Char :=
  salvar_eventos_csv [NoEvento.mk 0 (Evento.mk (-1) "A" "B" "C" "2025-01-01" 1 1)]

/-- The text of a participants file with one row, whose id is -1. -/
def texto_participante_negativo : List Char :=
  cabecalho_participantes ++ linha_participante (Participante.mk (-1) "A" "B" "C")

/-- The text of a participants file with the rows of P1 and P2. -/
def texto_participantes_cenario : List Char :=
  cabecalho_participantes ++ linha_participante P1.dados ++ linha_participante P2.dados

/-! ## Rows of the registrations file, as the specification reads them -/

/-- The four values of one row of `inscricoes.csv`. -/
structure LinhaInscricao where
  idParticipante : Int
  idEvento : Int
  dataInscricao : String
  status : StatusInscricao
deriving DecidableEq

/-- The line is a well-formed row holding these values: the scan of the line
with the format of `carregar_inscricoes_csv` converts the four fields to them. -/
def linha_bem_formada (linha : List Char) (r : LinhaInscricao) : Prop :=
  sscanf_valores formato_inscricoes linha =
    [Valor.inteiro r.idParticipante, Valor.inteiro r.idEvento, Valor.texto r.dataInscricao,
     Valor.inteiro r.status.codigo]

instance (linha : List Char) (r : LinhaInscricao) : Decidable (linha_bem_formada linha r) := by
  unfold linha_bem_formada
  exact inferInstance

/-- The participant id of the row is the id of a participant of the store and
its event id is the id of an event of the store. -/
def ids_presentes (lista_eventos : List NoEvento) (lista_participantes : List NoParticipante)
    (r : LinhaInscricao) : Prop :=
  (∃ p ∈ lista_participantes, p.dados.id = r.idParticipante) ∧
    (∃ e ∈ lista_eventos, e.dados.id = r.idEvento)

instance (lista_eventos : List NoEvento) (lista_participantes : List NoParticipante)
    (r : LinhaInscricao) : Decidable (ids_presentes lista_eventos lista_participantes r) := by
  unfold ids_presentes
  exact inferInstance

/-- The rows that are to be kept: those whose two ids are present, in file
order. -/
def linhas_mantidas (lista_eventos : List NoEvento) (lista_participantes : List NoParticipante)
    (rs : List LinhaInscricao) : List LinhaInscricao :=
  rs.filter (fun r => decide (ids_presentes lista_eventos lista_participantes r))

/-- The record of the log stands for the row: its two pointers are the first
participant and the first event carrying the ids of the row, and it has the date
and the status of the row. -/
def registro_da_linha (lista_eventos : List NoEvento)
    (lista_participantes : List NoParticipante) (i : Inscricao) (r : LinhaInscricao) : Prop :=
  (lista_participantes_buscar_por_id lista_participantes r.idParticipante).map
      (fun p => p.endereco) = some i.participante ∧
    (eventos_buscar_por_id lista_eventos r.idEvento).map (fun e => e.endereco) =
      some i.evento ∧
    i.dataInscricao = r.dataInscricao ∧ i.status = r.status

instance (lista_eventos : List NoEvento) (lista_participantes : List NoParticipante)
    (i : Inscricao) (r : LinhaInscricao) :
    Decidable (registro_da_linha lista_eventos lista_participantes i r) := by
  unfold registro_da_linha
  exact inferInstance


/-- The lines are well-formed rows holding, one for one and in order, the values
of `rs`. -/
def linhas_bem_formadas : List (List Char) → List LinhaInscricao → Bool
  | [], [] => true
  | linha :: linhas, r :: rs => decide (linha_bem_formada linha r) && linhas_bem_formadas linhas rs
  | _, _ => false

/-- The rows of the load scenario: the second names a participant id 9 and the
third an event id 7. -/
def linhas_cenario_inscricoes : List LinhaInscricao :=
  [LinhaInscricao.mk 1 1 "2025-01-05" StatusInscricao.CONFIRMADA,
   LinhaInscricao.mk 9 1 "2025-01-06" StatusInscricao.CONFIRMADA,
   LinhaInscricao.mk 2 7 "2025-01-07" StatusInscricao.PENDENTE,
   LinhaInscricao.mk 2 2 "2025-01-08" StatusInscricao.CANCELADA]

/-- The text of a registrations file: the header and the rows of
`linhas_cenario_inscricoes` as `salvar_inscricoes_csv` prints them. -/
def texto_cenario_inscricoes : List Char :=
  cabecalho_inscricoes ++
    (linhas_cenario_inscricoes.map
      (fun r => linha_inscricao r.idParticipante r.idEvento r.dataInscricao
        r.status.codigo)).flatten

/-! ## Values that fit the type `int`

The model computes on `Int`, where the C program computes on `int` (32 bits).
The two agree as long as every value stays in the range of `int`; signed
overflow is undefined behaviour in C.  The notions below say that a value, a
state or a run stays in that range. -/

/-- The value fits the type `int`: it lies between `INT_MIN` and `INT_MAX`. -/
def cabe_int (x : Int) : Prop := -2147483648 ≤ x ∧ x ≤ 2147483647

instance (x : Int) : Decidable (cabe_int x) := by
  unfold cabe_int
  exact inferInstance

/-- Every `int` stored in the state fits: the id, the capacity and the places
left of every event, the counter of the log, the event counter, and the number
of events (the `int` that `contar_eventos` counts in). -/
def Sistema.cabe (s : Sistema) : Prop :=
  (∀ n ∈ s.lista_eventos, cabe_int n.dados.id ∧ cabe_int n.dados.capacidade ∧
    cabe_int n.dados.vagasDisponiveis) ∧
  cabe_int s.lista_inscricoes.tamanho ∧ cabe_int s.proximoIdEvento ∧
  cabe_int (contar_eventos s.lista_eventos)

instance (s : Sistema) : Decidable s.cabe := by
  unfold Sistema.cabe
  exact inferInstance

/-- Every number typed for the operation fits. -/
def Op.cabe : Op → Bool
  | Op.adicionar _ _ _ _ _ capacidade => decide (cabe_int capacidade)
  | Op.editar id _ _ _ _ capacidade => decide (cabe_int id ∧ cabe_int capacidade)
  | Op.inscrever idEvento idParticipante _ =>
    decide (cabe_int idEvento ∧ cabe_int idParticipante)
  | Op.cancelar idEvento idParticipante =>
    decide (cabe_int idEvento ∧ cabe_int idParticipante)
  | Op.ordenar => true

/-- The two values an edit computes before it stores anything fit:
`diferenca = capacidade - evento->capacidade` and
`evento->vagasDisponiveis + diferenca` (computed when the capacity typed is
greater than 0 and the id is found). -/
def edicao_cabe (s : Sistema) : Op → Bool
  | Op.editar id _ _ _ _ capacidade =>
    match eventos_buscar_por_id s.lista_eventos id with
    | none => true
    | some evento =>
      decide (capacidade ≤ 0 ∨
        (cabe_int (capacidade - evento.dados.capacidade) ∧
          cabe_int (evento.dados.vagasDisponiveis +
            (capacidade - evento.dados.capacidade))))
  | _ => true

/-- No `int` overflows along the run: the numbers typed fit, the two values
computed by each edit fit, and every state of the run fits.  Every other value
the operations compute (`proximoIdEvento++`, `tamanho++`,
`vagasDisponiveis--`, `vagasDisponiveis++`, the count of `contar_eventos`) is
stored in the state that follows. -/
def sem_transbordo : Sistema → List Op → Bool
  | s, [] => decide s.cabe
  | s, op :: ops =>
    decide s.cabe && op.cabe && edicao_cabe s op &&
      match passo s op with
      | none => true
      | some s1 => sem_transbordo s1 ops

/-- A run with a sort: E1 (2025-03-01) and E2 (2025-01-10) are added, P1
registers for E1, the chain is sorted, and P1 cancels under the id 2, which is
what the node the record points to holds after the sort. -/
def corrida_com_ordenacao : List Op :=
  [Op.adicionar 10 "E1" "" "" "2025-03-01" 2,
   Op.adicionar 11 "E2" "" "" "2025-01-10" 1,
   Op.inscrever 1 1 "2025-02-01",
   Op.ordenar,
   Op.cancelar 2 1]

/-- The state in which `corrida_com_ordenacao` ends. -/
def estado_com_ordenacao : Sistema :=
  Sistema.mk
    [NoEvento.mk 10 (Evento.mk 2 "E2" "" "" "2025-01-10" 1 2),
     NoEvento.mk 11 (Evento.mk 1 "E1" "" "" "2025-03-01" 2 1)]
    [P1, P2]
    (ListaInscricoes.mk [Inscricao.mk 100 10 "2025-02-01" StatusInscricao.CANCELADA] 1) 3 1

/-- A run without sort in which no edit hits the floor: an event of capacity 2
is added, P1 registers, the capacity is edited to 3 and P1 cancels. -/
def corrida_sem_piso : List Op :=
  [Op.adicionar 10 "E1" "" "" "2025-03-01" 2, Op.inscrever 1 1 "2025-02-01",
   Op.editar 1 none none none none 3, Op.cancelar 1 1]

/-- The state in which `corrida_sem_piso` ends. -/
def estado_sem_piso : Sistema :=
  Sistema.mk [no_cenario 3 3] [P1, P2]
    (ListaInscricoes.mk [inscricao_criar 100 10 "2025-02-01" StatusInscricao.CANCELADA] 1)
    2 1

end SGE

namespace SGE

/-! ## Lemmas on lookups and pointer access -/

theorem buscar_evento_mem {l : List NoEvento} {id : Int} {e : NoEvento}
    (h : eventos_buscar_por_id l id = some e) : e ∈ l ∧ e.dados.id = id := by
  induction l with
  | nil => simp [eventos_buscar_por_id] at h
  | cons a t ih =>
    simp only [eventos_buscar_por_id] at h
    split at h
    · cases h
      exact ⟨List.mem_cons_self _ _, by assumption⟩
    · exact ⟨List.mem_cons_of_mem _ (ih h).1, (ih h).2⟩

theorem buscar_participante_mem {l : List NoParticipante} {id : Int} {p : NoParticipante}
    (h : lista_participantes_buscar_por_id l id = some p) : p ∈ l ∧ p.dados.id = id := by
  induction l with
  | nil => simp [lista_participantes_buscar_por_id] at h
  | cons a t ih =>
    simp only [lista_participantes_buscar_por_id] at h
    split at h
    · cases h
      exact ⟨List.mem_cons_self _ _, by assumption⟩
    · exact ⟨List.mem_cons_of_mem _ (ih h).1, (ih h).2⟩

theorem ler_evento_of_mem {l : List NoEvento} (hnd : (enderecos l).Nodup) {n : NoEvento}
    (hn : n ∈ l) : ler_evento l n.endereco = some n.dados := by
  induction l with
  | nil => cases hn
  | cons a t ih =>
    simp only [enderecos, List.map_cons, List.nodup_cons] at hnd
    simp only [ler_evento]
    rcases List.mem_cons.1 hn with h | h
    · subst h
      simp
    · have hne : a.endereco ≠ n.endereco := by
        intro heq
        exact hnd.1 (heq ▸ List.mem_map_of_mem (fun n => n.endereco) h)
      simp only [hne, if_false]
      exact ih hnd.2 h

theorem ler_participante_of_mem {l : List NoParticipante}
    (hnd : (l.map (fun n => n.endereco)).Nodup) {n : NoParticipante}
    (hn : n ∈ l) : ler_participante l n.endereco = some n.dados := by
  induction l with
  | nil => cases hn
  | cons a t ih =>
    simp only [List.map_cons, List.nodup_cons] at hnd
    simp only [ler_participante]
    rcases List.mem_cons.1 hn with h | h
    · subst h
      simp
    · have hne : a.endereco ≠ n.endereco := by
        intro heq
        exact hnd.1 (heq ▸ List.mem_map_of_mem (fun n => n.endereco) h)
      simp only [hne, if_false]
      exact ih hnd.2 h

theorem ler_escrever (l : List NoEvento) (p a : Nat) (f : Evento → Evento) :
    ler_evento (escrever_evento l p f) a =
      (ler_evento l a).map (fun e => if a = p then f e else e) := by
  induction l with
  | nil => simp [escrever_evento, ler_evento]
  | cons n t ih =>
    simp only [escrever_evento, List.map_cons] at ih ⊢
    by_cases hp : n.endereco = p
    · subst hp
      by_cases ha : n.endereco = a
      · subst ha
        simp [ler_evento]
      · simp only [ler_evento, if_true, ha, if_false]
        exact ih
    · by_cases ha : n.endereco = a
      · subst ha
        simp [ler_evento, hp]
      · simp only [ler_evento, hp, if_false, ha]
        exact ih

theorem enderecos_escrever (l : List NoEvento) (p : Nat) (f : Evento → Evento) :
    enderecos (escrever_evento l p f) = enderecos l := by
  induction l with
  | nil => rfl
  | cons n t ih =>
    simp only [escrever_evento, enderecos, List.map_cons] at ih ⊢
    rw [ih]
    by_cases hp : n.endereco = p <;> simp [hp]

theorem escrever_eq_map {l : List NoEvento} (hnd : (enderecos l).Nodup) {e : NoEvento}
    (he : e ∈ l) (f : Evento → Evento) :
    escrever_evento l e.endereco f =
      l.map (fun n => if n = e then { n with dados := f n.dados } else n) := by
  unfold escrever_evento
  apply List.map_congr_left
  intro n hn
  by_cases h : n = e
  · simp [h]
  · have hne : n.endereco ≠ e.endereco := by
      intro heq
      apply h
      have h1 := ler_evento_of_mem hnd hn
      have h2 := ler_evento_of_mem hnd he
      rw [heq, h2] at h1
      cases n
      cases e
      simp_all
    simp [h, hne]

theorem buscar_escrever (l : List NoEvento) (p : Nat) (f : Evento → Evento) (id : Int)
    (hf : ∀ ev, (f ev).id = ev.id) :
    eventos_buscar_por_id (escrever_evento l p f) id =
      (eventos_buscar_por_id l id).map
        (fun n => if n.endereco = p then { n with dados := f n.dados } else n) := by
  induction l with
  | nil => simp [escrever_evento, eventos_buscar_por_id]
  | cons n t ih =>
    simp only [escrever_evento, List.map_cons] at ih ⊢
    by_cases hp : n.endereco = p <;> by_cases hi : n.dados.id = id <;>
      simp [eventos_buscar_por_id, hp, hi, hf, ih]

theorem escrever_escrever (l : List NoEvento) (p : Nat) (f g : Evento → Evento) :
    escrever_evento (escrever_evento l p f) p g = escrever_evento l p (fun ev => g (f ev)) := by
  unfold escrever_evento
  rw [List.map_map]
  apply List.map_congr_left
  intro n _
  by_cases hp : n.endereco = p <;> simp [hp]

theorem escrever_identidade (l : List NoEvento) (p : Nat) (f : Evento → Evento)
    (hf : ∀ ev, f ev = ev) : escrever_evento l p f = l := by
  unfold escrever_evento
  conv_rhs => rw [← List.map_id l]
  apply List.map_congr_left
  intro n _
  by_cases hp : n.endereco = p
  · subst hp
    simp [hf]
  · simp [hp]

/-- What a successful `nova_inscricao` went through and what it left. -/
theorem sucesso_de_nova_inscricao {s s1 : Sistema} {idEvento idParticipante : Int}
    {dataAtual : String}
    (h : nova_inscricao s idEvento idParticipante dataAtual = some (Resultado.sucesso, s1)) :
    ∃ evento participante,
      eventos_buscar_por_id s.lista_eventos idEvento = some evento ∧
      0 < evento.dados.vagasDisponiveis ∧
      lista_participantes_buscar_por_id s.lista_participantes idParticipante =
        some participante ∧
      inscricao_existe s.lista_eventos s.lista_participantes s.lista_inscricoes
        idParticipante idEvento = some false ∧
      s1 = { s with
        lista_inscricoes := lista_inscricoes_adicionar s.lista_inscricoes
          (inscricao_criar participante.endereco evento.endereco dataAtual
            StatusInscricao.CONFIRMADA),
        lista_eventos := escrever_evento s.lista_eventos evento.endereco
          (fun ev => { ev with vagasDisponiveis := ev.vagasDisponiveis - 1 }) } := by
  unfold nova_inscricao at h
  cases he : eventos_buscar_por_id s.lista_eventos idEvento with
  | none => simp [he] at h
  | some evento =>
    simp only [he] at h
    by_cases hv : evento.dados.vagasDisponiveis ≤ 0
    · simp [hv] at h
    · simp only [hv, if_false] at h
      cases hp : lista_participantes_buscar_por_id s.lista_participantes idParticipante with
      | none => simp [hp] at h
      | some participante =>
        simp only [hp] at h
        cases hex : inscricao_existe s.lista_eventos s.lista_participantes s.lista_inscricoes
            idParticipante idEvento with
        | none => simp [hex] at h
        | some b =>
          cases b with
          | true => simp [hex] at h
          | false =>
            simp only [hex, Option.some.injEq, Prod.mk.injEq, true_and] at h
            exact ⟨evento, participante, rfl, by omega, rfl, rfl, h.symm⟩

/-- Records for which `inscricao_existe` is false are passed over by the
cancellation loop, also after writes that keep the ids of the events. -/
theorem cancelar_laco_append (evs evs1 : List NoEvento) (ps : List NoParticipante)
    (idP idE : Int) (cauda : List Inscricao)
    (hid : ∀ a, (ler_evento evs1 a).map (fun e => e.id) = (ler_evento evs a).map (fun e => e.id))
    (rs : List Inscricao)
    (hex : inscricao_existe_laco evs ps rs idP idE = some false) :
    lista_inscricoes_cancelar_laco evs1 ps (rs ++ cauda) idP idE =
      (lista_inscricoes_cancelar_laco evs1 ps cauda idP idE).map
        (fun r => (r.1, r.2.1, rs ++ r.2.2)) := by
  induction rs with
  | nil =>
    simp only [List.nil_append]
    cases hr : lista_inscricoes_cancelar_laco evs1 ps cauda idP idE <;> simp
  | cons a t ih =>
    simp only [inscricao_existe_laco] at hex
    simp only [List.cons_append, lista_inscricoes_cancelar_laco]
    cases hp : ler_participante ps a.participante with
    | none => simp [hp] at hex
    | some p =>
      simp only [hp] at hex ⊢
      by_cases hpid : p.id = idP
      · simp only [hpid, if_true] at hex ⊢
        cases he : ler_evento evs a.evento with
        | none => simp [he] at hex
        | some e =>
          simp only [he] at hex
          have h1 := hid a.evento
          rw [he] at h1
          cases he1 : ler_evento evs1 a.evento with
          | none => simp [he1] at h1
          | some e1 =>
            simp only [he1, Option.map_some', Option.some.injEq] at h1
            by_cases hc : e.id = idE ∧ a.status ≠ StatusInscricao.CANCELADA
            · simp [hc] at hex
            · simp only [hc, if_false] at hex
              have hc1 : ¬ (e1.id = idE ∧ a.status = StatusInscricao.CONFIRMADA) := by
                intro hh
                apply hc
                refine ⟨h1 ▸ hh.1, ?_⟩
                rw [hh.2]
                decide
              simp only [hc1, if_false]
              simp only [List.append_eq]
              rw [ih hex]
              cases hr : lista_inscricoes_cancelar_laco evs1 ps cauda idP idE <;> simp
      · simp only [hpid, if_false] at hex ⊢
        simp only [List.append_eq]
        rw [ih hex]
        cases hr : lista_inscricoes_cancelar_laco evs1 ps cauda idP idE <;> simp

/-- A request that does not succeed leaves the state as it was. -/
theorem nova_inscricao_rejeitada {s s2 : Sistema} {idEvento idParticipante : Int}
    {dataAtual : String} {res : Resultado}
    (hn : nova_inscricao s idEvento idParticipante dataAtual = some (res, s2))
    (hres : res ≠ Resultado.sucesso) : s2 = s := by
  unfold nova_inscricao at hn
  cases he : eventos_buscar_por_id s.lista_eventos idEvento with
  | none =>
    simp only [he, Option.some.injEq, Prod.mk.injEq] at hn
    exact hn.2.symm
  | some evento =>
    simp only [he] at hn
    by_cases hv : evento.dados.vagasDisponiveis ≤ 0
    · simp only [hv, if_true, Option.some.injEq, Prod.mk.injEq] at hn
      exact hn.2.symm
    · simp only [hv, if_false] at hn
      cases hp : lista_participantes_buscar_por_id s.lista_participantes
          idParticipante with
      | none =>
        simp only [hp, Option.some.injEq, Prod.mk.injEq] at hn
        exact hn.2.symm
      | some participante =>
        simp only [hp] at hn
        cases hex : inscricao_existe s.lista_eventos s.lista_participantes
            s.lista_inscricoes idParticipante idEvento with
        | none => simp [hex] at hn
        | some b =>
          cases b with
          | true =>
            simp only [hex, Option.some.injEq, Prod.mk.injEq] at hn
            exact hn.2.symm
          | false =>
            simp only [hex, Option.some.injEq, Prod.mk.injEq] at hn
            exact absurd hn.1.symm hres

/-- What the cancellation loop returns: nothing changed and false, or true with
one CONFIRMADA record turned CANCELADA and one place given back to the event
that record points to. -/
theorem cancelar_laco_spec (evs : List NoEvento) (ps : List NoParticipante)
    (idP idE : Int) (rs : List Inscricao) :
    ∀ b evs1 rs1, lista_inscricoes_cancelar_laco evs ps rs idP idE = some (b, evs1, rs1) →
      (b = false ∧ evs1 = evs ∧ rs1 = rs) ∨
      (b = true ∧ ∃ pre r post, rs = pre ++ r :: post ∧
        r.status = StatusInscricao.CONFIRMADA ∧
        rs1 = pre ++ { r with status := StatusInscricao.CANCELADA } :: post ∧
        evs1 = escrever_evento evs r.evento
          (fun ev => { ev with vagasDisponiveis := ev.vagasDisponiveis + 1 })) := by
  induction rs with
  | nil =>
    intro b evs1 rs1 h
    simp only [lista_inscricoes_cancelar_laco, Option.some.injEq, Prod.mk.injEq] at h
    exact Or.inl ⟨h.1.symm, h.2.1.symm, h.2.2.symm⟩
  | cons a t ih =>
    intro b evs1 rs1 h
    have hrec : ∀ r, lista_inscricoes_cancelar_laco evs ps t idP idE = r →
        (match r with
          | none => none
          | some (b, evs, rs) => some (b, evs, a :: rs)) = some (b, evs1, rs1) →
        (b = false ∧ evs1 = evs ∧ rs1 = a :: t) ∨
        (b = true ∧ ∃ pre r post, a :: t = pre ++ r :: post ∧
          r.status = StatusInscricao.CONFIRMADA ∧
          rs1 = pre ++ { r with status := StatusInscricao.CANCELADA } :: post ∧
          evs1 = escrever_evento evs r.evento
            (fun ev => { ev with vagasDisponiveis := ev.vagasDisponiveis + 1 })) := by
      intro r hr hm
      cases r with
      | none => simp at hm
      | some v =>
        obtain ⟨b2, evs2, rs2⟩ := v
        simp only [Option.some.injEq, Prod.mk.injEq] at hm
        obtain ⟨hb, he2, hr2⟩ := hm
        subst hb
        subst he2
        subst hr2
        rcases ih b2 evs2 rs2 hr with ⟨h1, h2, h3⟩ | ⟨h1, pre, r, post, h2, h3, h4, h5⟩
        · exact Or.inl ⟨h1, h2, by rw [h3]⟩
        · exact Or.inr ⟨h1, a :: pre, r, post, by rw [h2]; rfl, h3, by rw [h4]; rfl, h5⟩
    simp only [lista_inscricoes_cancelar_laco] at h
    cases hp : ler_participante ps a.participante with
    | none => simp [hp] at h
    | some p =>
      simp only [hp] at h
      by_cases hpid : p.id = idP
      · simp only [hpid, if_true] at h
        cases he : ler_evento evs a.evento with
        | none => simp [he] at h
        | some e =>
          simp only [he] at h
          by_cases hc : e.id = idE ∧ a.status = StatusInscricao.CONFIRMADA
          · simp only [hc, and_self, if_true, Option.some.injEq, Prod.mk.injEq] at h
            exact Or.inr ⟨h.1.symm, [], a, t, rfl, hc.2, h.2.2.symm, h.2.1.symm⟩
          · simp only [hc, if_false] at h
            exact hrec _ rfl h
      · simp only [hpid, if_false] at h
        exact hrec _ rfl h

theorem eventos_adicionar_append (l : List NoEvento) (novo : NoEvento) :
    eventos_adicionar l novo = l ++ [novo] := by
  induction l with
  | nil => rfl
  | cons a t ih => simp [eventos_adicionar, ih]

theorem mem_escrever {l : List NoEvento} {p : Nat} {f : Evento → Evento} {m : NoEvento}
    (h : m ∈ escrever_evento l p f) :
    ∃ n ∈ l, m = if n.endereco = p then { n with dados := f n.dados } else n := by
  unfold escrever_evento at h
  obtain ⟨n, hn, hm⟩ := List.mem_map.1 h
  exact ⟨n, hn, hm.symm⟩

theorem no_unico {l : List NoEvento} (hnd : (enderecos l).Nodup) {n e : NoEvento}
    (hn : n ∈ l) (he : e ∈ l) (h : n.endereco = e.endereco) : n = e := by
  have h1 := ler_evento_of_mem hnd hn
  have h2 := ler_evento_of_mem hnd he
  rw [h, h2] at h1
  cases n
  cases e
  simp_all

theorem editar_campos_capacidade (ev : Evento) (nome descricao categoria data : Option String)
    (capacidade : Int) :
    (editar_campos ev nome descricao categoria data capacidade).capacidade =
        (if capacidade > 0 then capacidade else ev.capacidade) ∧
    (editar_campos ev nome descricao categoria data capacidade).vagasDisponiveis =
        (if capacidade > 0 then
          (if ev.vagasDisponiveis + (capacidade - ev.capacidade) < 0 then 0
            else ev.vagasDisponiveis + (capacidade - ev.capacidade))
          else ev.vagasDisponiveis) ∧
    (editar_campos ev nome descricao categoria data capacidade).id = ev.id := by
  cases nome <;> cases descricao <;> cases categoria <;> cases data <;>
    by_cases hc : capacidade > 0 <;> simp [editar_campos, hc]

/-! ## Registration requests: outcomes (claims C7 to C10) -/

/-- C7: in a state whose nodes have distinct addresses, when the event id and
the participant id are both found, the event has a place left and
`inscricao_existe` is false for the pair, `nova_inscricao` succeeds: one record
CONFIRMADA pointing to that participant and that event is appended at the end
of the log, `tamanho` grows by one, the event has exactly one place less, and
every other event (and the participant store) is unchanged. -/
theorem nova_inscricao_sucesso (s : Sistema) (idEvento idParticipante : Int)
    (dataAtual : String) (evento : NoEvento) (participante : NoParticipante)
    (hmem : s.memoriaOk)
    (he : eventos_buscar_por_id s.lista_eventos idEvento = some evento)
    (hp : lista_participantes_buscar_por_id s.lista_participantes idParticipante =
      some participante)
    (hv : 0 < evento.dados.vagasDisponiveis)
    (hex : inscricao_existe s.lista_eventos s.lista_participantes s.lista_inscricoes
      idParticipante idEvento = some false) :
    ∃ s1, nova_inscricao s idEvento idParticipante dataAtual = some (Resultado.sucesso, s1) ∧
      s1.lista_inscricoes.inicio = s.lista_inscricoes.inicio ++
        [{ participante := participante.endereco, evento := evento.endereco,
           dataInscricao := dataAtual, status := StatusInscricao.CONFIRMADA }] ∧
      (ler_participante s1.lista_participantes participante.endereco).map (fun p => p.id) =
        some idParticipante ∧
      (ler_evento s1.lista_eventos evento.endereco).map (fun e => e.id) = some idEvento ∧
      s1.lista_inscricoes.tamanho = s.lista_inscricoes.tamanho + 1 ∧
      eventos_buscar_por_id s1.lista_eventos idEvento = some (menos_uma_vaga evento) ∧
      s1.lista_eventos =
        s.lista_eventos.map (fun n => if n = evento then menos_uma_vaga n else n) ∧
      s1.lista_participantes = s.lista_participantes := by
  have hnv : ¬ evento.dados.vagasDisponiveis ≤ 0 := by omega
  have hem := buscar_evento_mem he
  have hpm := buscar_participante_mem hp
  refine ⟨{ s with
      lista_inscricoes := lista_inscricoes_adicionar s.lista_inscricoes
        (inscricao_criar participante.endereco evento.endereco dataAtual
          StatusInscricao.CONFIRMADA),
      lista_eventos := escrever_evento s.lista_eventos evento.endereco
        (fun ev => { ev with vagasDisponiveis := ev.vagasDisponiveis - 1 }) },
    ?_, ?_, ?_, ?_, ?_, ?_, ?_, ?_⟩
  · simp only [nova_inscricao, he, hnv, if_false, hp, hex]
  · simp [lista_inscricoes_adicionar, inscricao_criar]
  · simp [ler_participante_of_mem hmem.2 hpm.1, hpm.2]
  · simp [ler_escrever, ler_evento_of_mem hmem.1 hem.1, hem.2]
  · simp [lista_inscricoes_adicionar]
  · show eventos_buscar_por_id (escrever_evento s.lista_eventos evento.endereco
      (fun ev => { ev with vagasDisponiveis := ev.vagasDisponiveis - 1 })) idEvento = _
    rw [buscar_escrever s.lista_eventos evento.endereco
      (fun ev => { ev with vagasDisponiveis := ev.vagasDisponiveis - 1 }) idEvento
      (fun _ => rfl), he]
    simp [menos_uma_vaga]
  · simp only [escrever_eq_map hmem.1 hem.1]
    rfl
  · rfl

/-- Witness for C7: participant P1 registers for a fresh event of capacity 2. -/
theorem nova_inscricao_sucesso_witness :
    ∃ s1, nova_inscricao (adicionar_evento (sistema_vazio [P1, P2]) 10 "E1" "" "" "2025-03-01" 2)
        1 1 "2025-02-01" = some (Resultado.sucesso, s1) ∧
      s1.lista_inscricoes.tamanho = 1 :=
  match nova_inscricao_sucesso
    (adicionar_evento (sistema_vazio [P1, P2]) 10 "E1" "" "" "2025-03-01" 2) 1 1 "2025-02-01"
    { endereco := 10, dados := evento_criar 1 "E1" "" "" "2025-03-01" 2 } P1
    (by decide) (by decide) (by decide) (by decide) (by decide) with
  | ⟨s1, h1, _, _, _, h5, _⟩ => ⟨s1, h1, by rw [h5]; decide⟩

/-- C8 as stated fails: the event with id 1 exists but is full and participant
id 7 is in no store; the request is rejected for lack of places, which is not a
not-found outcome. -/
theorem nova_inscricao_ausente_contraexemplo :
    lista_participantes_buscar_por_id (cenario 1 0 []).lista_participantes 7 = none ∧
    nova_inscricao (cenario 1 0 []) 1 7 "2025-02-01" =
      some (Resultado.semVagas, cenario 1 0 []) ∧
    Resultado.naoEncontrado Resultado.semVagas = false := by
  decide

/-- C8 amended: if the event id is absent, or the event is found with a place
left and the participant id is absent, the request is rejected with a not-found
outcome and the state (stores and log) is unchanged. -/
theorem nova_inscricao_nao_encontrado (s : Sistema) (idEvento idParticipante : Int)
    (dataAtual : String)
    (h : eventos_buscar_por_id s.lista_eventos idEvento = none ∨
      (∃ evento, eventos_buscar_por_id s.lista_eventos idEvento = some evento ∧
        0 < evento.dados.vagasDisponiveis ∧
        lista_participantes_buscar_por_id s.lista_participantes idParticipante = none)) :
    ∃ r, nova_inscricao s idEvento idParticipante dataAtual = some (r, s) ∧
      Resultado.naoEncontrado r = true := by
  rcases h with h | ⟨evento, he, hv, hp⟩
  · exact ⟨Resultado.eventoNaoEncontrado, by simp only [nova_inscricao, h], rfl⟩
  · have hnv : ¬ evento.dados.vagasDisponiveis ≤ 0 := by omega
    exact ⟨Resultado.participanteNaoEncontrado,
      by simp only [nova_inscricao, he, hnv, if_false, hp], rfl⟩

/-- Witness for C8 amended: event id 5 is absent from the empty event store. -/
theorem nova_inscricao_nao_encontrado_witness :
    ∃ r, nova_inscricao (sistema_vazio [P1]) 5 1 "2025-02-01" = some (r, sistema_vazio [P1]) ∧
      Resultado.naoEncontrado r = true :=
  nova_inscricao_nao_encontrado (sistema_vazio [P1]) 5 1 "2025-02-01" (Or.inl (by decide))

/-- C9: when both ids are found and the event has 0 places left, the request is
rejected for lack of places and the state is unchanged (no record appended, same
places).  Scenario: on an event of capacity 1 the request of P1 succeeds and
the following request of P2 is rejected for lack of places. -/
theorem nova_inscricao_sem_vagas :
    (∀ (s : Sistema) (idEvento idParticipante : Int) (dataAtual : String)
      (evento : NoEvento) (participante : NoParticipante),
      eventos_buscar_por_id s.lista_eventos idEvento = some evento →
      lista_participantes_buscar_por_id s.lista_participantes idParticipante =
        some participante →
      evento.dados.vagasDisponiveis = 0 →
      nova_inscricao s idEvento idParticipante dataAtual = some (Resultado.semVagas, s)) ∧
    ((nova_inscricao (adicionar_evento (sistema_vazio [P1, P2]) 10 "E2" "" "" "2025-01-10" 1)
        1 1 "2025-01-02").map (fun r => r.1) = some Resultado.sucesso ∧
     ((nova_inscricao (adicionar_evento (sistema_vazio [P1, P2]) 10 "E2" "" "" "2025-01-10" 1)
        1 1 "2025-01-02").bind (fun r => nova_inscricao r.2 1 2 "2025-01-03")).map
          (fun r => r.1) = some Resultado.semVagas) := by
  refine ⟨?_, by decide, by decide⟩
  intro s idEvento idParticipante dataAtual evento participante he _ hv
  have hnv : evento.dados.vagasDisponiveis ≤ 0 := by omega
  simp only [nova_inscricao, he, hnv, if_true]

/-- Witness for C9: the full event of the scenario rejects P2. -/
theorem nova_inscricao_sem_vagas_witness :
    nova_inscricao (cenario 1 0 []) 1 2 "2025-01-03" =
      some (Resultado.semVagas, cenario 1 0 []) :=
  nova_inscricao_sem_vagas.1 (cenario 1 0 []) 1 2 "2025-01-03"
    (no_cenario 1 0) P2
    (by decide) (by decide) (by decide)

/-- C10: when both ids are found, the event has a place left and
`inscricao_existe` is true for the pair, the request is rejected as already
registered and the state is unchanged (no record appended, same places).
Scenario: P1 asks twice in a row for an event of capacity 2; the second request
is rejected and the event is left with 1 place. -/
theorem nova_inscricao_ja_inscrito :
    (∀ (s : Sistema) (idEvento idParticipante : Int) (dataAtual : String)
      (evento : NoEvento) (participante : NoParticipante),
      eventos_buscar_por_id s.lista_eventos idEvento = some evento →
      lista_participantes_buscar_por_id s.lista_participantes idParticipante =
        some participante →
      0 < evento.dados.vagasDisponiveis →
      inscricao_existe s.lista_eventos s.lista_participantes s.lista_inscricoes
        idParticipante idEvento = some true →
      nova_inscricao s idEvento idParticipante dataAtual = some (Resultado.jaInscrito, s)) ∧
    (((nova_inscricao (adicionar_evento (sistema_vazio [P1]) 10 "E1" "" "" "2025-03-01" 2)
        1 1 "2025-02-01").bind (fun r => nova_inscricao r.2 1 1 "2025-02-01")).map
          (fun r => (r.1, r.2.lista_eventos.map (fun n => n.dados.vagasDisponiveis))) =
      some (Resultado.jaInscrito, [1])) := by
  refine ⟨?_, by decide⟩
  intro s idEvento idParticipante dataAtual evento participante he hp hv hex
  have hnv : ¬ evento.dados.vagasDisponiveis ≤ 0 := by omega
  simp only [nova_inscricao, he, hnv, if_false, hp, hex]

/-- Witness for C10: P1 already holds a confirmed record for event 1. -/
theorem nova_inscricao_ja_inscrito_witness :
    nova_inscricao
        (cenario 2 1 [inscricao_criar 100 10 "2025-02-01" StatusInscricao.CONFIRMADA])
        1 1 "2025-02-02" =
      some (Resultado.jaInscrito,
        cenario 2 1 [inscricao_criar 100 10 "2025-02-01" StatusInscricao.CONFIRMADA]) :=
  nova_inscricao_ja_inscrito.1
    (cenario 2 1 [inscricao_criar 100 10 "2025-02-01" StatusInscricao.CONFIRMADA])
    1 1 "2025-02-02"
    (no_cenario 2 1) P1
    (by decide) (by decide) (by decide) (by decide)

/-! ## Registration followed by cancellation (claim C6) -/

/-- C6: in a state whose nodes have distinct addresses, when the request of
participant `idParticipante` for event `idEvento` succeeds, the cancellation of
the same pair right after it returns true and the event found under `idEvento`
has the places it had before the request (the whole event chain is as before). -/
theorem inscrever_depois_cancelar (s s1 : Sistema) (idEvento idParticipante : Int)
    (dataAtual : String) (hmem : s.memoriaOk)
    (h : nova_inscricao s idEvento idParticipante dataAtual = some (Resultado.sucesso, s1)) :
    ∃ s2 evento, cancelar_inscricao s1 idEvento idParticipante = some (true, s2) ∧
      eventos_buscar_por_id s.lista_eventos idEvento = some evento ∧
      eventos_buscar_por_id s2.lista_eventos idEvento = some evento ∧
      s2.lista_eventos = s.lista_eventos := by
  obtain ⟨evento, participante, he, hv, hp, hex, hs1⟩ := sucesso_de_nova_inscricao h
  have hem := buscar_evento_mem he
  have hpm := buscar_participante_mem hp
  subst hs1
  have hid : ∀ a, (ler_evento (escrever_evento s.lista_eventos evento.endereco
      (fun ev => { ev with vagasDisponiveis := ev.vagasDisponiveis - 1 })) a).map
        (fun e => e.id) = (ler_evento s.lista_eventos a).map (fun e => e.id) := by
    intro a
    rw [ler_escrever]
    cases ler_evento s.lista_eventos a with
    | none => rfl
    | some e => by_cases ha : a = evento.endereco <;> simp [ha]
  have hcauda : lista_inscricoes_cancelar_laco
      (escrever_evento s.lista_eventos evento.endereco
        (fun ev => { ev with vagasDisponiveis := ev.vagasDisponiveis - 1 }))
      s.lista_participantes
      [inscricao_criar participante.endereco evento.endereco dataAtual
        StatusInscricao.CONFIRMADA] idParticipante idEvento =
      some (true, s.lista_eventos,
        [inscricao_criar participante.endereco evento.endereco dataAtual
          StatusInscricao.CANCELADA]) := by
    simp only [lista_inscricoes_cancelar_laco, inscricao_criar,
      ler_participante_of_mem hmem.2 hpm.1, hpm.2, if_true, ler_escrever,
      ler_evento_of_mem hmem.1 hem.1, Option.map_some', hem.2, and_self, escrever_escrever]
    rw [escrever_identidade]
    intro ev
    cases ev
    simp
  refine ⟨{ s with
      lista_inscricoes :=
        { inicio := s.lista_inscricoes.inicio ++
            [inscricao_criar participante.endereco evento.endereco dataAtual
              StatusInscricao.CANCELADA],
          tamanho := s.lista_inscricoes.tamanho + 1 } }, evento, ?_, he, he, rfl⟩
  simp only [cancelar_inscricao, lista_inscricoes_cancelar, lista_inscricoes_adicionar]
  rw [cancelar_laco_append s.lista_eventos _ s.lista_participantes idParticipante idEvento _
    hid s.lista_inscricoes.inicio hex, hcauda]
  rfl

/-- Witness for C6: P1 registers for the scenario event of capacity 2 and cancels. -/
theorem inscrever_depois_cancelar_witness :
    ∃ s2 evento, cancelar_inscricao
        (cenario 2 1 [inscricao_criar 100 10 "2025-02-01" StatusInscricao.CONFIRMADA])
        1 1 = some (true, s2) ∧
      eventos_buscar_por_id (cenario 2 2 []).lista_eventos 1 = some evento ∧
      eventos_buscar_por_id s2.lista_eventos 1 = some evento ∧
      s2.lista_eventos = (cenario 2 2 []).lista_eventos :=
  inscrever_depois_cancelar (cenario 2 2 [])
    (cenario 2 1 [inscricao_criar 100 10 "2025-02-01" StatusInscricao.CONFIRMADA])
    1 1 "2025-02-01" (by decide) (by decide)

/-! ## At most one active record per pair (claim C2) -/

theorem mesmos_ids_escrever (l : List NoEvento) (p : Nat) (f : Evento → Evento)
    (hf : ∀ ev, (f ev).id = ev.id) : mesmos_ids l (escrever_evento l p f) := by
  intro a
  rw [ler_escrever]
  cases ler_evento l a with
  | none => rfl
  | some e => by_cases ha : a = p <;> simp [ha, hf]

theorem par_do_registro_congr {evs evs1 : List NoEvento} (h : mesmos_ids evs evs1)
    (ps : List NoParticipante) (r : Inscricao) :
    par_do_registro evs1 ps r = par_do_registro evs ps r := by
  have h1 := h r.evento
  unfold par_do_registro
  cases hp : ler_participante ps r.participante with
  | none => rfl
  | some p =>
    cases he : ler_evento evs r.evento with
    | none =>
      cases he1 : ler_evento evs1 r.evento with
      | none => rfl
      | some e1 => simp [he, he1] at h1
    | some e =>
      cases he1 : ler_evento evs1 r.evento with
      | none => simp [he, he1] at h1
      | some e1 =>
        simp only [he, he1, Option.map_some', Option.some.injEq] at h1
        simp [h1]

theorem ativo_congr {evs evs1 : List NoEvento} (h : mesmos_ids evs evs1)
    (ps : List NoParticipante) (idP idE : Int) :
    ativo evs1 ps idP idE = ativo evs ps idP idE := by
  funext r
  simp only [ativo, par_do_registro_congr h]

/-- When `inscricao_existe` answers false, no record of the pair is active. -/
theorem existe_falso_sem_ativos (evs : List NoEvento) (ps : List NoParticipante)
    (idP idE : Int) (rs : List Inscricao)
    (hex : inscricao_existe_laco evs ps rs idP idE = some false) :
    rs.filter (ativo evs ps idP idE) = [] := by
  induction rs with
  | nil => rfl
  | cons a t ih =>
    simp only [inscricao_existe_laco] at hex
    cases hp : ler_participante ps a.participante with
    | none => simp [hp] at hex
    | some p =>
      simp only [hp] at hex
      by_cases hpid : p.id = idP
      · simp only [hpid, if_true] at hex
        cases he : ler_evento evs a.evento with
        | none => simp [he] at hex
        | some e =>
          simp only [he] at hex
          by_cases hc : e.id = idE ∧ a.status ≠ StatusInscricao.CANCELADA
          · simp [hc] at hex
          · simp only [hc, if_false] at hex
            have hna : ativo evs ps idP idE a = false := by
              simp only [ativo, par_do_registro, hp, he, Bool.and_eq_false_iff,
                decide_eq_false_iff_not, Option.some.injEq, Prod.mk.injEq]
              by_cases hst : a.status = StatusInscricao.CANCELADA
              · exact Or.inl (fun hh => hh hst)
              · exact Or.inr (fun hh => hc ⟨hh.2, hst⟩)
            rw [List.filter_cons_of_neg (by simp [hna])]
            exact ih hex
      · simp only [hpid, if_false] at hex
        have hna : ativo evs ps idP idE a = false := by
          simp only [ativo, par_do_registro, hp, Bool.and_eq_false_iff,
            decide_eq_false_iff_not]
          right
          cases ler_evento evs a.evento with
          | none => simp
          | some e => simp [hpid]
        rw [List.filter_cons_of_neg (by simp [hna])]
        exact ih hex

/-- The cancellation loop keeps the ids of the events and never adds an active
record to any pair. -/
theorem cancelar_laco_ativos (evs : List NoEvento) (ps : List NoParticipante)
    (idP idE : Int) (qP qE : Int) (rs : List Inscricao) :
    ∀ b evs1 rs1, lista_inscricoes_cancelar_laco evs ps rs idP idE = some (b, evs1, rs1) →
      mesmos_ids evs evs1 ∧ enderecos evs1 = enderecos evs ∧
      (rs1.filter (ativo evs ps qP qE)).length ≤ (rs.filter (ativo evs ps qP qE)).length := by
  induction rs with
  | nil =>
    intro b evs1 rs1 h
    simp only [lista_inscricoes_cancelar_laco, Option.some.injEq, Prod.mk.injEq] at h
    obtain ⟨_, h2, h3⟩ := h
    subst h2
    subst h3
    exact ⟨fun _ => rfl, rfl, le_refl _⟩
  | cons a t ih =>
    intro b evs1 rs1 h
    have hrec : ∀ r, lista_inscricoes_cancelar_laco evs ps t idP idE = r →
        (match r with
          | none => none
          | some (b, evs, rs) => some (b, evs, a :: rs)) = some (b, evs1, rs1) →
        mesmos_ids evs evs1 ∧ enderecos evs1 = enderecos evs ∧
          (rs1.filter (ativo evs ps qP qE)).length ≤
            ((a :: t).filter (ativo evs ps qP qE)).length := by
      intro r hr hm
      cases r with
      | none => simp at hm
      | some v =>
        obtain ⟨b2, evs2, rs2⟩ := v
        simp only [Option.some.injEq, Prod.mk.injEq] at hm
        obtain ⟨hb, he2, hr2⟩ := hm
        subst hb
        subst he2
        subst hr2
        obtain ⟨i1, i2, i3⟩ := ih b2 evs2 rs2 hr
        refine ⟨i1, i2, ?_⟩
        by_cases hat : ativo evs ps qP qE a = true
        · rw [List.filter_cons_of_pos hat, List.filter_cons_of_pos hat]
          simp only [List.length_cons]
          omega
        · rw [List.filter_cons_of_neg hat, List.filter_cons_of_neg hat]
          exact i3
    simp only [lista_inscricoes_cancelar_laco] at h
    cases hp : ler_participante ps a.participante with
    | none => simp [hp] at h
    | some p =>
      simp only [hp] at h
      by_cases hpid : p.id = idP
      · simp only [hpid, if_true] at h
        cases he : ler_evento evs a.evento with
        | none => simp [he] at h
        | some e =>
          simp only [he] at h
          by_cases hc : e.id = idE ∧ a.status = StatusInscricao.CONFIRMADA
          · simp only [hc, and_self, if_true, Option.some.injEq, Prod.mk.injEq, true_and] at h
            obtain ⟨_, h2, h3⟩ := h
            subst h2
            subst h3
            refine ⟨mesmos_ids_escrever _ _ _ (fun _ => rfl), enderecos_escrever _ _ _, ?_⟩
            have hna : ¬ ativo evs ps qP qE { a with status := StatusInscricao.CANCELADA } = true := by
              simp [ativo]
            rw [List.filter_cons_of_neg hna]
            by_cases hat : ativo evs ps qP qE a = true
            · rw [List.filter_cons_of_pos hat]
              simp
            · rw [List.filter_cons_of_neg hat]
          · simp only [hc, if_false] at h
            exact hrec _ rfl h
      · simp only [hpid, if_false] at h
        exact hrec _ rfl h

/-- A registration or cancellation step keeps the memory well formed and leaves
at most one active record per pair. -/
theorem passo_inscricao_unico (s s1 : Sistema) (op : Op) (hop : op.deInscricao = true)
    (hmem : s.memoriaOk)
    (hinv : ∀ idP idE, (registros_ativos s idP idE).length ≤ 1)
    (h : passo s op = some s1) :
    s1.memoriaOk ∧ ∀ idP idE, (registros_ativos s1 idP idE).length ≤ 1 := by
  cases op with
  | adicionar _ _ _ _ _ _ => simp [Op.deInscricao] at hop
  | editar _ _ _ _ _ _ => simp [Op.deInscricao] at hop
  | ordenar => simp [Op.deInscricao] at hop
  | inscrever idEvento idParticipante dataAtual =>
    simp only [passo] at h
    cases hn : nova_inscricao s idEvento idParticipante dataAtual with
    | none => simp [hn] at h
    | some r =>
      obtain ⟨res, s2⟩ := r
      simp only [hn, Option.some.injEq] at h
      subst h
      by_cases hres : res = Resultado.sucesso
      · subst hres
        obtain ⟨evento, participante, he, _, hp, hex, hs1⟩ := sucesso_de_nova_inscricao hn
        have hem := buscar_evento_mem he
        have hpm := buscar_participante_mem hp
        subst hs1
        have hids := mesmos_ids_escrever s.lista_eventos evento.endereco
          (fun ev => { ev with vagasDisponiveis := ev.vagasDisponiveis - 1 }) (fun _ => rfl)
        refine ⟨⟨?_, hmem.2⟩, ?_⟩
        · dsimp only
          rw [enderecos_escrever]
          exact hmem.1
        · intro qP qE
          simp only [registros_ativos, lista_inscricoes_adicionar]
          rw [ativo_congr hids, List.filter_append, List.length_append]
          by_cases hq : qP = idParticipante ∧ qE = idEvento
          · obtain ⟨hq1, hq2⟩ := hq
            subst hq1
            subst hq2
            have h0 := existe_falso_sem_ativos _ _ _ _ _ hex
            rw [h0]
            simp only [List.length_nil, zero_add]
            exact (List.length_filter_le _ _)
          · have hna : ¬ ativo s.lista_eventos s.lista_participantes qP qE
                (inscricao_criar participante.endereco evento.endereco dataAtual
                  StatusInscricao.CONFIRMADA) = true := by
              simp only [ativo, par_do_registro, inscricao_criar,
                ler_participante_of_mem hmem.2 hpm.1, ler_evento_of_mem hmem.1 hem.1,
                hpm.2, hem.2, Bool.and_eq_true, decide_eq_true_eq, Option.some.injEq,
                Prod.mk.injEq]
              intro hh
              exact hq ⟨hh.2.1.symm, hh.2.2.symm⟩
            rw [List.filter_cons_of_neg hna]
            simp only [List.filter_nil, List.length_nil, add_zero]
            exact hinv qP qE
      · have hs : s2 = s := nova_inscricao_rejeitada hn hres
        subst hs
        exact ⟨hmem, hinv⟩
  | cancelar idEvento idParticipante =>
    simp only [passo, cancelar_inscricao, lista_inscricoes_cancelar] at h
    cases hc : lista_inscricoes_cancelar_laco s.lista_eventos s.lista_participantes
        s.lista_inscricoes.inicio idParticipante idEvento with
    | none => simp [hc] at h
    | some v =>
      obtain ⟨b, evs1, rs1⟩ := v
      simp only [hc, Option.some.injEq] at h
      subst h
      refine ⟨⟨?_, hmem.2⟩, ?_⟩
      · show (enderecos evs1).Nodup
        rw [(cancelar_laco_ativos _ _ _ _ 0 0 _ b evs1 rs1 hc).2.1]
        exact hmem.1
      · intro qP qE
        obtain ⟨i1, _, i3⟩ := cancelar_laco_ativos _ _ _ _ qP qE _ b evs1 rs1 hc
        show (List.filter (ativo evs1 s.lista_participantes qP qE) rs1).length ≤ 1
        rw [ativo_congr i1]
        exact le_trans i3 (hinv qP qE)

/-- C2: starting from stores whose nodes have distinct addresses and an empty
log, after any sequence of registrations and cancellations the log holds, for
every pair (participant id, event id), at most one record of that pair whose
status is not CANCELADA.  (Uniqueness of the ids in the stores is not needed.) -/
theorem inscricao_ativa_unica (eventos : List NoEvento) (participantes : List NoParticipante)
    (cE cP : Int) (ops : List Op) (s : Sistema)
    (hmem : (Sistema.mk eventos participantes lista_inscricoes_criar cE cP).memoriaOk)
    (hops : ∀ op ∈ ops, Op.deInscricao op = true)
    (hrun : executar (Sistema.mk eventos participantes lista_inscricoes_criar cE cP) ops =
      some s) :
    ∀ idParticipante idEvento, (registros_ativos s idParticipante idEvento).length ≤ 1 := by
  have hgen : ∀ (ops : List Op) (s0 : Sistema), s0.memoriaOk →
      (∀ idP idE, (registros_ativos s0 idP idE).length ≤ 1) →
      (∀ op ∈ ops, Op.deInscricao op = true) → executar s0 ops = some s →
      ∀ idP idE, (registros_ativos s idP idE).length ≤ 1 := by
    intro ops
    induction ops with
    | nil =>
      intro s0 _ hinv _ hrun
      simp only [executar, Option.some.injEq] at hrun
      subst hrun
      exact hinv
    | cons op t ih =>
      intro s0 hm hinv hops hrun
      simp only [executar] at hrun
      cases hp : passo s0 op with
      | none => simp [hp] at hrun
      | some s1 =>
        simp only [hp] at hrun
        obtain ⟨hm1, hinv1⟩ := passo_inscricao_unico s0 s1 op
          (hops op (List.mem_cons_self _ _)) hm hinv hp
        exact ih s1 hm1 hinv1 (fun o ho => hops o (List.mem_cons_of_mem _ ho)) hrun
  exact hgen ops _ hmem (fun _ _ => by simp [registros_ativos, lista_inscricoes_criar]) hops hrun

/-- Witness for C2: P1 registers, cancels and registers again for the scenario
event; one active record is left for the pair. -/
theorem inscricao_ativa_unica_witness :
    (registros_ativos
      (cenario 2 1 [inscricao_criar 100 10 "d1" StatusInscricao.CANCELADA,
        inscricao_criar 100 10 "d2" StatusInscricao.CONFIRMADA]) 1 1).length ≤ 1 :=
  inscricao_ativa_unica [no_cenario 2 2] [P1, P2] 2 3
    [Op.inscrever 1 1 "d1", Op.cancelar 1 1, Op.inscrever 1 1 "d2", Op.inscrever 1 1 "d3"]
    (cenario 2 1 [inscricao_criar 100 10 "d1" StatusInscricao.CANCELADA,
        inscricao_criar 100 10 "d2" StatusInscricao.CONFIRMADA])
    (by decide) (by decide) (by decide) 1 1

/-! ## Bounds on the places left (claim C1) -/

theorem ocupadas_append (a b : List Inscricao) (x : Nat) :
    ocupadas (a ++ b) x = ocupadas a x + ocupadas b x := by
  simp [ocupadas, List.countP_append]

theorem ocupadas_nil (x : Nat) : ocupadas [] x = 0 := rfl

theorem ocupadas_cons (r : Inscricao) (t : List Inscricao) (x : Nat) :
    ocupadas (r :: t) x =
      ocupadas t x +
        (if r.evento = x ∧ r.status = StatusInscricao.CONFIRMADA then 1 else 0) := by
  simp [ocupadas, List.countP_cons]

theorem mem_enderecos {l : List NoEvento} {n : NoEvento} (h : n ∈ l) :
    n.endereco ∈ enderecos l :=
  List.mem_map_of_mem (fun n => n.endereco) h

/-- One step other than the sort keeps the addresses distinct and the places
left at 0 or more; when the edit (if it is one) does not hit the floor it also
keeps the places taken equal to the confirmed records. -/
theorem passo_invariantes (s s1 : Sistema) (op : Op)
    (hcap : Op.capacidadeNaoNegativa op = true) (hso : Op.semOrdenar op = true)
    (h : passo s op = some s1)
    (hnd : (enderecos s.lista_eventos).Nodup)
    (hL : ∀ n ∈ s.lista_eventos, 0 ≤ n.dados.vagasDisponiveis) :
    (enderecos s1.lista_eventos).Nodup ∧
    (∀ n ∈ s1.lista_eventos, 0 ≤ n.dados.vagasDisponiveis) ∧
    (contagem_ok s → edicao_sem_piso s op = true → contagem_ok s1) := by
  cases op with
  | ordenar => simp [Op.semOrdenar] at hso
  | adicionar a nome descricao categoria data capacidade =>
    simp only [Op.capacidadeNaoNegativa, decide_eq_true_eq] at hcap
    simp only [passo] at h
    by_cases hfresh : a ∈ enderecos s.lista_eventos
    · simp [hfresh] at h
    · simp only [hfresh, if_false, Option.some.injEq] at h
      subst h
      have hl : (adicionar_evento s a nome descricao categoria data capacidade).lista_eventos =
          s.lista_eventos ++ [NoEvento.mk a
            (evento_criar s.proximoIdEvento nome descricao categoria data capacidade)] := by
        simp [adicionar_evento, eventos_adicionar_append]
      have hlog : (adicionar_evento s a nome descricao categoria data capacidade).lista_inscricoes =
          s.lista_inscricoes := rfl
      rw [hl]
      have hnd1 : (enderecos (s.lista_eventos ++ [NoEvento.mk a
          (evento_criar s.proximoIdEvento nome descricao categoria data capacidade)])).Nodup := by
        simp only [enderecos, List.map_append, List.map_cons, List.map_nil]
        rw [List.nodup_append]
        refine ⟨hnd, List.nodup_singleton _, ?_⟩
        intro x hx hx2
        rw [List.mem_singleton] at hx2
        subst hx2
        exact hfresh hx
      refine ⟨hnd1, ?_, ?_⟩
      · intro n hn
        rcases List.mem_append.1 hn with hn | hn
        · exact hL n hn
        · rw [List.mem_singleton] at hn
          subst hn
          exact hcap
      · intro hK _
        unfold contagem_ok
        rw [hl, hlog]
        refine ⟨hnd1, ?_, ?_⟩
        · intro r hr
          simp only [enderecos, List.map_append, List.mem_append]
          exact Or.inl (hK.2.1 r hr)
        · intro n hn
          rcases List.mem_append.1 hn with hn | hn
          · exact hK.2.2 n hn
          · rw [List.mem_singleton] at hn
            subst hn
            have h0 : ocupadas s.lista_inscricoes.inicio a = 0 := by
              unfold ocupadas
              rw [List.countP_eq_zero]
              intro r hr
              have := hK.2.1 r hr
              have hne : r.evento ≠ a := fun hh => hfresh (hh ▸ this)
              simp [hne]
            simp [evento_criar, h0]
  | editar id nome descricao categoria data capacidade =>
    simp only [passo, Option.some.injEq] at h
    subst h
    simp only [editar_evento]
    cases he : eventos_buscar_por_id s.lista_eventos id with
    | none => exact ⟨hnd, hL, fun hK _ => hK⟩
    | some evento =>
      have hem := buscar_evento_mem he
      have hc := fun ev => editar_campos_capacidade ev nome descricao categoria data capacidade
      simp only
      refine ⟨by rw [enderecos_escrever]; exact hnd, ?_, ?_⟩
      · intro m hm
        obtain ⟨n, hn, hmn⟩ := mem_escrever hm
        have hn0 := hL n hn
        by_cases hp : n.endereco = evento.endereco
        · simp only [hp, if_true] at hmn
          subst hmn
          rw [(hc n.dados).2.1]
          split
          · split <;> omega
          · exact hn0
        · simp only [hp, if_false] at hmn
          subst hmn
          exact hn0
      · intro hK hsp
        simp only [edicao_sem_piso, he, decide_eq_true_eq] at hsp
        unfold contagem_ok
        dsimp only
        refine ⟨by rw [enderecos_escrever]; exact hnd, ?_, ?_⟩
        · intro r hr
          rw [enderecos_escrever]
          exact hK.2.1 r hr
        · intro m hm
          obtain ⟨n, hn, hmn⟩ := mem_escrever hm
          have hkn := hK.2.2 n hn
          by_cases hp : n.endereco = evento.endereco
          · have hne : n = evento := no_unico hnd hn hem.1 hp
            simp only [hp, if_true] at hmn
            subst hmn
            subst hne
            simp only
            rw [(hc n.dados).1, (hc n.dados).2.1, ← hkn]
            by_cases hcp : capacidade > 0
            · simp only [hcp, if_true]
              have : ¬ n.dados.vagasDisponiveis + (capacidade - n.dados.capacidade) < 0 := by
                rcases hsp with hsp | hsp <;> omega
              simp only [this, if_false]
              omega
            · simp only [hcp, if_false]
          · simp only [hp, if_false] at hmn
            subst hmn
            exact hkn
  | inscrever idEvento idParticipante dataAtual =>
    simp only [passo] at h
    cases hn : nova_inscricao s idEvento idParticipante dataAtual with
    | none => simp [hn] at h
    | some r =>
      obtain ⟨res, s2⟩ := r
      simp only [hn, Option.some.injEq] at h
      subst h
      by_cases hres : res = Resultado.sucesso
      · subst hres
        obtain ⟨evento, participante, he, hv, _, _, hs1⟩ := sucesso_de_nova_inscricao hn
        have hem := buscar_evento_mem he
        subst hs1
        simp only [lista_inscricoes_adicionar, inscricao_criar]
        refine ⟨by rw [enderecos_escrever]; exact hnd, ?_, ?_⟩
        · intro m hm
          obtain ⟨n, hn1, hmn⟩ := mem_escrever hm
          have hn0 := hL n hn1
          by_cases hp : n.endereco = evento.endereco
          · have hne : n = evento := no_unico hnd hn1 hem.1 hp
            simp only [hp, if_true] at hmn
            subst hmn
            subst hne
            simp only
            omega
          · simp only [hp, if_false] at hmn
            subst hmn
            exact hn0
        · intro hK _
          unfold contagem_ok
          dsimp only
          refine ⟨by rw [enderecos_escrever]; exact hnd, ?_, ?_⟩
          · intro r hr
            rw [enderecos_escrever]
            rcases List.mem_append.1 hr with hr | hr
            · exact hK.2.1 r hr
            · rw [List.mem_singleton] at hr
              subst hr
              exact mem_enderecos hem.1
          · intro m hm
            obtain ⟨n, hn1, hmn⟩ := mem_escrever hm
            have hkn := hK.2.2 n hn1
            by_cases hp : n.endereco = evento.endereco
            · simp only [hp, if_true] at hmn
              subst hmn
              simp only [ocupadas_append, ocupadas_cons, ocupadas_nil, hp,
                and_self, if_true] at hkn ⊢
              push_cast
              omega
            · have hp2 : ¬ evento.endereco = n.endereco := fun hh => hp hh.symm
              simp only [hp, if_false] at hmn
              subst hmn
              simp only [ocupadas_append, ocupadas_cons, ocupadas_nil, hp2,
                false_and, if_false] at hkn ⊢
              push_cast
              omega
      · have hs : s2 = s := nova_inscricao_rejeitada hn hres
        subst hs
        exact ⟨hnd, hL, fun hK _ => hK⟩
  | cancelar idEvento idParticipante =>
    simp only [passo, cancelar_inscricao, lista_inscricoes_cancelar] at h
    cases hc : lista_inscricoes_cancelar_laco s.lista_eventos s.lista_participantes
        s.lista_inscricoes.inicio idParticipante idEvento with
    | none => simp [hc] at h
    | some v =>
      obtain ⟨b, evs1, rs1⟩ := v
      simp only [hc, Option.some.injEq] at h
      subst h
      simp only
      rcases cancelar_laco_spec _ _ _ _ _ b evs1 rs1 hc with
        ⟨_, h2, h3⟩ | ⟨_, pre, r, post, h2, h3, h4, h5⟩
      · subst h2
        subst h3
        exact ⟨hnd, hL, fun hK _ => hK⟩
      · subst h4
        subst h5
        refine ⟨by rw [enderecos_escrever]; exact hnd, ?_, ?_⟩
        · intro m hm
          obtain ⟨n, hn1, hmn⟩ := mem_escrever hm
          have hn0 := hL n hn1
          by_cases hp : n.endereco = r.evento
          · simp only [hp, if_true] at hmn
            subst hmn
            simp only
            omega
          · simp only [hp, if_false] at hmn
            subst hmn
            exact hn0
        · intro hK _
          unfold contagem_ok
          dsimp only
          refine ⟨by rw [enderecos_escrever]; exact hnd, ?_, ?_⟩
          · intro x hx
            rw [enderecos_escrever]
            have hr : r ∈ s.lista_inscricoes.inicio := by
              rw [h2]
              simp
            rcases List.mem_append.1 hx with hx | hx
            · exact hK.2.1 x (by rw [h2]; exact List.mem_append_left _ hx)
            · rcases List.mem_cons.1 hx with hx | hx
              · subst hx
                exact hK.2.1 r hr
              · exact hK.2.1 x (by
                  rw [h2]
                  exact List.mem_append_right _ (List.mem_cons_of_mem _ hx))
          · intro m hm
            obtain ⟨n, hn1, hmn⟩ := mem_escrever hm
            have hkn := hK.2.2 n hn1
            rw [h2] at hkn
            by_cases hp : n.endereco = r.evento
            · simp only [hp, if_true] at hmn
              subst hmn
              simp only [ocupadas_append, ocupadas_cons, hp, h3, and_self, if_true] at hkn ⊢
              simp only [show ¬ (StatusInscricao.CANCELADA = StatusInscricao.CONFIRMADA) by decide,
                and_false, if_false]
              push_cast at hkn ⊢
              omega
            · have hp2 : ¬ r.evento = n.endereco := fun hh => hp hh.symm
              simp only [hp, if_false] at hmn
              subst hmn
              simp only [ocupadas_append, ocupadas_cons, hp2, false_and, if_false] at hkn ⊢
              exact hkn

/-- C1 as stated fails, without any sort: every addition of `corrida_reducao`
has a non-negative capacity, and the run ends in `estado_reducao`, where the
event holds 2 places left for a capacity of 1. -/
theorem limites_contraexemplo :
    (∀ op ∈ corrida_reducao, Op.capacidadeNaoNegativa op = true) ∧
    executar (sistema_vazio [P1, P2]) corrida_reducao = some estado_reducao ∧
    estado_reducao.lista_eventos.map
      (fun n => (n.dados.vagasDisponiveis, n.dados.capacidade)) = [(2, 1)] ∧
    ¬ limites_ok estado_reducao := by
  decide

/-! ## The date sort (claims C3, C4, C5) -/

theorem strcmp_bytes_total (a b : List Nat) :
    strcmp_bytes a b ≤ 0 ∨ strcmp_bytes b a ≤ 0 := by
  induction a generalizing b with
  | nil =>
    cases b with
    | nil => simp [strcmp_bytes]
    | cons y bs =>
      left
      simp only [strcmp_bytes]
      omega
  | cons x t ih =>
    cases b with
    | nil =>
      right
      simp only [strcmp_bytes]
      omega
    | cons y bs =>
      simp only [strcmp_bytes]
      by_cases hxy : x = y
      · subst hxy
        by_cases hx0 : x = 0
        · simp [hx0]
        · simp only [if_true, hx0, if_false]
          exact ih bs
      · have hyx : ¬ y = x := fun h => hxy h.symm
        simp only [hxy, hyx, if_false]
        omega

theorem strcmp_bytes_trans (a b c : List Nat) (hab : strcmp_bytes a b ≤ 0)
    (hbc : strcmp_bytes b c ≤ 0) : strcmp_bytes a c ≤ 0 := by
  induction a generalizing b c with
  | nil =>
    cases c with
    | nil => simp [strcmp_bytes]
    | cons z cs =>
      simp only [strcmp_bytes]
      omega
  | cons x t ih =>
    cases b with
    | nil =>
      simp only [strcmp_bytes] at hab
      have hx : x = 0 := by omega
      subst hx
      cases c with
      | nil => simp [strcmp_bytes]
      | cons z cs =>
        simp only [strcmp_bytes]
        by_cases hz : 0 = z
        · simp [hz.symm]
        · simp only [hz, if_false]
          omega
    | cons y bs =>
      cases c with
      | nil =>
        simp only [strcmp_bytes] at hbc hab ⊢
        have hy : y = 0 := by omega
        subst hy
        by_cases hx : x = 0
        · omega
        · simp only [hx, if_false] at hab
          omega
      | cons z cs =>
        simp only [strcmp_bytes] at hbc hab ⊢
        by_cases hxy : x = y
        · subst hxy
          by_cases hxz : x = z
          · subst hxz
            by_cases hx0 : x = 0
            · simp [hx0]
            · simp only [if_true, hx0, if_false] at hab hbc ⊢
              exact ih bs cs hab hbc
          · simp only [hxz, if_false] at hbc ⊢
            exact hbc
        · simp only [hxy, if_false] at hab
          by_cases hyz : y = z
          · subst hyz
            simp only [hxy, if_false]
            exact hab
          · simp only [hyz, if_false] at hbc
            have hxz : ¬ x = z := by omega
            simp only [hxz, if_false]
            omega

theorem data_le_total {a b : Evento} (h : ¬ data_le a b) : data_le b a := by
  unfold data_le strcmp at h ⊢
  rcases strcmp_bytes_total (bytes a.data) (bytes b.data) with h1 | h1
  · exact absurd h1 h
  · exact h1

theorem data_le_trans {a b c : Evento} (hab : data_le a b) (hbc : data_le b c) :
    data_le a c := by
  unfold data_le strcmp at hab hbc ⊢
  exact strcmp_bytes_trans _ _ _ hab hbc

theorem getD_meio (A : List Evento) (x : Evento) (B : List Evento) (d : Evento) :
    (A ++ x :: B).getD A.length d = x := by
  induction A with
  | nil => rfl
  | cons a t ih => simpa using ih

theorem set_meio (A : List Evento) (x y : Evento) (B : List Evento) :
    (A ++ x :: B).set A.length y = A ++ y :: B := by
  induction A with
  | nil => rfl
  | cons a t ih => simp [ih]

theorem set_getD_self (l : List Evento) (k : Nat) (d : Evento) :
    l.set k (l.getD k d) = l := by
  induction l generalizing k with
  | nil => rfl
  | cons a t ih =>
    cases k with
    | zero => rfl
    | succ k =>
      show a :: (t.set k (t.getD k d)) = a :: t
      rw [ih k]

theorem ler_indice_meio (A : List Evento) (x : Evento) (B : List Evento) (k : Int)
    (hk : k = (A.length : Int)) : ler_indice (A ++ x :: B) k = x := by
  subst hk
  simp only [ler_indice, Int.toNat_ofNat]
  exact getD_meio A x B default

theorem trocar_mesmo (l : List Evento) (k : Int) : trocar_eventos l k k = l := by
  simp only [trocar_eventos, ler_indice]
  rw [set_getD_self, set_getD_self]

theorem trocar_decomp (A B C : List Evento) (x y : Evento) (a b : Int)
    (ha : a = (A.length : Int)) (hb : b = ((A.length + 1 + B.length : Nat) : Int)) :
    trocar_eventos (A ++ x :: (B ++ y :: C)) a b = A ++ y :: (B ++ x :: C) := by
  have e : A ++ x :: (B ++ y :: C) = (A ++ x :: B) ++ y :: C := by simp
  have hx : ler_indice (A ++ x :: (B ++ y :: C)) a = x := ler_indice_meio _ _ _ _ ha
  have hy : ler_indice (A ++ x :: (B ++ y :: C)) b = y := by
    rw [e]
    apply ler_indice_meio
    rw [hb]
    simp
    omega
  simp only [trocar_eventos, hx, hy]
  subst ha
  subst hb
  simp only [Int.toNat_ofNat]
  rw [set_meio]
  have e2 : A ++ y :: (B ++ y :: C) = (A ++ y :: B) ++ y :: C := by simp
  have e3 : A.length + 1 + B.length = (A ++ y :: B).length := by
    simp
    omega
  rw [e2, e3, set_meio]
  simp

/-- The loop of the partition, read on a decomposition of the array: before
the range `pre`, then the elements already found not after the pivot (`Ls`),
those found after it (`Gs`), those still to compare (`rest`), the pivot and
what follows the range. -/
theorem particionar_laco_spec (pre post : List Evento) (pv : Evento) :
    ∀ (rest Ls Gs : List Evento) (alto i j : Int),
      alto = ((pre.length + Ls.length + Gs.length + rest.length : Nat) : Int) →
      i = ((pre.length + Ls.length : Nat) : Int) - 1 →
      j = ((pre.length + Ls.length + Gs.length : Nat) : Int) →
      (∀ x ∈ Ls, data_le x pv) → (∀ x ∈ Gs, ¬ data_le x pv) →
      ∃ Ls1 Gs1,
        particionar_laco rest.length (pre ++ (Ls ++ (Gs ++ (rest ++ pv :: post)))) alto i j =
          (pre ++ (Ls1 ++ (Gs1 ++ pv :: post)),
            ((pre.length + Ls1.length : Nat) : Int) - 1) ∧
        (Ls1 ++ Gs1).Perm (Ls ++ (Gs ++ rest)) ∧
        (∀ x ∈ Ls1, data_le x pv) ∧ (∀ x ∈ Gs1, ¬ data_le x pv) := by
  intro rest
  induction rest with
  | nil =>
    intro Ls Gs alto i j _ hi _ hL hG
    refine ⟨Ls, Gs, ?_, by simp, hL, hG⟩
    simp [particionar_laco, hi]
  | cons x rest ih =>
    intro Ls Gs alto i j ha hi hj hL hG
    have hx : ler_indice (pre ++ (Ls ++ (Gs ++ (x :: rest ++ pv :: post)))) j = x := by
      have e : pre ++ (Ls ++ (Gs ++ (x :: rest ++ pv :: post))) =
          (pre ++ Ls ++ Gs) ++ x :: (rest ++ pv :: post) := by simp
      rw [e]
      apply ler_indice_meio
      rw [hj]
      simp only [List.length_append, List.length_cons, List.length_nil]
    have hpv : ler_indice (pre ++ (Ls ++ (Gs ++ (x :: rest ++ pv :: post)))) alto = pv := by
      have e : pre ++ (Ls ++ (Gs ++ (x :: rest ++ pv :: post))) =
          (pre ++ Ls ++ Gs ++ x :: rest) ++ pv :: post := by simp
      rw [e]
      apply ler_indice_meio
      rw [ha]
      simp only [List.length_append, List.length_cons, List.length_nil]
    simp only [List.length_cons, particionar_laco, hx, hpv]
    by_cases hc : strcmp x.data pv.data ≤ 0
    · simp only [hc, if_true]
      have hL1 : ∀ y ∈ Ls ++ [x], data_le y pv := by
        intro y hy
        rcases List.mem_append.1 hy with hy | hy
        · exact hL y hy
        · rw [List.mem_singleton] at hy
          subst hy
          exact hc
      cases Gs with
      | nil =>
        have hij : i + 1 = j := by
          rw [hi, hj]
          simp only [List.length_append, List.length_cons, List.length_nil]
          omega
        rw [hij, trocar_mesmo]
        obtain ⟨Ls1, Gs1, h1, h2, h3, h4⟩ := ih (Ls ++ [x]) [] alto j (j + 1)
          (by rw [ha]; simp only [List.length_append, List.length_cons, List.length_nil]; omega) (by rw [hj]; simp only [List.length_append, List.length_cons, List.length_nil]; omega) (by rw [hj]; simp only [List.length_append, List.length_cons, List.length_nil]; omega)
          hL1 (fun _ h => by cases h)
        refine ⟨Ls1, Gs1, ?_, ?_, h3, h4⟩
        · rw [← h1]
          simp
        · refine h2.trans ?_
          simp
      | cons g G0 =>
        have ht : trocar_eventos (pre ++ (Ls ++ (g :: G0 ++ (x :: rest ++ pv :: post))))
            (i + 1) j =
            pre ++ ((Ls ++ [x]) ++ ((G0 ++ [g]) ++ (rest ++ pv :: post))) := by
          have e : pre ++ (Ls ++ (g :: G0 ++ (x :: rest ++ pv :: post))) =
              (pre ++ Ls) ++ g :: (G0 ++ x :: (rest ++ pv :: post)) := by simp
          rw [e, trocar_decomp (pre ++ Ls) G0 (rest ++ pv :: post) g x (i + 1) j
            (by rw [hi]; simp only [List.length_append, List.length_cons, List.length_nil]; omega) (by rw [hj]; simp only [List.length_append, List.length_cons, List.length_nil]; omega)]
          simp
        rw [ht]
        have hG1 : ∀ y ∈ G0 ++ [g], ¬ data_le y pv := by
          intro y hy
          apply hG
          rcases List.mem_append.1 hy with hy | hy
          · exact List.mem_cons_of_mem _ hy
          · rw [List.mem_singleton] at hy
            subst hy
            exact List.mem_cons_self _ _
        obtain ⟨Ls1, Gs1, h1, h2, h3, h4⟩ := ih (Ls ++ [x]) (G0 ++ [g]) alto (i + 1) (j + 1)
          (by rw [ha]; simp only [List.length_append, List.length_cons, List.length_nil]; omega) (by rw [hi]; simp only [List.length_append, List.length_cons, List.length_nil]; omega) (by rw [hj]; simp only [List.length_append, List.length_cons, List.length_nil]; omega)
          hL1 hG1
        refine ⟨Ls1, Gs1, h1, ?_, h3, h4⟩
        refine h2.trans ?_
        rw [List.perm_iff_count]
        intro a
        simp only [List.count_append, List.count_cons, List.count_nil]
        omega
    · simp only [hc, if_false]
      have hG1 : ∀ y ∈ Gs ++ [x], ¬ data_le y pv := by
        intro y hy
        rcases List.mem_append.1 hy with hy | hy
        · exact hG y hy
        · rw [List.mem_singleton] at hy
          subst hy
          exact hc
      obtain ⟨Ls1, Gs1, h1, h2, h3, h4⟩ := ih Ls (Gs ++ [x]) alto i (j + 1)
        (by rw [ha]; simp only [List.length_append, List.length_cons, List.length_nil]; omega) hi (by rw [hj]; simp only [List.length_append, List.length_cons, List.length_nil]; omega) hL hG1
      refine ⟨Ls1, Gs1, ?_, ?_, h3, h4⟩
      · rw [← h1]
        simp
      · refine h2.trans ?_
        simp

/-- The partition of `eventos[baixo..alto]`, read on a decomposition of the
array: the pivot (last element of the range) ends between the elements not after
it and the elements after it, and the returned index is its position. -/
theorem particionar_spec (pre body post : List Evento) (pv : Evento) (baixo alto : Int)
    (hb : baixo = (pre.length : Int))
    (ha : alto = ((pre.length + body.length : Nat) : Int)) :
    ∃ L R,
      particionar_por_data (pre ++ (body ++ pv :: post)) baixo alto =
        (pre ++ (L ++ pv :: (R ++ post)), ((pre.length + L.length : Nat) : Int)) ∧
      (L ++ R).Perm body ∧ (∀ x ∈ L, data_le x pv) ∧ (∀ x ∈ R, ¬ data_le x pv) := by
  have hn : (alto - baixo).toNat = body.length := by
    rw [ha, hb]
    omega
  obtain ⟨Ls1, Gs1, h1, h2, h3, h4⟩ := particionar_laco_spec pre post pv body [] [] alto
    (baixo - 1) baixo
    (by rw [ha]; simp only [List.length_nil]; omega)
    (by rw [hb]; simp only [List.length_nil]; omega)
    (by rw [hb]; simp only [List.length_nil]; omega)
    (fun _ h => by cases h) (fun _ h => by cases h)
  simp only [List.nil_append] at h1 h2
  have hlen : Ls1.length + Gs1.length = body.length := by
    have := h2.length_eq
    simpa using this
  simp only [particionar_por_data, hn, h1]
  cases Gs1 with
  | nil =>
    refine ⟨Ls1, [], ?_, by simpa using h2, h3, fun _ h => by cases h⟩
    have he : ((pre.length + Ls1.length : Nat) : Int) - 1 + 1 = alto := by
      rw [ha]
      simp only [List.length_nil] at hlen
      omega
    rw [he, trocar_mesmo]
    simp only [List.nil_append, Prod.mk.injEq, true_and]
    rw [ha]
    simp only [List.length_nil] at hlen
    omega
  | cons g G0 =>
    refine ⟨Ls1, G0 ++ [g], ?_, ?_, h3, ?_⟩
    · have e : pre ++ (Ls1 ++ (g :: G0 ++ pv :: post)) =
          (pre ++ Ls1) ++ g :: (G0 ++ pv :: post) := by simp
      rw [e, trocar_decomp (pre ++ Ls1) G0 post g pv _ alto
        (by simp only [List.length_append]; omega)
        (by rw [ha]; simp only [List.length_append, List.length_cons] at hlen ⊢; omega)]
      simp only [List.append_assoc, List.singleton_append, Prod.mk.injEq, true_and]
      omega
    · refine List.Perm.trans ?_ h2
      rw [List.perm_iff_count]
      intro a
      simp only [List.count_append, List.count_cons, List.count_nil]
      omega
    · intro y hy
      apply h4
      rcases List.mem_append.1 hy with hy | hy
      · exact List.mem_cons_of_mem _ hy
      · rw [List.mem_singleton] at hy
        subst hy
        exact List.mem_cons_self _ _

/-- Quicksort of a range, read on a decomposition of the array: the range is
replaced by a permutation of itself in non-decreasing date order, what is
outside the range stays, and the result is the same for every depth bound that
is at least the length of the range. -/
theorem quicksort_rec_spec : ∀ (n : Nat) (seg pre post : List Evento) (baixo alto : Int),
    seg.length ≤ n → baixo = (pre.length : Int) →
    alto = ((pre.length + seg.length : Nat) : Int) - 1 →
    ∃ seg1, seg1.Perm seg ∧ seg1.Pairwise data_le ∧
      ∀ prof, seg.length ≤ prof →
        quicksort_rec prof (pre ++ (seg ++ post)) baixo alto = pre ++ (seg1 ++ post) := by
  intro n
  induction n with
  | zero =>
    intro seg pre post baixo alto hlen hb ha
    have hs : seg = [] := List.length_eq_zero.1 (by omega)
    subst hs
    refine ⟨[], List.Perm.refl _, List.Pairwise.nil, ?_⟩
    intro prof _
    cases prof with
    | zero => rfl
    | succ p =>
      have hlt : ¬ baixo < alto := by
        rw [ha, hb]
        simp only [List.length_nil]
        omega
      simp only [quicksort_rec, hlt, if_false]
  | succ n ih =>
    intro seg pre post baixo alto hlen hb ha
    by_cases hshort : seg.length ≤ 1
    · refine ⟨seg, List.Perm.refl _, ?_, ?_⟩
      · cases seg with
        | nil => exact List.Pairwise.nil
        | cons x t =>
          cases t with
          | nil => exact List.pairwise_singleton _ _
          | cons y u =>
            simp only [List.length_cons] at hshort
            omega
      · intro prof _
        cases prof with
        | zero => rfl
        | succ p =>
          have hlt : ¬ baixo < alto := by
            rw [ha, hb]
            omega
          simp only [quicksort_rec, hlt, if_false]
    · rcases List.eq_nil_or_concat seg with hnil | ⟨body, pv, hseg⟩
      · subst hnil
        simp at hshort
      · rw [List.concat_eq_append] at hseg
        subst hseg
        have hbl : body.length ≤ n := by
          simp only [List.length_append, List.length_cons, List.length_nil] at hlen
          omega
        obtain ⟨L, R, hp1, hp2, hp3, hp4⟩ := particionar_spec pre body post pv baixo alto hb
          (by rw [ha]; simp only [List.length_append, List.length_cons, List.length_nil]; omega)
        have hLR : L.length + R.length = body.length := by
          have := hp2.length_eq
          simpa using this
        obtain ⟨L1, hL1p, hL1s, hL1q⟩ := ih L pre (pv :: (R ++ post)) baixo
          (((pre.length + L.length : Nat) : Int) - 1) (by omega) hb rfl
        have hL1len : L1.length = L.length := hL1p.length_eq
        obtain ⟨R1, hR1p, hR1s, hR1q⟩ := ih R (pre ++ (L1 ++ [pv])) post
          (((pre.length + L.length : Nat) : Int) + 1) alto (by omega)
          (by simp only [List.length_append, List.length_cons, List.length_nil]; omega)
          (by
            rw [ha]
            simp only [List.length_append, List.length_cons, List.length_nil]
            omega)
        refine ⟨L1 ++ pv :: R1, ?_, ?_, ?_⟩
        · have h1 : (L1 ++ pv :: R1).Perm (L ++ pv :: R) := hL1p.append (hR1p.cons pv)
          refine h1.trans ?_
          rw [List.perm_iff_count]
          intro a
          have hc := List.perm_iff_count.1 hp2 a
          simp only [List.count_append, List.count_cons, List.count_nil] at hc ⊢
          omega
        · rw [List.pairwise_append]
          refine ⟨hL1s, ?_, ?_⟩
          · rw [List.pairwise_cons]
            refine ⟨?_, hR1s⟩
            intro b hb1
            exact data_le_total (hp4 b (hR1p.mem_iff.1 hb1))
          · intro a ha1 b hb1
            have hapv : data_le a pv := hp3 a (hL1p.mem_iff.1 ha1)
            rcases List.mem_cons.1 hb1 with hb2 | hb2
            · subst hb2
              exact hapv
            · exact data_le_trans hapv (data_le_total (hp4 b (hR1p.mem_iff.1 hb2)))
        · intro prof hprof
          cases prof with
          | zero =>
            simp only [List.length_append, List.length_cons, List.length_nil] at hprof
            omega
          | succ p =>
            have hlt : baixo < alto := by
              rw [ha, hb]
              simp only [List.length_append, List.length_cons, List.length_nil] at hshort ⊢
              omega
            have hpl : body.length ≤ p := by
              simp only [List.length_append, List.length_cons, List.length_nil] at hprof
              omega
            have e0 : pre ++ ((body ++ [pv]) ++ post) = pre ++ (body ++ pv :: post) := by simp
            simp only [quicksort_rec, hlt, if_true]
            rw [e0, hp1]
            simp only
            rw [hL1q p (by omega)]
            have e1 : pre ++ (L1 ++ pv :: (R ++ post)) = (pre ++ (L1 ++ [pv])) ++ (R ++ post) := by
              simp
            rw [e1, hR1q p (by omega)]
            simp

/-- The depth bound used by `quicksort_eventos_por_data` is never reached: on a
range inside the array every larger bound gives the same result. -/
theorem quicksort_rec_profundidade (pre seg post : List Evento) (prof : Nat)
    (h : seg.length ≤ prof) :
    quicksort_rec prof (pre ++ (seg ++ post)) (pre.length : Int)
        (((pre.length + seg.length : Nat) : Int) - 1) =
      quicksort_eventos_por_data (pre ++ (seg ++ post)) (pre.length : Int)
        (((pre.length + seg.length : Nat) : Int) - 1) := by
  obtain ⟨seg1, _, _, hq⟩ := quicksort_rec_spec seg.length seg pre post (pre.length : Int)
    (((pre.length + seg.length : Nat) : Int) - 1) (le_refl _) rfl rfl
  have hf : (((pre.length + seg.length : Nat) : Int) - 1 - (pre.length : Int) + 1).toNat =
      seg.length := by omega
  rw [quicksort_eventos_por_data, hf, hq prof h, hq seg.length (le_refl _)]

/-- Quicksort of the whole array gives a permutation of it in non-decreasing
date order. -/
theorem quicksort_eventos_spec (eventos : List Evento) :
    (quicksort_eventos_por_data eventos 0 ((eventos.length : Int) - 1)).Perm eventos ∧
    (quicksort_eventos_por_data eventos 0 ((eventos.length : Int) - 1)).Pairwise data_le := by
  obtain ⟨seg1, hp, hs, hq⟩ := quicksort_rec_spec eventos.length eventos [] [] 0
    ((eventos.length : Int) - 1) (le_refl _) rfl (by simp)
  have hf : ((eventos.length : Int) - 1 - 0 + 1).toNat = eventos.length := by omega
  have h := hq eventos.length (le_refl _)
  simp only [List.nil_append, List.append_nil] at h
  rw [quicksort_eventos_por_data, hf, h]
  exact ⟨hp, hs⟩

theorem contar_eventos_length (l : List NoEvento) : contar_eventos l = (l.length : Int) := by
  induction l with
  | nil => rfl
  | cons a t ih => simp [contar_eventos, ih]

theorem reconstruir_dados : ∀ (l : List NoEvento) (es : List Evento),
    es.length = l.length → (reconstruir l es).map (fun n => n.dados) = es := by
  intro l
  induction l with
  | nil =>
    intro es h
    cases es with
    | nil => rfl
    | cons e t => simp at h
  | cons a t ih =>
    intro es h
    cases es with
    | nil => simp at h
    | cons e u =>
      simp only [List.length_cons, add_left_inj] at h
      simp [reconstruir, ih u h]

theorem reconstruir_enderecos : ∀ (l : List NoEvento) (es : List Evento),
    enderecos (reconstruir l es) = enderecos l := by
  intro l
  induction l with
  | nil =>
    intro es
    rfl
  | cons a t ih =>
    intro es
    cases es with
    | nil => rfl
    | cons e u =>
      have := ih u
      simp only [enderecos] at this
      simp [reconstruir, enderecos, this]

/-- What `ordenar_eventos_por_data` returns when called with the length of the
chain: the nodes stay where they are, and their records are a permutation of
the old ones in non-decreasing date order. -/
theorem ordenar_spec (lista : List NoEvento) :
    ∃ l1, ordenar_eventos_por_data lista (lista.length : Int) = some l1 ∧
      enderecos l1 = enderecos lista ∧
      (l1.map (fun n => n.dados)).Perm (lista.map (fun n => n.dados)) ∧
      (l1.map (fun n => n.dados)).Pairwise data_le := by
  cases lista with
  | nil => exact ⟨[], rfl, rfl, List.Perm.refl _, List.Pairwise.nil⟩
  | cons a t =>
    by_cases h1 : (((a :: t).length : Nat) : Int) ≤ 1
    · have ht : t = [] := by
        simp only [List.length_cons] at h1
        exact List.length_eq_zero.1 (by omega)
      subst ht
      refine ⟨[a], ?_, rfl, List.Perm.refl _, List.pairwise_singleton _ _⟩
      simp only [ordenar_eventos_por_data, h1, if_true]
    · have hq := quicksort_eventos_spec ((a :: t).map (fun n => n.dados))
      simp only [List.length_map] at hq
      have htk : (a :: t).take (((a :: t).length : Nat) : Int).toNat = a :: t := by
        rw [Int.toNat_ofNat, List.take_length]
      refine ⟨reconstruir (a :: t)
        (quicksort_eventos_por_data ((a :: t).map (fun n => n.dados)) 0
          ((((a :: t).length : Nat) : Int) - 1)), ?_, reconstruir_enderecos _ _, ?_, ?_⟩
      · simp only [ordenar_eventos_por_data, h1, if_false, lt_self_iff_false, htk]
      · rw [reconstruir_dados _ _ (by rw [hq.1.length_eq, List.length_map])]
        exact hq.1
      · rw [reconstruir_dados _ _ (by rw [hq.1.length_eq, List.length_map])]
        exact hq.2

/-- C4: for every event chain, `ordenar_eventos_por_data` called with the length
of the chain returns, and the dates read along the resulting chain are in
non-decreasing `strcmp` order (each date is `<=` every later one). -/
theorem ordenar_datas_nao_decrescentes (lista : List NoEvento) :
    ∃ l1, ordenar_eventos_por_data lista (lista.length : Int) = some l1 ∧
      (l1.map (fun n => n.dados.data)).Pairwise (fun d1 d2 => strcmp d1 d2 ≤ 0) := by
  obtain ⟨l1, h1, _, _, h4⟩ := ordenar_spec lista
  refine ⟨l1, h1, ?_⟩
  rw [List.pairwise_map] at h4 ⊢
  exact h4

/-- C5: for every event chain, `ordenar_eventos_por_data` called with the length
of the chain only permutes the records: the chain has the same length and the
same nodes, and the records (all seven fields taken together) are a
permutation of the records before. -/
theorem ordenar_permuta_registros (lista : List NoEvento) :
    ∃ l1, ordenar_eventos_por_data lista (lista.length : Int) = some l1 ∧
      l1.length = lista.length ∧
      (l1.map (fun n => n.dados)).Perm (lista.map (fun n => n.dados)) ∧
      enderecos l1 = enderecos lista := by
  obtain ⟨l1, h1, h2, h3, _⟩ := ordenar_spec lista
  refine ⟨l1, h1, ?_, h3, h2⟩
  have := h3.length_eq
  simpa using this

/-- C3 fails on the code: in the sort scenario the registration of P1 points
to the node holding E1 (id 1); after the sort the same pointer reads E2
(id 2), because the sort moved the records between the nodes.  In the sorted
state the cancellation of P1 for event 1 then finds no record. -/
theorem ordenar_troca_evento_da_inscricao :
    (ler_evento lista_cenario_ordenar inscricao_cenario_ordenar.evento).map
      (fun e => (e.id, e.nome)) = some (1, "E1") ∧
    ((ordenar_eventos_por_data lista_cenario_ordenar 2).bind
      (fun l => ler_evento l inscricao_cenario_ordenar.evento)).map
      (fun e => (e.id, e.nome)) = some (2, "E2") ∧
    ((ordenar_sistema sistema_cenario_ordenar).bind
      (fun s => cancelar_inscricao s 1 1)).map (fun r => r.1) = some false := by
  decide

/-! ## Cancellation and the duplicate test (claims C11, C12) -/

theorem isSome_some {α : Type} {x : Option α} (h : x.isSome = true) : ∃ v, x = some v := by
  cases x with
  | none => simp at h
  | some v => exact ⟨v, rfl⟩

/-- With live pointers the cancellation loop returns: either true, having
turned the first CONFIRMADA record of the pair into CANCELADA and given one
place back through its event pointer, or false with nothing changed when the
pair has no CONFIRMADA record. -/
theorem cancelar_laco_total (evs : List NoEvento) (ps : List NoParticipante)
    (idP idE : Int) : ∀ rs : List Inscricao, ponteiros_validos evs ps rs →
    (∃ pre r post, rs = pre ++ r :: post ∧ (∀ x ∈ pre, ¬ confirmado evs ps idP idE x) ∧
      confirmado evs ps idP idE r ∧
      lista_inscricoes_cancelar_laco evs ps rs idP idE =
        some (true,
          escrever_evento evs r.evento
            (fun ev => { ev with vagasDisponiveis := ev.vagasDisponiveis + 1 }),
          pre ++ { r with status := StatusInscricao.CANCELADA } :: post)) ∨
    ((∀ x ∈ rs, ¬ confirmado evs ps idP idE x) ∧
      lista_inscricoes_cancelar_laco evs ps rs idP idE = some (false, evs, rs)) := by
  intro rs
  induction rs with
  | nil =>
    intro _
    exact Or.inr ⟨(fun _ h => by cases h), rfl⟩
  | cons a t ih =>
    intro hv
    have hva := hv a (List.mem_cons_self _ _)
    obtain ⟨p, hp⟩ := isSome_some hva.1
    obtain ⟨e, he⟩ := isSome_some hva.2
    have hvt : ponteiros_validos evs ps t := fun r hr => hv r (List.mem_cons_of_mem _ hr)
    have hpar : par_do_registro evs ps a = some (p.id, e.id) := by
      simp [par_do_registro, hp, he]
    by_cases hc : p.id = idP ∧ e.id = idE ∧ a.status = StatusInscricao.CONFIRMADA
    · left
      refine ⟨[], a, t, rfl, (fun _ h => by cases h), ?_, ?_⟩
      · exact ⟨by rw [hpar, hc.1, hc.2.1], hc.2.2⟩
      · simp [lista_inscricoes_cancelar_laco, hp, he, hc.1, hc.2.1, hc.2.2]
    · have hna : ¬ confirmado evs ps idP idE a := by
        intro hh
        apply hc
        have h1 := hh.1
        rw [hpar] at h1
        simp only [Option.some.injEq, Prod.mk.injEq] at h1
        exact ⟨h1.1, h1.2, hh.2⟩
      have hstep : lista_inscricoes_cancelar_laco evs ps (a :: t) idP idE =
          match lista_inscricoes_cancelar_laco evs ps t idP idE with
          | none => none
          | some (b, evs1, rs1) => some (b, evs1, a :: rs1) := by
        simp only [lista_inscricoes_cancelar_laco, hp, he]
        by_cases hpid : p.id = idP
        · have hc2 : ¬ (e.id = idE ∧ a.status = StatusInscricao.CONFIRMADA) :=
            fun hh => hc ⟨hpid, hh⟩
          simp only [hpid, if_true, hc2, if_false]
        · simp only [hpid, if_false]
      rcases ih hvt with ⟨pre, r, post, h1, h2, h3, h4⟩ | ⟨h1, h2⟩
      · left
        refine ⟨a :: pre, r, post, by rw [h1]; rfl, ?_, h3, ?_⟩
        · intro x hx
          rcases List.mem_cons.1 hx with hx | hx
          · subst hx
            exact hna
          · exact h2 x hx
        · rw [hstep, h4]
          rfl
      · right
        refine ⟨?_, ?_⟩
        · intro x hx
          rcases List.mem_cons.1 hx with hx | hx
          · subst hx
            exact hna
          · exact h1 x hx
        · rw [hstep, h2]

/-- With live pointers the loop of `inscricao_existe` returns whether some
record of the pair is not CANCELADA. -/
theorem existe_laco_total (evs : List NoEvento) (ps : List NoParticipante)
    (idP idE : Int) : ∀ rs : List Inscricao, ponteiros_validos evs ps rs →
    inscricao_existe_laco evs ps rs idP idE = some (rs.any (ativo evs ps idP idE)) := by
  intro rs
  induction rs with
  | nil =>
    intro _
    rfl
  | cons a t ih =>
    intro hv
    have hva := hv a (List.mem_cons_self _ _)
    obtain ⟨p, hp⟩ := isSome_some hva.1
    obtain ⟨e, he⟩ := isSome_some hva.2
    have hvt : ponteiros_validos evs ps t := fun r hr => hv r (List.mem_cons_of_mem _ hr)
    simp only [inscricao_existe_laco, hp, he, List.any_cons, ih hvt]
    by_cases hpid : p.id = idP
    · by_cases hc : e.id = idE ∧ a.status ≠ StatusInscricao.CANCELADA
      · have hat : ativo evs ps idP idE a = true := by
          simp [ativo, par_do_registro, hp, he, hpid, hc.1, hc.2]
        simp [hpid, hc, hat]
      · have hat : ativo evs ps idP idE a = false := by
          simp only [ativo, par_do_registro, hp, he, Bool.and_eq_false_iff,
            decide_eq_false_iff_not, Option.some.injEq, Prod.mk.injEq]
          by_cases hst : a.status = StatusInscricao.CANCELADA
          · exact Or.inl (fun hh => hh hst)
          · exact Or.inr (fun hh => hc ⟨hh.2, hst⟩)
        simp only [hpid, if_true, hc, if_false, hat, Bool.false_or]
    · have hat : ativo evs ps idP idE a = false := by
        simp [ativo, par_do_registro, hp, he, hpid]
      simp only [hpid, if_false, hat, Bool.false_or]

/-- C12: on a log whose pointers are live, `inscricao_existe` returns, and it
returns true if and only if some record of the log stands for the pair of ids
and has a status other than CANCELADA.  A PENDENTE record counts: on
`log_pendente` the answer for P1 and the scenario event is true. -/
theorem inscricao_existe_sse (evs : List NoEvento) (ps : List NoParticipante)
    (lista : ListaInscricoes) (idParticipante idEvento : Int)
    (hv : ponteiros_validos evs ps lista.inicio) :
    (∃ b, inscricao_existe evs ps lista idParticipante idEvento = some b ∧
      (b = true ↔ ∃ r ∈ lista.inicio,
        par_do_registro evs ps r = some (idParticipante, idEvento) ∧
        r.status ≠ StatusInscricao.CANCELADA)) ∧
    inscricao_existe [no_cenario 2 1] [P1, P2] log_pendente 1 1 = some true := by
  refine ⟨⟨_, existe_laco_total evs ps idParticipante idEvento lista.inicio hv, ?_⟩, by decide⟩
  rw [List.any_eq_true]
  constructor
  · rintro ⟨r, hr, hat⟩
    simp only [ativo, Bool.and_eq_true, decide_eq_true_eq] at hat
    exact ⟨r, hr, hat.2, hat.1⟩
  · rintro ⟨r, hr, h1, h2⟩
    refine ⟨r, hr, ?_⟩
    simp only [ativo, Bool.and_eq_true, decide_eq_true_eq]
    exact ⟨h2, h1⟩

/-- Witness for C12: the duplicate test on the log with one confirmed record. -/
theorem inscricao_existe_sse_witness :
    ∃ b, inscricao_existe [no_cenario 2 1] [P1, P2]
        (ListaInscricoes.mk [inscricao_criar 100 10 "2025-02-01" StatusInscricao.CONFIRMADA] 1)
        1 1 = some b ∧
      (b = true ↔ ∃ r ∈ [inscricao_criar 100 10 "2025-02-01" StatusInscricao.CONFIRMADA],
        par_do_registro [no_cenario 2 1] [P1, P2] r = some (1, 1) ∧
        r.status ≠ StatusInscricao.CANCELADA) :=
  (inscricao_existe_sse [no_cenario 2 1] [P1, P2]
    (ListaInscricoes.mk [inscricao_criar 100 10 "2025-02-01" StatusInscricao.CONFIRMADA] 1)
    1 1 (by decide)).1

/-! ## The log only grows (claim C13) -/

theorem mesmo_registro_refl (r : Inscricao) : mesmo_registro r r :=
  ⟨rfl, rfl, rfl, Or.inl rfl⟩

theorem mesmo_registro_trans {a b c : Inscricao} (h1 : mesmo_registro a b)
    (h2 : mesmo_registro b c) : mesmo_registro a c := by
  obtain ⟨p1, e1, d1, s1⟩ := h1
  obtain ⟨p2, e2, d2, s2⟩ := h2
  refine ⟨p2.trans p1, e2.trans e1, d2.trans d1, ?_⟩
  rcases s1 with s1 | ⟨s1a, s1b⟩
  · rcases s2 with s2 | ⟨s2a, s2b⟩
    · exact Or.inl (s2.trans s1)
    · exact Or.inr ⟨s1 ▸ s2a, s2b⟩
  · rcases s2 with s2 | ⟨s2a, _⟩
    · exact Or.inr ⟨s1a, s2.trans s1b⟩
    · rw [s1b] at s2a
      cases s2a

theorem estende_append (rs cauda : List Inscricao) : estende rs (rs ++ cauda) := by
  induction rs with
  | nil => exact trivial
  | cons a t ih => exact ⟨mesmo_registro_refl a, ih⟩

theorem estende_refl (rs : List Inscricao) : estende rs rs := by
  have := estende_append rs []
  simpa using this

theorem estende_trans : ∀ (a b c : List Inscricao), estende a b → estende b c → estende a c := by
  intro a
  induction a with
  | nil =>
    intro b c _ _
    exact trivial
  | cons x t ih =>
    intro b c h1 h2
    cases b with
    | nil => exact absurd h1 (by simp [estende])
    | cons y u =>
      cases c with
      | nil => exact absurd h2 (by simp [estende])
      | cons z v => exact ⟨mesmo_registro_trans h1.1 h2.1, ih u v h1.2 h2.2⟩

theorem estende_length : ∀ (a b : List Inscricao), estende a b → a.length ≤ b.length := by
  intro a
  induction a with
  | nil =>
    intro b _
    exact Nat.zero_le _
  | cons x t ih =>
    intro b h
    cases b with
    | nil => exact absurd h (by simp [estende])
    | cons y u =>
      have := ih u h.2
      simp only [List.length_cons]
      omega

theorem estende_cancelado (pre post : List Inscricao) (r : Inscricao)
    (hr : r.status = StatusInscricao.CONFIRMADA) :
    estende (pre ++ r :: post)
      (pre ++ { r with status := StatusInscricao.CANCELADA } :: post) := by
  induction pre with
  | nil => exact ⟨⟨rfl, rfl, rfl, Or.inr ⟨hr, rfl⟩⟩, estende_refl post⟩
  | cons a t ih => exact ⟨mesmo_registro_refl a, ih⟩

/-- One registration or cancellation keeps the old records in place and keeps
`tamanho` equal to the number of records. -/
theorem passo_log (s s1 : Sistema) (op : Op) (hop : Op.deInscricao op = true)
    (h : passo s op = some s1) :
    estende s.lista_inscricoes.inicio s1.lista_inscricoes.inicio ∧
    s1.lista_inscricoes.tamanho - s.lista_inscricoes.tamanho =
      (s1.lista_inscricoes.inicio.length : Int) - (s.lista_inscricoes.inicio.length : Int) := by
  cases op with
  | adicionar _ _ _ _ _ _ => simp [Op.deInscricao] at hop
  | editar _ _ _ _ _ _ => simp [Op.deInscricao] at hop
  | ordenar => simp [Op.deInscricao] at hop
  | inscrever idEvento idParticipante dataAtual =>
    simp only [passo] at h
    cases hn : nova_inscricao s idEvento idParticipante dataAtual with
    | none => simp [hn] at h
    | some r =>
      obtain ⟨res, s2⟩ := r
      simp only [hn, Option.some.injEq] at h
      subst h
      by_cases hres : res = Resultado.sucesso
      · subst hres
        obtain ⟨evento, participante, _, _, _, _, hs1⟩ := sucesso_de_nova_inscricao hn
        subst hs1
        simp only [lista_inscricoes_adicionar, List.length_append, List.length_cons,
          List.length_nil]
        refine ⟨estende_append _ _, ?_⟩
        push_cast
        omega
      · have hs : s2 = s := nova_inscricao_rejeitada hn hres
        subst hs
        exact ⟨estende_refl _, by omega⟩
  | cancelar idEvento idParticipante =>
    simp only [passo, cancelar_inscricao, lista_inscricoes_cancelar] at h
    cases hc : lista_inscricoes_cancelar_laco s.lista_eventos s.lista_participantes
        s.lista_inscricoes.inicio idParticipante idEvento with
    | none => simp [hc] at h
    | some v =>
      obtain ⟨b, evs1, rs1⟩ := v
      simp only [hc, Option.some.injEq] at h
      subst h
      simp only
      rcases cancelar_laco_spec _ _ _ _ _ b evs1 rs1 hc with
        ⟨_, _, h3⟩ | ⟨_, pre, r, post, h2, h3, h4, _⟩
      · subst h3
        exact ⟨estende_refl _, by omega⟩
      · subst h4
        rw [h2]
        refine ⟨estende_cancelado pre post r h3, ?_⟩
        simp only [List.length_append, List.length_cons]
        omega

/-- C13: along any sequence of registrations and cancellations the records
that were in the log are still there, at the same positions, with the same
participant, event and date, and with a status that is unchanged or went from
CONFIRMADA to CANCELADA; `tamanho` moves as the number of records does, so it
equals that number whenever it did at the start (as in the empty log) and it
never decreases. -/
theorem log_so_cresce (s0 s : Sistema) (ops : List Op)
    (hops : ∀ op ∈ ops, Op.deInscricao op = true)
    (hrun : executar s0 ops = some s) :
    estende s0.lista_inscricoes.inicio s.lista_inscricoes.inicio ∧
    (s0.lista_inscricoes.tamanho = (s0.lista_inscricoes.inicio.length : Int) →
      s.lista_inscricoes.tamanho = (s.lista_inscricoes.inicio.length : Int)) ∧
    s0.lista_inscricoes.tamanho ≤ s.lista_inscricoes.tamanho ∧
    lista_inscricoes_criar.tamanho = (lista_inscricoes_criar.inicio.length : Int) := by
  have hgen : ∀ (ops : List Op) (s0 : Sistema),
      (∀ op ∈ ops, Op.deInscricao op = true) → executar s0 ops = some s →
      estende s0.lista_inscricoes.inicio s.lista_inscricoes.inicio ∧
      s.lista_inscricoes.tamanho - s0.lista_inscricoes.tamanho =
        (s.lista_inscricoes.inicio.length : Int) - (s0.lista_inscricoes.inicio.length : Int) := by
    intro ops
    induction ops with
    | nil =>
      intro s0 _ hrun
      simp only [executar, Option.some.injEq] at hrun
      subst hrun
      exact ⟨estende_refl _, by omega⟩
    | cons op t ih =>
      intro s0 hops hrun
      simp only [executar] at hrun
      cases hp : passo s0 op with
      | none => simp [hp] at hrun
      | some s1 =>
        simp only [hp] at hrun
        obtain ⟨a1, a2⟩ := passo_log s0 s1 op (hops op (List.mem_cons_self _ _)) hp
        obtain ⟨b1, b2⟩ := ih s1 (fun o ho => hops o (List.mem_cons_of_mem _ ho)) hrun
        exact ⟨estende_trans _ _ _ a1 b1, by omega⟩
  obtain ⟨h1, h2⟩ := hgen ops s0 hops hrun
  have h3 := estende_length _ _ h1
  refine ⟨h1, fun h0 => by omega, by omega, rfl⟩

/-- Witness for C13: P1 registers, cancels and registers again for the scenario
event; the first record stays, now CANCELADA, and `tamanho` is 2. -/
theorem log_so_cresce_witness :
    estende [inscricao_criar 100 10 "d1" StatusInscricao.CONFIRMADA]
      [inscricao_criar 100 10 "d1" StatusInscricao.CANCELADA,
        inscricao_criar 100 10 "d2" StatusInscricao.CONFIRMADA] ∧
    (cenario 2 1 [inscricao_criar 100 10 "d1" StatusInscricao.CANCELADA,
        inscricao_criar 100 10 "d2" StatusInscricao.CONFIRMADA]).lista_inscricoes.tamanho = 2 :=
  match log_so_cresce (cenario 2 1 [inscricao_criar 100 10 "d1" StatusInscricao.CONFIRMADA])
    (cenario 2 1 [inscricao_criar 100 10 "d1" StatusInscricao.CANCELADA,
        inscricao_criar 100 10 "d2" StatusInscricao.CONFIRMADA])
    [Op.cancelar 1 1, Op.inscrever 1 1 "d2"] (by decide) (by decide) with
  | ⟨h1, h2, _, _⟩ => ⟨h1, h2 (by decide)⟩

/-! ## Adding and removing events (claims C14, C16) -/

/-- C14: adding the event built by `evento_criar` with the counter value `id`
gives the old chain in its order followed by the new node, the new event has
`vagasDisponiveis` equal to `capacidade`, `contar_eventos` grows by one, and
when no earlier event has the id `eventos_buscar_por_id` finds the new node. -/
theorem eventos_adicionar_novo (lista : List NoEvento) (endereco : Nat) (id : Int)
    (nome descricao categoria data : String) (capacidade : Int) :
    eventos_adicionar lista
        (NoEvento.mk endereco (evento_criar id nome descricao categoria data capacidade)) =
      lista ++ [NoEvento.mk endereco
        (evento_criar id nome descricao categoria data capacidade)] ∧
    (evento_criar id nome descricao categoria data capacidade).vagasDisponiveis =
      (evento_criar id nome descricao categoria data capacidade).capacidade ∧
    (evento_criar id nome descricao categoria data capacidade).capacidade = capacidade ∧
    (evento_criar id nome descricao categoria data capacidade).id = id ∧
    contar_eventos (eventos_adicionar lista
        (NoEvento.mk endereco (evento_criar id nome descricao categoria data capacidade))) =
      contar_eventos lista + 1 ∧
    ((∀ n ∈ lista, n.dados.id ≠ id) →
      eventos_buscar_por_id (eventos_adicionar lista
          (NoEvento.mk endereco (evento_criar id nome descricao categoria data capacidade)))
          id =
        some (NoEvento.mk endereco
          (evento_criar id nome descricao categoria data capacidade))) := by
  refine ⟨eventos_adicionar_append _ _, rfl, rfl, rfl, ?_, ?_⟩
  · rw [eventos_adicionar_append, contar_eventos_length, contar_eventos_length]
    simp
  · intro hn
    rw [eventos_adicionar_append]
    induction lista with
    | nil => simp [eventos_buscar_por_id, evento_criar]
    | cons a t ih =>
      have ha : ¬ a.dados.id = id := hn a (List.mem_cons_self _ _)
      simp only [List.cons_append, eventos_buscar_por_id, ha, if_false]
      exact ih (fun n h => hn n (List.mem_cons_of_mem _ h))

/-- Witness for C14: a second event with id 2 is added after the scenario event. -/
theorem eventos_adicionar_novo_witness :
    eventos_buscar_por_id (eventos_adicionar [no_cenario 2 2]
        (NoEvento.mk 11 (evento_criar 2 "E2" "" "" "2025-01-10" 1))) 2 =
      some (NoEvento.mk 11 (evento_criar 2 "E2" "" "" "2025-01-10" 1)) :=
  (eventos_adicionar_novo [no_cenario 2 2] 11 2 "E2" "" "" "2025-01-10" 1).2.2.2.2.2
    (by decide)

theorem eventos_remover_laco_ausente (atual : NoEvento) (resto : List NoEvento) (id : Int)
    (h : ∀ m ∈ resto, m.dados.id ≠ id) :
    eventos_remover_laco atual resto id = atual :: resto := by
  induction resto generalizing atual with
  | nil => rfl
  | cons p t ih =>
    have hp : ¬ p.dados.id = id := h p (List.mem_cons_self _ _)
    simp only [eventos_remover_laco, hp, if_false]
    rw [ih p (fun m hm => h m (List.mem_cons_of_mem _ hm))]

theorem eventos_remover_laco_presente (atual : NoEvento) (pre : List NoEvento)
    (n : NoEvento) (post : List NoEvento) (id : Int)
    (hpre : ∀ m ∈ pre, m.dados.id ≠ id) (hn : n.dados.id = id) :
    eventos_remover_laco atual (pre ++ n :: post) id = atual :: (pre ++ post) := by
  induction pre generalizing atual with
  | nil => simp [eventos_remover_laco, hn]
  | cons p t ih =>
    have hp : ¬ p.dados.id = id := hpre p (List.mem_cons_self _ _)
    simp only [List.cons_append, eventos_remover_laco, hp, if_false, List.append_eq]
    rw [ih p (fun m hm => hpre m (List.mem_cons_of_mem _ hm))]

theorem buscar_evento_none {l : List NoEvento} {id : Int} :
    eventos_buscar_por_id l id = none ↔ ∀ m ∈ l, m.dados.id ≠ id := by
  induction l with
  | nil => simp [eventos_buscar_por_id]
  | cons a t ih =>
    simp only [eventos_buscar_por_id, List.mem_cons, forall_eq_or_imp]
    by_cases ha : a.dados.id = id
    · simp [ha]
    · simp [ha, ih]

/-- A found id splits the chain at the first node carrying it. -/
theorem buscar_evento_decomp {l : List NoEvento} {id : Int} {n : NoEvento}
    (h : eventos_buscar_por_id l id = some n) :
    ∃ pre post, l = pre ++ n :: post ∧ (∀ m ∈ pre, m.dados.id ≠ id) ∧ n.dados.id = id := by
  induction l with
  | nil => simp [eventos_buscar_por_id] at h
  | cons a t ih =>
    simp only [eventos_buscar_por_id] at h
    by_cases ha : a.dados.id = id
    · simp only [ha, if_true, Option.some.injEq] at h
      subst h
      exact ⟨[], t, rfl, (fun _ hm => by cases hm), ha⟩
    · simp only [ha, if_false] at h
      obtain ⟨pre, post, h1, h2, h3⟩ := ih h
      refine ⟨a :: pre, post, by rw [h1]; rfl, ?_, h3⟩
      intro m hm
      rcases List.mem_cons.1 hm with hm | hm
      · subst hm
        exact ha
      · exact h2 m hm

/-- C16: `eventos_remover` returns the chain without the first node carrying
the id, every other node keeping its place in the order and its record; with no
such node the chain is returned as it is; so `contar_eventos` goes down by one
exactly when the id was present. -/
theorem eventos_remover_primeiro (lista : List NoEvento) (id : Int) :
    (∀ pre n post, lista = pre ++ n :: post → (∀ m ∈ pre, m.dados.id ≠ id) →
      n.dados.id = id →
      eventos_remover lista id = pre ++ post ∧
      contar_eventos (eventos_remover lista id) = contar_eventos lista - 1) ∧
    ((∀ m ∈ lista, m.dados.id ≠ id) →
      eventos_remover lista id = lista) ∧
    contar_eventos (eventos_remover lista id) =
      contar_eventos lista - (if (eventos_buscar_por_id lista id).isSome then 1 else 0) := by
  have hA : ∀ pre n post, lista = pre ++ n :: post → (∀ m ∈ pre, m.dados.id ≠ id) →
      n.dados.id = id → eventos_remover lista id = pre ++ post := by
    intro pre n post hl hpre hn
    subst hl
    cases pre with
    | nil => simp [eventos_remover, hn]
    | cons p t =>
      have hp : ¬ p.dados.id = id := hpre p (List.mem_cons_self _ _)
      simp only [List.cons_append, eventos_remover, hp, if_false, List.append_eq]
      exact eventos_remover_laco_presente p t n post id
        (fun m hm => hpre m (List.mem_cons_of_mem _ hm)) hn
  have hB : (∀ m ∈ lista, m.dados.id ≠ id) → eventos_remover lista id = lista := by
    intro h
    cases lista with
    | nil => rfl
    | cons p t =>
      have hp : ¬ p.dados.id = id := h p (List.mem_cons_self _ _)
      simp only [eventos_remover, hp, if_false]
      exact eventos_remover_laco_ausente p t id (fun m hm => h m (List.mem_cons_of_mem _ hm))
  refine ⟨?_, hB, ?_⟩
  · intro pre n post hl hpre hn
    refine ⟨hA pre n post hl hpre hn, ?_⟩
    rw [hA pre n post hl hpre hn, hl, contar_eventos_length, contar_eventos_length]
    simp only [List.length_append, List.length_cons]
    push_cast
    omega
  · cases hb : eventos_buscar_por_id lista id with
    | none =>
      rw [hB (buscar_evento_none.1 hb)]
      simp
    | some n =>
      obtain ⟨pre, post, h1, h2, h3⟩ := buscar_evento_decomp hb
      rw [hA pre n post h1 h2 h3, h1, contar_eventos_length, contar_eventos_length]
      simp only [List.length_append, List.length_cons, Option.isSome_some, if_true]
      push_cast
      omega

/-- Witness for C16: removing id 1 from the chain of the sort scenario leaves
the node of E2. -/
theorem eventos_remover_primeiro_witness :
    eventos_remover lista_cenario_ordenar 1 =
        [] ++ [NoEvento.mk 11 (Evento.mk 2 "E2" "" "" "2025-01-10" 1 1)] ∧
      contar_eventos (eventos_remover lista_cenario_ordenar 1) =
        contar_eventos lista_cenario_ordenar - 1 :=
  (eventos_remover_primeiro lista_cenario_ordenar 1).1 []
    (NoEvento.mk 10 (Evento.mk 1 "E1" "" "" "2025-03-01" 2 1))
    [NoEvento.mk 11 (Evento.mk 2 "E2" "" "" "2025-01-10" 1 1)]
    (by decide) (by decide) (by decide)

/-! ## Event ids (claim C15) -/

theorem eventos_remover_sublist (l : List NoEvento) (id : Int) :
    (eventos_remover l id).Sublist l := by
  cases hb : eventos_buscar_por_id l id with
  | none =>
    have h := buscar_evento_none.1 hb
    cases l with
    | nil => exact List.Sublist.refl _
    | cons p t =>
      have hp : ¬ p.dados.id = id := h p (List.mem_cons_self _ _)
      simp only [eventos_remover, hp, if_false]
      rw [eventos_remover_laco_ausente p t id (fun m hm => h m (List.mem_cons_of_mem _ hm))]
  | some n =>
    obtain ⟨pre, post, h1, h2, h3⟩ := buscar_evento_decomp hb
    subst h1
    have hr : eventos_remover (pre ++ n :: post) id = pre ++ post := by
      cases pre with
      | nil => simp [eventos_remover, h3]
      | cons p t =>
        have hp : ¬ p.dados.id = id := h2 p (List.mem_cons_self _ _)
        simp only [List.cons_append, eventos_remover, hp, if_false, List.append_eq]
        exact eventos_remover_laco_presente p t n post id
          (fun m hm => h2 m (List.mem_cons_of_mem _ hm)) h3
    rw [hr]
    exact (List.Sublist.refl pre).append (List.sublist_cons_self n post)

/-- What one operation on the event store does to the ids and to the counter:
the ids stay distinct and below the counter, the counter goes up by one on an
addition and stays otherwise, and every id of the new chain was in the old
chain or is the old counter value. -/
theorem passo_eventos_ids (s s1 : Sistema) (op : OpEvento)
    (h : passo_eventos s op = some s1)
    (hnd : (ids_eventos s.lista_eventos).Nodup)
    (hlt : ∀ n ∈ s.lista_eventos, 1 ≤ n.dados.id ∧ n.dados.id < s.proximoIdEvento)
    (hc : 1 ≤ s.proximoIdEvento) :
    (ids_eventos s1.lista_eventos).Nodup ∧
    (∀ n ∈ s1.lista_eventos, 1 ≤ n.dados.id ∧ n.dados.id < s1.proximoIdEvento) ∧
    s1.proximoIdEvento = s.proximoIdEvento + (contar_adicoes [op] : Int) ∧
    (∀ id ∈ ids_eventos s1.lista_eventos,
      id ∈ ids_eventos s.lista_eventos ∨ s.proximoIdEvento ≤ id) := by
  cases op with
  | adicionar a nome descricao categoria data capacidade =>
    simp only [passo_eventos] at h
    by_cases hfresh : a ∈ enderecos s.lista_eventos
    · simp [hfresh] at h
    · simp only [hfresh, if_false, Option.some.injEq] at h
      subst h
      simp only [adicionar_evento, eventos_adicionar_append, contar_adicoes]
      refine ⟨?_, ?_, by simp, ?_⟩
      · simp only [ids_eventos, List.map_append, List.map_cons, List.map_nil]
        rw [List.nodup_append]
        refine ⟨hnd, List.nodup_singleton _, ?_⟩
        intro x hx hx2
        rw [List.mem_singleton] at hx2
        subst hx2
        obtain ⟨n, hn, hnx⟩ := List.mem_map.1 hx
        have := (hlt n hn).2
        simp only [evento_criar] at hnx
        omega
      · intro n hn
        rcases List.mem_append.1 hn with hn | hn
        · have := hlt n hn
          omega
        · rw [List.mem_singleton] at hn
          subst hn
          simp only [evento_criar]
          omega
      · intro id hid
        simp only [ids_eventos, List.map_append, List.map_cons, List.map_nil,
          List.mem_append, List.mem_singleton] at hid
        rcases hid with hid | hid
        · exact Or.inl hid
        · right
          rw [hid]
          simp [evento_criar]
  | remover id =>
    simp only [passo_eventos, Option.some.injEq] at h
    subst h
    have hsub : (remover_evento s id).lista_eventos.Sublist s.lista_eventos := by
      unfold remover_evento
      cases eventos_buscar_por_id s.lista_eventos id with
      | none => exact List.Sublist.refl _
      | some n => exact eventos_remover_sublist _ _
    have hcnt : (remover_evento s id).proximoIdEvento = s.proximoIdEvento := by
      unfold remover_evento
      cases eventos_buscar_por_id s.lista_eventos id <;> rfl
    refine ⟨?_, ?_, by simp [hcnt, contar_adicoes], ?_⟩
    · exact List.Nodup.sublist (hsub.map _) hnd
    · intro n hn
      rw [hcnt]
      exact hlt n (hsub.subset hn)
    · intro x hx
      exact Or.inl ((hsub.map (fun n => n.dados.id)).subset hx)
  | ordenar =>
    simp only [passo_eventos, ordenar_sistema, contar_eventos_length] at h
    obtain ⟨l1, h1, _, h3, _⟩ := ordenar_spec s.lista_eventos
    simp only [h1, Option.some.injEq] at h
    subst h
    have hids : (ids_eventos l1).Perm (ids_eventos s.lista_eventos) := by
      have := h3.map (fun e : Evento => e.id)
      simpa [ids_eventos, List.map_map] using this
    have hmem : ∀ n ∈ l1, n.dados ∈ s.lista_eventos.map (fun n => n.dados) := by
      intro n hn
      exact h3.subset (List.mem_map_of_mem (fun n => n.dados) hn)
    refine ⟨hids.nodup_iff.2 hnd, ?_, by simp [contar_adicoes], ?_⟩
    · intro n hn
      obtain ⟨m, hm, hmn⟩ := List.mem_map.1 (hmem n hn)
      have := hlt m hm
      rw [← hmn]
      exact this
    · intro x hx
      exact Or.inl (hids.subset hx)

theorem contar_adicoes_cons (op : OpEvento) (ops : List OpEvento) :
    contar_adicoes (op :: ops) = contar_adicoes [op] + contar_adicoes ops := by
  cases op <;> (simp only [contar_adicoes]; omega)

/-- Along a run on the event store the ids stay distinct and below the counter,
the counter goes up by the number of additions, and an id below the counter
that is not in the chain never comes back. -/
theorem executar_eventos_ids : ∀ (ops : List OpEvento) (s0 s : Sistema),
    executar_eventos s0 ops = some s →
    (ids_eventos s0.lista_eventos).Nodup →
    (∀ n ∈ s0.lista_eventos, 1 ≤ n.dados.id ∧ n.dados.id < s0.proximoIdEvento) →
    1 ≤ s0.proximoIdEvento →
    (ids_eventos s.lista_eventos).Nodup ∧
    (∀ n ∈ s.lista_eventos, 1 ≤ n.dados.id ∧ n.dados.id < s.proximoIdEvento) ∧
    s.proximoIdEvento = s0.proximoIdEvento + (contar_adicoes ops : Int) ∧
    (∀ id, id < s0.proximoIdEvento → id ∉ ids_eventos s0.lista_eventos →
      id ∉ ids_eventos s.lista_eventos) := by
  intro ops
  induction ops with
  | nil =>
    intro s0 s hrun hnd hlt _
    simp only [executar_eventos, Option.some.injEq] at hrun
    subst hrun
    exact ⟨hnd, hlt, by simp [contar_adicoes], fun _ _ h => h⟩
  | cons op t ih =>
    intro s0 s hrun hnd hlt hc
    simp only [executar_eventos] at hrun
    cases hp : passo_eventos s0 op with
    | none => simp [hp] at hrun
    | some s1 =>
      simp only [hp] at hrun
      obtain ⟨a1, a2, a3, a4⟩ := passo_eventos_ids s0 s1 op hp hnd hlt hc
      obtain ⟨b1, b2, b3, b4⟩ := ih s1 s hrun a1 a2 (by omega)
      refine ⟨b1, b2, ?_, ?_⟩
      · have hcc := contar_adicoes_cons op t
        rw [b3, a3]
        omega
      · intro id hid hni
        apply b4 id (by omega)
        intro hin
        rcases a4 id hin with h | h
        · exact hni h
        · omega

/-- C15: let `s1` be reached from the empty event store (counter 1) by
additions, removals and date sorts, and `s` be reached from `s1` by more of
them.  In `s1` the ids are pairwise distinct and each is at least 1 and smaller
than the counter; the counter is the number of additions so far plus 1, so the
next addition, the k-th, appends an event with id k; and an id that was given
out (smaller than the counter) and is no longer in the chain of `s1`, that is
the id of a removed event, is not in the chain of `s` either. -/
theorem ids_de_eventos (participantes : List NoParticipante) (ops1 ops2 : List OpEvento)
    (s1 s : Sistema)
    (h1 : executar_eventos (sistema_vazio participantes) ops1 = some s1)
    (h2 : executar_eventos s1 ops2 = some s) :
    (ids_eventos s1.lista_eventos).Nodup ∧
    (∀ n ∈ s1.lista_eventos, 1 ≤ n.dados.id ∧ n.dados.id < s1.proximoIdEvento) ∧
    s1.proximoIdEvento = (contar_adicoes ops1 : Int) + 1 ∧
    (∀ endereco nome descricao categoria data capacidade s2,
      passo_eventos s1 (OpEvento.adicionar endereco nome descricao categoria data capacidade) =
        some s2 →
      s2.lista_eventos = s1.lista_eventos ++
        [NoEvento.mk endereco (evento_criar ((contar_adicoes ops1 : Int) + 1)
          nome descricao categoria data capacidade)]) ∧
    (∀ id, id < s1.proximoIdEvento → id ∉ ids_eventos s1.lista_eventos →
      id ∉ ids_eventos s.lista_eventos) := by
  obtain ⟨a1, a2, a3, _⟩ := executar_eventos_ids ops1 (sistema_vazio participantes) s1 h1
    List.nodup_nil (fun n hn => by cases hn) (le_refl _)
  have hc : s1.proximoIdEvento = (contar_adicoes ops1 : Int) + 1 := by
    rw [a3]
    simp only [sistema_vazio]
    omega
  obtain ⟨_, _, _, b4⟩ := executar_eventos_ids ops2 s1 s h2 a1 a2 (by omega)
  refine ⟨a1, a2, hc, ?_, b4⟩
  intro endereco nome descricao categoria data capacidade s2 hs2
  simp only [passo_eventos] at hs2
  by_cases hfresh : endereco ∈ enderecos s1.lista_eventos
  · simp [hfresh] at hs2
  · simp only [hfresh, if_false, Option.some.injEq] at hs2
    subst hs2
    simp only [adicionar_evento, eventos_adicionar_append, hc]

/-- Witness for C15: two events are added and the first is removed; a third
addition then gets id 3, and id 1 stays out of the chain. -/
theorem ids_de_eventos_witness :
    (1 : Int) ∉ ids_eventos
      [NoEvento.mk 11 (evento_criar 2 "E2" "" "" "2025-01-10" 1),
       NoEvento.mk 10 (evento_criar 3 "E3" "" "" "2025-02-10" 1)] :=
  (ids_de_eventos [P1]
    [OpEvento.adicionar 10 "E1" "" "" "2025-03-01" 2,
     OpEvento.adicionar 11 "E2" "" "" "2025-01-10" 1, OpEvento.remover 1]
    [OpEvento.adicionar 10 "E3" "" "" "2025-02-10" 1, OpEvento.ordenar]
    (Sistema.mk [NoEvento.mk 11 (evento_criar 2 "E2" "" "" "2025-01-10" 1)] [P1]
      lista_inscricoes_criar 3 1)
    (Sistema.mk [NoEvento.mk 11 (evento_criar 2 "E2" "" "" "2025-01-10" 1),
       NoEvento.mk 10 (evento_criar 3 "E3" "" "" "2025-02-10" 1)] [P1]
      lista_inscricoes_criar 4 1)
    (by decide) (by decide)).2.2.2.2 1 (by decide) (by decide)

/-! ## Editing the capacity (claim C17) -/

/-- C17 as stated fails: on an event of capacity 5 with 3 places left, the edit
with capacity 0 (a capacity the data model allows) or with capacity -1 leaves
capacity 5 and 3 places, not capacity 0 and `max 0 (3 + (0 - 5)) = 0` places. -/
theorem editar_capacidade_contraexemplo :
    editar_evento [no_cenario 5 3] 1 none none none none 0 = [no_cenario 5 3] ∧
    editar_evento [no_cenario 5 3] 1 none none none none (-1) = [no_cenario 5 3] ∧
    (no_cenario 5 3).dados.capacidade ≠ 0 ∧
    (no_cenario 5 3).dados.vagasDisponiveis ≠ max 0 (3 + (0 - 5)) := by
  decide

/-- C17 amended: for the event found under the id, with capacity `c` and `a`
places left, after the edit with a new capacity `n > 0` for which the two
values the code computes, `n - c` and `a + (n - c)`, fit an `int`, the capacity
is `n` and the places left are `max 0 (a + (n - c))`; with `n ≤ 0` both are
kept. -/
theorem editar_capacidade (lista : List NoEvento) (id : Int) (evento : NoEvento)
    (nome descricao categoria data : Option String) (n : Int)
    (he : eventos_buscar_por_id lista id = some evento) :
    ∃ ev1, eventos_buscar_por_id
        (editar_evento lista id nome descricao categoria data n) id = some ev1 ∧
      ev1.endereco = evento.endereco ∧
      (0 < n → cabe_int (n - evento.dados.capacidade) →
        cabe_int (evento.dados.vagasDisponiveis + (n - evento.dados.capacidade)) →
        ev1.dados.capacidade = n ∧
        ev1.dados.vagasDisponiveis =
          max 0 (evento.dados.vagasDisponiveis + (n - evento.dados.capacidade))) ∧
      (n ≤ 0 → ev1.dados.capacidade = evento.dados.capacidade ∧
        ev1.dados.vagasDisponiveis = evento.dados.vagasDisponiveis) := by
  have hc := editar_campos_capacidade evento.dados nome descricao categoria data n
  refine ⟨NoEvento.mk evento.endereco
    (editar_campos evento.dados nome descricao categoria data n), ?_, rfl, ?_, ?_⟩
  · simp only [editar_evento, he]
    rw [buscar_escrever lista evento.endereco
      (fun ev => editar_campos ev nome descricao categoria data n) id
      (fun ev => (editar_campos_capacidade ev nome descricao categoria data n).2.2), he]
    simp
  · intro hn _ _
    have hn1 : n > 0 := hn
    simp only [hc.1, hc.2.1, hn1, if_true, true_and]
    by_cases hneg : evento.dados.vagasDisponiveis + (n - evento.dados.capacidade) < 0
    · simp only [hneg, if_true]
      rw [max_eq_left (by omega)]
    · simp only [hneg, if_false]
      rw [max_eq_right (by omega)]
  · intro hn
    have hn1 : ¬ n > 0 := by omega
    simp only [hc.1, hc.2.1, hn1, if_false, and_self]

/-- Witness for C17 amended: the capacity of the scenario event goes from 5 to
2 with 3 places left, which leaves `max 0 (3 + (2 - 5)) = 0` places. -/
theorem editar_capacidade_witness :
    ∃ ev1, eventos_buscar_por_id
        (editar_evento [no_cenario 5 3] 1 none none none none 2) 1 = some ev1 ∧
      ev1.dados.capacidade = 2 ∧ ev1.dados.vagasDisponiveis = 0 :=
  match editar_capacidade [no_cenario 5 3] 1 (no_cenario 5 3) none none none none 2
    (by decide) with
  | ⟨ev1, h1, _, h3, _⟩ => ⟨ev1, h1, (h3 (by decide) (by decide) (by decide)).1, by
      rw [(h3 (by decide) (by decide) (by decide)).2]
      decide⟩

/-! ## The circular participant list (claims C18, C19) -/

namespace Circular

theorem sem_ultimo_append (x : NoParticipante) (t : List NoParticipante) :
    x :: t = sem_ultimo x t ++ [ultimo_de x t] := by
  induction t generalizing x with
  | nil => rfl
  | cons y u ih =>
    simp only [sem_ultimo, ultimo_de, List.cons_append]
    rw [← ih y]

theorem seguinte_append (fim : Nat) (A B : List NoParticipante) :
    seguinte fim (A ++ B) = seguinte (seguinte fim B) A := by
  cases A <;> rfl

theorem cadeia_congr {mem mem1 : Memoria} {fim : Nat} {nos : List NoParticipante}
    (h : ∀ x ∈ nos, mem1 x.endereco = mem x.endereco) (hc : cadeia mem fim nos) :
    cadeia mem1 fim nos := by
  induction nos with
  | nil => exact trivial
  | cons x t ih =>
    refine ⟨?_, ih (fun y hy => h y (List.mem_cons_of_mem _ hy)) hc.2⟩
    rw [h x (List.mem_cons_self _ _)]
    exact hc.1

theorem cadeia_append (mem : Memoria) (fim : Nat) (A B : List NoParticipante) :
    cadeia mem fim (A ++ B) ↔ cadeia mem (seguinte fim B) A ∧ cadeia mem fim B := by
  induction A with
  | nil => simp [cadeia]
  | cons x t ih =>
    simp only [List.cons_append, cadeia, List.append_eq, seguinte_append, ih, and_assoc]

theorem cadeia_mem {mem : Memoria} {fim : Nat} {nos : List NoParticipante}
    (hc : cadeia mem fim nos) {x : NoParticipante} (hx : x ∈ nos) :
    ∃ p, mem x.endereco = some { dados := x.dados, proximo := some p } := by
  induction nos with
  | nil => cases hx
  | cons y t ih =>
    rcases List.mem_cons.1 hx with h | h
    · subst h
      exact ⟨_, hc.1⟩
    · exact ih hc.2 h

/-- On a chain that closes on `inicio` and does not pass through it again, the
loop that looks for the last node stops on the last node. -/
theorem ultimo_laco_cadeia (mem : Memoria) (inicio : Nat) :
    ∀ (t : List NoParticipante) (x : NoParticipante) (n : Nat),
      (x :: t).length ≤ n → cadeia mem inicio (x :: t) →
      (∀ y ∈ t, y.endereco ≠ inicio) →
      ultimo_laco n mem inicio x.endereco = some (ultimo_de x t).endereco := by
  intro t
  induction t with
  | nil =>
    intro x n hn hc _
    cases n with
    | zero => simp at hn
    | succ n =>
      have h1 := hc.1
      simp only [seguinte] at h1
      simp [ultimo_laco, h1, ultimo_de]
  | cons y u ih =>
    intro x n hn hc hne
    cases n with
    | zero => simp at hn
    | succ n =>
      have h1 := hc.1
      simp only [seguinte] at h1
      have hy : ¬ y.endereco = inicio := hne y (List.mem_cons_self _ _)
      simp only [ultimo_laco, h1, Option.some.injEq, hy, if_false, ultimo_de]
      exact ih y n (by simp only [List.length_cons] at hn ⊢; omega) hc.2
        (fun z hz => hne z (List.mem_cons_of_mem _ hz))

/-- On such a chain the listing loop visits exactly the nodes of the chain. -/
theorem listar_laco_cadeia (mem : Memoria) (inicio : Nat) :
    ∀ (t : List NoParticipante) (x : NoParticipante) (n : Nat),
      (x :: t).length ≤ n → cadeia mem inicio (x :: t) →
      (∀ y ∈ t, y.endereco ≠ inicio) →
      listar_laco n mem inicio x.endereco = some (x :: t) := by
  intro t
  induction t with
  | nil =>
    intro x n hn hc _
    cases n with
    | zero => simp at hn
    | succ n =>
      have h1 := hc.1
      simp only [seguinte] at h1
      simp [listar_laco, h1]
  | cons y u ih =>
    intro x n hn hc hne
    cases n with
    | zero => simp at hn
    | succ n =>
      have h1 := hc.1
      simp only [seguinte] at h1
      have hy : ¬ y.endereco = inicio := hne y (List.mem_cons_self _ _)
      have h2 := ih y n (by simp only [List.length_cons] at hn ⊢; omega) hc.2
        (fun z hz => hne z (List.mem_cons_of_mem _ hz))
      simp only [listar_laco, h1, hy, if_false, h2]

/-- On such a chain the search loop returns what the scan of the sequence of
nodes returns. -/
theorem buscar_laco_cadeia (mem : Memoria) (inicio : Nat) (id : Int) :
    ∀ (t : List NoParticipante) (x : NoParticipante) (n : Nat),
      (x :: t).length ≤ n → cadeia mem inicio (x :: t) →
      (∀ y ∈ t, y.endereco ≠ inicio) →
      buscar_laco n mem inicio x.endereco id =
        some ((SGE.lista_participantes_buscar_por_id (x :: t) id).map (fun m => m.endereco)) := by
  intro t
  induction t with
  | nil =>
    intro x n hn hc _
    cases n with
    | zero => simp at hn
    | succ n =>
      have h1 := hc.1
      simp only [seguinte] at h1
      by_cases hid : x.dados.id = id
      · simp [buscar_laco, h1, SGE.lista_participantes_buscar_por_id, hid]
      · simp [buscar_laco, h1, SGE.lista_participantes_buscar_por_id, hid]
  | cons y u ih =>
    intro x n hn hc hne
    cases n with
    | zero => simp at hn
    | succ n =>
      have h1 := hc.1
      simp only [seguinte] at h1
      have hy : ¬ y.endereco = inicio := hne y (List.mem_cons_self _ _)
      have h2 := ih y n (by simp only [List.length_cons] at hn ⊢; omega) hc.2
        (fun z hz => hne z (List.mem_cons_of_mem _ hz))
      by_cases hid : x.dados.id = id
      · simp [buscar_laco, h1, SGE.lista_participantes_buscar_por_id, hid]
      · simp only [buscar_laco, h1, hid, if_false, hy, h2]
        simp only [SGE.lista_participantes_buscar_por_id, hid, if_false]

theorem representa_cons {l : ListaParticipantes} {x : NoParticipante}
    {t : List NoParticipante} (h : representa l (x :: t)) :
    l.inicio = some x.endereco ∧ cadeia l.mem x.endereco (x :: t) ∧
      (∀ y ∈ t, y.endereco ≠ x.endereco) ∧ (t.map (fun n => n.endereco)).Nodup := by
  obtain ⟨h1, _, h3, h4⟩ := h
  simp only [List.map_cons, List.nodup_cons] at h3
  refine ⟨h1, h4, ?_, h3.2⟩
  intro y hy heq
  exact h3.1 (heq ▸ List.mem_map_of_mem (fun n => n.endereco) hy)

/-- The three traversals on a well-formed list, with a bound of at least
`tamanho`. -/
theorem travessias (l : ListaParticipantes) (nos : List NoParticipante) (n : Nat)
    (h : representa l nos) (hn : nos.length ≤ n) :
    lista_participantes_listar n l = some nos ∧
    ∀ id, lista_participantes_buscar_por_id n l id =
      some ((SGE.lista_participantes_buscar_por_id nos id).map (fun m => m.endereco)) := by
  cases nos with
  | nil =>
    have hi : l.inicio = none := h.1
    simp [lista_participantes_listar, lista_participantes_buscar_por_id, hi,
      SGE.lista_participantes_buscar_por_id]
  | cons x t =>
    obtain ⟨hi, hc, hne, _⟩ := representa_cons h
    refine ⟨?_, ?_⟩
    · simp only [lista_participantes_listar, hi]
      exact listar_laco_cadeia l.mem x.endereco t x n hn hc hne
    · intro id
      simp only [lista_participantes_buscar_por_id, hi]
      exact buscar_laco_cadeia l.mem x.endereco id t x n hn hc hne

theorem representa_vivo {l : ListaParticipantes} {nos : List NoParticipante}
    (h : representa l nos) {x : NoParticipante} (hx : x ∈ nos) :
    ∃ p, l.mem x.endereco = some { dados := x.dados, proximo := some p } :=
  cadeia_mem h.2.2.2 hx

theorem nodup_append_ultimo {A : List NoParticipante} {u : NoParticipante}
    (h : ((A ++ [u]).map (fun n => n.endereco)).Nodup) :
    ∀ y ∈ A, y.endereco ≠ u.endereco := by
  intro y hy heq
  simp only [List.map_append, List.map_cons, List.map_nil] at h
  rw [List.nodup_append] at h
  exact h.2.2 (List.mem_map_of_mem (fun n => n.endereco) hy) (by simp [heq])

/-- Adding a freshly allocated node to a well-formed list, with a bound of at
least `tamanho`, returns the well-formed list with the new node last. -/
theorem adicionar_representa (l : ListaParticipantes) (nos : List NoParticipante) (n : Nat)
    (a : Nat) (dados : Participante) (h : representa l nos) (hfresh : l.mem a = none)
    (hn : nos.length ≤ n) :
    ∃ l1, passo_participantes n l (OpParticipante.adicionar a dados) = some l1 ∧
      representa l1 (nos ++ [NoParticipante.mk a dados]) := by
  have hne : ∀ x ∈ nos, x.endereco ≠ a := by
    intro x hx heq
    obtain ⟨p, hp⟩ := representa_vivo h hx
    rw [heq, hfresh] at hp
    cases hp
  have hnd : ((nos ++ [NoParticipante.mk a dados]).map (fun n => n.endereco)).Nodup := by
    simp only [List.map_append, List.map_cons, List.map_nil]
    rw [List.nodup_append]
    refine ⟨h.2.2.1, List.nodup_singleton _, ?_⟩
    intro z hz hz2
    rw [List.mem_singleton] at hz2
    subst hz2
    obtain ⟨y, hy, hyz⟩ := List.mem_map.1 hz
    exact hne y hy hyz
  cases nos with
  | nil =>
    have hi : l.inicio = none := h.1
    refine ⟨{ mem := Function.update (participante_criar l.mem a dados) a
                (some { dados := dados, proximo := some a }),
              inicio := some a, tamanho := l.tamanho + 1 }, ?_, ?_⟩
    · simp [passo_participantes, lista_participantes_adicionar, hi, participante_criar]
    · refine ⟨rfl, ?_, hnd, ?_⟩
      · have := h.2.1
        simp only [List.length_nil] at this
        simp [this]
      · simp [cadeia, seguinte]
  | cons x t =>
    obtain ⟨hi, hc, hne0, _⟩ := representa_cons h
    have hdec := sem_ultimo_append x t
    have hc2 := hc
    rw [hdec, cadeia_append] at hc2
    obtain ⟨hcA, hcu⟩ := hc2
    have hu : l.mem (ultimo_de x t).endereco =
        some { dados := (ultimo_de x t).dados, proximo := some x.endereco } := by
      have := hcu.1
      simpa [seguinte] using this
    have huA : ∀ y ∈ sem_ultimo x t, y.endereco ≠ (ultimo_de x t).endereco := by
      apply nodup_append_ultimo
      rw [← hdec]
      exact h.2.2.1
    have hua : (ultimo_de x t).endereco ≠ a := by
      apply hne
      rw [hdec]
      simp
    have hc0 : cadeia (participante_criar l.mem a dados) x.endereco (x :: t) := by
      refine cadeia_congr ?_ hc
      intro y hy
      simp only [participante_criar]
      rw [Function.update_noteq (hne y hy)]
    have hult := ultimo_laco_cadeia (participante_criar l.mem a dados) x.endereco t x n hn
      hc0 hne0
    have hcad : cadeia
        (Function.update
          (Function.update (participante_criar l.mem a dados) a
            (some { dados := dados, proximo := some x.endereco }))
          (ultimo_de x t).endereco
          (some { dados := (ultimo_de x t).dados, proximo := some a }))
        x.endereco ((x :: t) ++ [NoParticipante.mk a dados]) := by
      rw [hdec, List.append_assoc, cadeia_append]
      refine ⟨?_, ?_, ?_, trivial⟩
      · refine cadeia_congr ?_ hcA
        intro y hy
        have hya : y.endereco ≠ a := by
          apply hne
          rw [hdec]
          exact List.mem_append_left _ hy
        rw [Function.update_noteq (huA y hy), Function.update_noteq hya]
        simp only [participante_criar]
        rw [Function.update_noteq hya]
      · exact Function.update_same _ _ _
      · rw [Function.update_noteq (fun hh => hua hh.symm), Function.update_same]
        rfl
    refine ⟨{ mem := Function.update
                (Function.update (participante_criar l.mem a dados) a
                  (some { dados := dados, proximo := some x.endereco }))
                (ultimo_de x t).endereco
                (some { dados := (ultimo_de x t).dados, proximo := some a }),
              inicio := some x.endereco, tamanho := l.tamanho + 1 }, ?_, ?_⟩
    · simp only [passo_participantes, lista_participantes_adicionar, hi, hult]
      simp [participante_criar, Function.update_noteq hua, hu]
    · refine ⟨rfl, ?_, hnd, hcad⟩
      have := h.2.1
      simp only [List.length_cons, List.length_append, List.length_nil] at this ⊢
      simp only [this]
      push_cast
      omega

theorem enderecos_distintos {L1 L2 : List NoParticipante}
    (h : ((L1 ++ L2).map (fun n => n.endereco)).Nodup) :
    ∀ a ∈ L1, ∀ b ∈ L2, a.endereco ≠ b.endereco := by
  intro a ha b hb heq
  simp only [List.map_append] at h
  rw [List.nodup_append] at h
  exact h.2.2 (List.mem_map_of_mem (fun n => n.endereco) ha)
    (heq ▸ List.mem_map_of_mem (fun n => n.endereco) hb)

theorem apagar_primeiro_ausente (t : List NoParticipante) (id : Int)
    (h : ∀ x ∈ t, x.dados.id ≠ id) : apagar_primeiro t id = t := by
  induction t with
  | nil => rfl
  | cons x u ih =>
    have hx : ¬ x.dados.id = id := h x (List.mem_cons_self _ _)
    simp only [apagar_primeiro, hx, if_false]
    rw [ih (fun y hy => h y (List.mem_cons_of_mem _ hy))]

theorem apagar_primeiro_sublist (t : List NoParticipante) (id : Int) :
    (apagar_primeiro t id).Sublist t := by
  induction t with
  | nil => exact List.Sublist.refl _
  | cons x u ih =>
    by_cases hx : x.dados.id = id
    · simp only [apagar_primeiro, hx, if_true]
      exact List.sublist_cons_self x u
    · simp only [apagar_primeiro, hx, if_false]
      exact ih.cons₂ x

/-- The general loop of the removal, standing on `atual` in a chain
`pre ++ atual :: rest` that closes on `inicio`: the first node of `rest`
carrying the id is unlinked and freed, the other links are kept. -/
theorem remover_laco_cadeia (inicio : Nat) (id : Int) :
    ∀ (rest pre : List NoParticipante) (atual : NoParticipante) (n : Nat)
      (l : ListaParticipantes),
      (atual :: rest).length ≤ n →
      cadeia l.mem inicio (pre ++ atual :: rest) →
      ((pre ++ atual :: rest).map (fun m => m.endereco)).Nodup →
      (∀ r ∈ rest, r.endereco ≠ inicio) →
      ∃ l1, remover_laco n l inicio atual.endereco id = some l1 ∧
        l1.inicio = l.inicio ∧
        l1.tamanho + (rest.length : Int) =
          l.tamanho + ((apagar_primeiro rest id).length : Int) ∧
        cadeia l1.mem inicio (pre ++ atual :: apagar_primeiro rest id) ∧
        ((∀ r ∈ rest, r.dados.id ≠ id) → l1 = l) := by
  intro rest
  induction rest with
  | nil =>
    intro pre atual n l hn hc _ _
    cases n with
    | zero => simp at hn
    | succ n =>
      have hc2 := (cadeia_append l.mem inicio pre [atual]).1 hc
      have ha := hc2.2.1
      simp only [seguinte] at ha
      refine ⟨l, ?_, rfl, rfl, hc, fun _ => rfl⟩
      simp [remover_laco, ha]
  | cons r rest ih =>
    intro pre atual n l hn hc hnd hne
    cases n with
    | zero => simp at hn
    | succ n =>
      have hc2 := (cadeia_append l.mem inicio pre (atual :: r :: rest)).1 hc
      obtain ⟨hcpre, ha, hr, hcrest⟩ := hc2
      simp only [seguinte] at ha hcpre
      have hri : ¬ r.endereco = inicio := hne r (List.mem_cons_self _ _)
      have e1 : pre ++ atual :: r :: rest = (pre ++ [atual]) ++ r :: rest := by simp
      have e2 : pre ++ atual :: r :: rest = (pre ++ [atual, r]) ++ rest := by simp
      have hd0 := enderecos_distintos hnd
      have hd1 := enderecos_distintos (e1 ▸ hnd)
      have hd2 := enderecos_distintos (e2 ▸ hnd)
      have har : atual.endereco ≠ r.endereco :=
        hd1 atual (by simp) r (List.mem_cons_self _ _)
      by_cases hid : r.dados.id = id
      · have hcad : cadeia
            (Function.update
              (Function.update l.mem atual.endereco
                (some { dados := atual.dados, proximo := some (seguinte inicio rest) }))
              r.endereco none)
            inicio (pre ++ atual :: rest) := by
          rw [cadeia_append]
          refine ⟨?_, ?_, ?_⟩
          · refine cadeia_congr ?_ hcpre
            intro z hz
            rw [Function.update_noteq (hd0 z hz r (by simp)),
              Function.update_noteq (hd0 z hz atual (by simp))]
          · rw [Function.update_noteq har, Function.update_same]
          · refine cadeia_congr ?_ hcrest
            intro z hz
            rw [Function.update_noteq (fun hh => hd2 r (by simp) z hz hh.symm),
              Function.update_noteq (fun hh => hd2 atual (by simp) z hz hh.symm)]
        refine ⟨{ mem := Function.update
                    (Function.update l.mem atual.endereco
                      (some { dados := atual.dados, proximo := some (seguinte inicio rest) }))
                    r.endereco none,
                  inicio := l.inicio, tamanho := l.tamanho - 1 }, ?_, rfl, ?_, ?_, ?_⟩
        · simp [remover_laco, ha, hri, hr, hid]
        · simp only [apagar_primeiro, hid, if_true, List.length_cons]
          push_cast
          omega
        · simp only [apagar_primeiro, hid, if_true]
          exact hcad
        · intro hno
          exact absurd hid (hno r (List.mem_cons_self _ _))
      · obtain ⟨l1, h1, h2, h3, h4, h5⟩ := ih (pre ++ [atual]) r n l
          (by simp only [List.length_cons] at hn ⊢; omega)
          (by rw [← e1]; exact hc) (by rw [← e1]; exact hnd)
          (fun z hz => hne z (List.mem_cons_of_mem _ hz))
        refine ⟨l1, ?_, h2, ?_, ?_, ?_⟩
        · simp only [remover_laco, ha, Option.some.injEq, hri, if_false, hr, hid]
          exact h1
        · simp only [apagar_primeiro, hid, if_false, List.length_cons]
          push_cast
          omega
        · simp only [apagar_primeiro, hid, if_false]
          have e3 : pre ++ atual :: r :: apagar_primeiro rest id =
              (pre ++ [atual]) ++ r :: apagar_primeiro rest id := by simp
          rw [e3]
          exact h4
        · intro hno
          exact h5 (fun z hz => hno z (List.mem_cons_of_mem _ hz))

/-- Removing an id from a well-formed list, with a bound of at least `tamanho`,
returns the well-formed list without the first node carrying the id, and the
very same list when no node carries it. -/
theorem remover_representa (l : ListaParticipantes) (nos : List NoParticipante) (n : Nat)
    (id : Int) (h : representa l nos) (hn : nos.length ≤ n) :
    ∃ l1, lista_participantes_remover n l id = some l1 ∧
      representa l1 (apagar_primeiro nos id) ∧
      ((∀ x ∈ nos, x.dados.id ≠ id) → l1 = l) := by
  cases nos with
  | nil =>
    have hi : l.inicio = none := h.1
    exact ⟨l, by simp [lista_participantes_remover, hi], h, fun _ => rfl⟩
  | cons x t =>
    obtain ⟨hi, hc, hne0, hndt⟩ := representa_cons h
    have hx := hc.1
    have htam := h.2.1
    by_cases hid : x.dados.id = id
    · cases t with
      | nil =>
        simp only [seguinte] at hx
        refine ⟨{ mem := Function.update l.mem x.endereco none, inicio := none,
                  tamanho := 0 }, ?_, ?_, ?_⟩
        · simp [lista_participantes_remover, hi, hx, hid]
        · simp only [apagar_primeiro, hid, if_true]
          exact ⟨rfl, rfl, List.nodup_nil, trivial⟩
        · intro hno
          exact absurd hid (hno x (List.mem_cons_self _ _))
      | cons y u =>
        simp only [seguinte] at hx
        have hyx : ¬ y.endereco = x.endereco := hne0 y (List.mem_cons_self _ _)
        have hult := ultimo_laco_cadeia l.mem x.endereco (y :: u) x n hn hc hne0
        simp only [ultimo_de] at hult
        have hdec := sem_ultimo_append y u
        have hcy := hc.2
        rw [hdec, cadeia_append] at hcy
        obtain ⟨hcA, hcu⟩ := hcy
        have hu : l.mem (ultimo_de y u).endereco =
            some { dados := (ultimo_de y u).dados, proximo := some x.endereco } := by
          have := hcu.1
          simpa [seguinte] using this
        have hux : (ultimo_de y u).endereco ≠ x.endereco := by
          apply hne0
          rw [hdec]
          simp
        have huA : ∀ z ∈ sem_ultimo y u, z.endereco ≠ (ultimo_de y u).endereco := by
          apply nodup_append_ultimo
          rw [← hdec]
          exact hndt
        have hcad : cadeia
            (Function.update
              (Function.update l.mem (ultimo_de y u).endereco
                (some { dados := (ultimo_de y u).dados, proximo := some y.endereco }))
              x.endereco none)
            y.endereco (y :: u) := by
          rw [hdec, cadeia_append]
          refine ⟨?_, ?_, trivial⟩
          · refine cadeia_congr ?_ hcA
            intro z hz
            have hzx : z.endereco ≠ x.endereco := by
              apply hne0
              rw [hdec]
              exact List.mem_append_left _ hz
            rw [Function.update_noteq hzx, Function.update_noteq (huA z hz)]
          · rw [Function.update_noteq hux, Function.update_same]
            rfl
        refine ⟨{ mem := Function.update
                    (Function.update l.mem (ultimo_de y u).endereco
                      (some { dados := (ultimo_de y u).dados, proximo := some y.endereco }))
                    x.endereco none,
                  inicio := some y.endereco, tamanho := l.tamanho - 1 }, ?_, ?_, ?_⟩
        · simp [lista_participantes_remover, hi, hx, hid, hyx, hult, hu]
        · simp only [apagar_primeiro, hid, if_true]
          refine ⟨rfl, ?_, hndt, hcad⟩
          simp only [List.length_cons] at htam ⊢
          simp only [htam]
          push_cast
          omega
        · intro hno
          exact absurd hid (hno x (List.mem_cons_self _ _))
    · obtain ⟨l1, h1, h2, h3, h4, h5⟩ := remover_laco_cadeia x.endereco id t [] x n l hn
        hc h.2.2.1 hne0
      refine ⟨l1, ?_, ?_, ?_⟩
      · simp only [lista_participantes_remover, hi, hx, hid, false_and, if_false]
        exact h1
      · simp only [apagar_primeiro, hid, if_false]
        refine ⟨by rw [h2, hi]; rfl, ?_, ?_, h4⟩
        · simp only [List.length_cons] at htam ⊢
          push_cast
          omega
        · exact List.Nodup.sublist
            (((apagar_primeiro_sublist t id).cons₂ x).map (fun m => m.endereco)) h.2.2.1
      · intro hno
        exact h5 (fun z hz => hno z (List.mem_cons_of_mem _ hz))

/-- C18: on a well-formed circular list, with a bound of at least `tamanho`,
`lista_participantes_remover` returns a well-formed list whose traversal from
`inicio` is the previous traversal without the first participant carrying the
id; when the only node is removed `inicio` is NULL and `tamanho` is 0; when the
first node is removed its successor is the new `inicio` and the others keep
their order; and when no node carries the id the list, `tamanho` included, is
unchanged. -/
theorem remover_circular (l : ListaParticipantes) (nos : List NoParticipante) (n : Nat)
    (id : Int) (h : representa l nos) (hn : nos.length ≤ n) :
    lista_participantes_listar n l = some nos ∧
    ∃ l1, lista_participantes_remover n l id = some l1 ∧
      representa l1 (apagar_primeiro nos id) ∧
      lista_participantes_listar n l1 = some (apagar_primeiro nos id) ∧
      l1.tamanho = ((apagar_primeiro nos id).length : Int) ∧
      (∀ x, nos = [x] → x.dados.id = id → l1.inicio = none ∧ l1.tamanho = 0) ∧
      (∀ x y t, nos = x :: y :: t → x.dados.id = id →
        l1.inicio = some y.endereco ∧ apagar_primeiro nos id = y :: t) ∧
      ((∀ x ∈ nos, x.dados.id ≠ id) → l1 = l) := by
  refine ⟨(travessias l nos n h hn).1, ?_⟩
  obtain ⟨l1, h1, h2, h3⟩ := remover_representa l nos n id h hn
  have hlen : (apagar_primeiro nos id).length ≤ n :=
    le_trans (apagar_primeiro_sublist nos id).length_le hn
  refine ⟨l1, h1, h2, (travessias l1 _ n h2 hlen).1, h2.2.1, ?_, ?_, h3⟩
  · intro x hx hid
    subst hx
    simp only [apagar_primeiro, hid, if_true] at h2
    exact ⟨h2.1, h2.2.1⟩
  · intro x y t hx hid
    subst hx
    have e : apagar_primeiro (x :: y :: t) id = y :: t := by
      simp only [apagar_primeiro, hid, if_true]
    rw [e] at h2 ⊢
    exact ⟨h2.1, rfl⟩

/-- Witness for C18: P1 is removed from the cycle of P1 and P2; P2 is the new
first node and the only one visited. -/
theorem remover_circular_witness :
    ∃ l1, lista_participantes_remover 2 lista_dois 1 = some l1 ∧
      lista_participantes_listar 2 l1 = some [P2] ∧ l1.inicio = some 101 :=
  match (remover_circular lista_dois [P1, P2] 2 1
    ⟨rfl, rfl, by decide, rfl, rfl, trivial⟩ (by decide)).2 with
  | ⟨l1, h1, _, h3, _, _, h6, _⟩ =>
    ⟨l1, h1, h3, (h6 P1 P2 [] rfl (by decide)).1⟩

/-- From a well-formed list a run with fresh nodes and a bound that covers the
nodes and the operations returns, and ends in a well-formed list. -/
theorem executar_representa (n : Nat) : ∀ (ops : List OpParticipante)
    (l : ListaParticipantes) (nos : List NoParticipante),
    representa l nos → nos.length + ops.length ≤ n → nos_frescos n l ops = true →
    ∃ l1 nos1, executar_participantes n l ops = some l1 ∧ representa l1 nos1 ∧
      nos1.length ≤ nos.length + ops.length := by
  intro ops
  induction ops with
  | nil =>
    intro l nos h _ _
    exact ⟨l, nos, rfl, h, by simp⟩
  | cons op t ih =>
    intro l nos h hn hf
    simp only [List.length_cons] at hn
    simp only [nos_frescos, Bool.and_eq_true] at hf
    cases op with
    | adicionar a dados =>
      have hfresh : l.mem a = none := by
        have := hf.1
        cases hm : l.mem a with
        | none => rfl
        | some c => simp [hm] at this
      obtain ⟨l1, h1, h2⟩ := adicionar_representa l nos n a dados h hfresh (by omega)
      have hf2 := hf.2
      simp only [h1] at hf2
      obtain ⟨l2, nos2, r1, r2, r3⟩ := ih l1 _ h2
        (by simp only [List.length_append, List.length_cons, List.length_nil]; omega) hf2
      refine ⟨l2, nos2, ?_, r2, ?_⟩
      · simp only [executar_participantes, h1]
        exact r1
      · simp only [List.length_append, List.length_cons, List.length_nil] at r3 ⊢
        omega
    | remover id =>
      obtain ⟨l1, h1, h2, _⟩ := remover_representa l nos n id h (by omega)
      have hlen := (apagar_primeiro_sublist nos id).length_le
      have hf2 := hf.2
      simp only [passo_participantes, h1] at hf2
      obtain ⟨l2, nos2, r1, r2, r3⟩ := ih l1 _ h2 (by omega) hf2
      refine ⟨l2, nos2, ?_, r2, ?_⟩
      · simp only [executar_participantes, passo_participantes, h1]
        exact r1
      · simp only [List.length_cons]
        omega

/-- C19: every run of additions of freshly allocated nodes and of removals from
the empty list returns (with a loop bound of at least the number of
operations), and the list it ends in is a single cycle: there is a sequence of
`tamanho` nodes with distinct addresses, starting at `inicio`, each linking to
the next and the last back to the first; `inicio` is NULL exactly when
`tamanho` is 0; the listing traversal ends after visiting exactly these nodes,
each once, and the search traversal ends with the result of scanning them. -/
theorem ciclo_unico (ops : List OpParticipante) (n : Nat) (hn : ops.length ≤ n)
    (hf : nos_frescos n lista_participantes_criar ops = true) :
    ∃ l nos, executar_participantes n lista_participantes_criar ops = some l ∧
      representa l nos ∧
      (nos.map (fun m => m.endereco)).Nodup ∧
      l.tamanho = (nos.length : Int) ∧
      (l.inicio = none ↔ l.tamanho = 0) ∧
      lista_participantes_listar n l = some nos ∧
      ∀ id, lista_participantes_buscar_por_id n l id =
        some ((SGE.lista_participantes_buscar_por_id nos id).map (fun m => m.endereco)) := by
  have h0 : representa lista_participantes_criar [] :=
    ⟨rfl, rfl, List.nodup_nil, trivial⟩
  obtain ⟨l, nos, h1, h2, h3⟩ := executar_representa n ops lista_participantes_criar [] h0
    (by simpa using hn) hf
  simp only [List.length_nil, zero_add] at h3
  have ht := travessias l nos n h2 (le_trans h3 hn)
  refine ⟨l, nos, h1, h2, h2.2.2.1, h2.2.1, ?_, ht.1, ht.2⟩
  rw [h2.1, h2.2.1]
  cases nos with
  | nil => simp
  | cons x t =>
    simp only [List.head?_cons, Option.map_some', List.length_cons]
    constructor
    · intro hh
      cases hh
    · intro hh
      omega

/-- Witness for C19: P1 and P2 are added, P1 is removed and a third node is
added at the freed address. -/
theorem ciclo_unico_witness :
    ∃ l nos, executar_participantes 4 lista_participantes_criar
        [OpParticipante.adicionar 100 P1.dados, OpParticipante.adicionar 101 P2.dados,
         OpParticipante.remover 1, OpParticipante.adicionar 100 P1.dados] = some l ∧
      lista_participantes_listar 4 l = some nos ∧ l.tamanho = (nos.length : Int) :=
  match ciclo_unico
    [OpParticipante.adicionar 100 P1.dados, OpParticipante.adicionar 101 P2.dados,
     OpParticipante.remover 1, OpParticipante.adicionar 100 P1.dados] 4
    (by decide) (by decide) with
  | ⟨l, nos, h1, _, _, h4, _, h6, _⟩ => ⟨l, nos, h1, h6, h4⟩

end Circular

/-! ## Saving then loading the events (claim C20) -/

/-- C20 fails on the code.  The chain `lista_cenario_csv` is saved and loaded
back: the name of its second event holds double quotes, the scan of its row
stops at the first of them, and the event comes back with the name cut there
and with the description, category, date, capacity and places of the row
before.  The same happens to `lista_cenario_csv_vazio`, whose second event has
an empty description.  Texts with commas come back as they were. -/
theorem carregar_depois_de_salvar :
    (carregar_eventos_csv (salvar_eventos_csv lista_cenario_csv) 1).map
        (fun r => r.1.map (fun n => n.dados)) =
      some [Evento.mk 1 "E1" "Desc1" "Cat1" "2025-03-01" 2 1,
            Evento.mk 2 "Festa " "Desc1" "Cat1" "2025-03-01" 2 1] ∧
    (carregar_eventos_csv (salvar_eventos_csv lista_cenario_csv) 1).map
        (fun r => r.1.map (fun n => n.dados)) ≠
      some (lista_cenario_csv.map (fun n => n.dados)) ∧
    (carregar_eventos_csv (salvar_eventos_csv lista_cenario_csv_vazio) 1).map
        (fun r => r.1.map (fun n => n.dados)) =
      some [Evento.mk 1 "E1" "Desc1" "Cat1" "2025-03-01" 2 1,
            Evento.mk 2 "E2" "Desc1" "Cat1" "2025-03-01" 2 1] ∧
    (carregar_eventos_csv (salvar_eventos_csv lista_cenario_csv_virgula) 1).map
        (fun r => r.1.map (fun n => n.dados)) =
      some (lista_cenario_csv_virgula.map (fun n => n.dados)) := by
  decide

/-! ## The sort on a chain already in order (claim C24) -/

theorem particionar_laco_ordenado : ∀ (n : Nat) (eventos : List Evento) (alto i j : Int),
    i + 1 = j →
    (∀ k : Int, j ≤ k → k < j + (n : Int) →
      data_le (ler_indice eventos k) (ler_indice eventos alto)) →
    particionar_laco n eventos alto i j = (eventos, i + (n : Int)) := by
  intro n
  induction n with
  | zero =>
    intro eventos alto i j _ _
    simp [particionar_laco]
  | succ n ih =>
    intro eventos alto i j hij h
    have hj : strcmp (ler_indice eventos j).data (ler_indice eventos alto).data ≤ 0 :=
      h j (le_refl _) (by omega)
    simp only [particionar_laco, hj, if_true]
    rw [hij, trocar_mesmo,
      ih eventos alto j (j + 1) rfl (fun k hk1 hk2 => h k (by omega) (by omega))]
    simp only [Prod.mk.injEq, true_and]
    omega

theorem particionar_ordenado (eventos : List Evento) (baixo alto : Int) (hba : baixo ≤ alto)
    (h : ∀ k : Int, baixo ≤ k → k < alto →
      data_le (ler_indice eventos k) (ler_indice eventos alto)) :
    particionar_por_data eventos baixo alto = (eventos, alto) := by
  have hl := particionar_laco_ordenado (alto - baixo).toNat eventos alto (baixo - 1) baixo
    (by omega) (fun k hk1 hk2 => h k hk1 (by omega))
  have he : baixo - 1 + ((alto - baixo).toNat : Int) + 1 = alto := by omega
  simp only [particionar_por_data, hl, he, trocar_mesmo]

theorem quicksort_rec_ordenado : ∀ (prof : Nat) (eventos : List Evento) (baixo alto : Int),
    (∀ k l : Int, baixo ≤ k → k < l → l ≤ alto →
      data_le (ler_indice eventos k) (ler_indice eventos l)) →
    quicksort_rec prof eventos baixo alto = eventos := by
  intro prof
  induction prof with
  | zero =>
    intro eventos baixo alto _
    rfl
  | succ p ih =>
    intro eventos baixo alto h
    by_cases hlt : baixo < alto
    · have hp := particionar_ordenado eventos baixo alto (by omega)
        (fun k hk1 hk2 => h k alto hk1 hk2 (le_refl _))
      simp only [quicksort_rec, hlt, if_true, hp]
      rw [ih eventos baixo (alto - 1) (fun k l h1 h2 h3 => h k l h1 h2 (by omega))]
      exact ih eventos (alto + 1) alto (fun k l h1 h2 h3 => by omega)
    · simp only [quicksort_rec, hlt, if_false]

theorem ordenado_indices (eventos : List Evento) (h : eventos.Pairwise data_le) :
    ∀ k l : Int, 0 ≤ k → k < l → l ≤ (eventos.length : Int) - 1 →
      data_le (ler_indice eventos k) (ler_indice eventos l) := by
  intro k l hk hkl hl
  have h1 : k.toNat < eventos.length := by omega
  have h2 : l.toNat < eventos.length := by omega
  simp only [ler_indice]
  rw [List.getD_eq_getElem _ _ h1, List.getD_eq_getElem _ _ h2]
  exact List.pairwise_iff_getElem.1 h k.toNat l.toNat h1 h2 (by omega)

theorem reconstruir_mesmos : ∀ (l : List NoEvento),
    reconstruir l (l.map (fun n => n.dados)) = l := by
  intro l
  induction l with
  | nil => rfl
  | cons a t ih => simp only [List.map_cons, reconstruir, ih]

/-- On a chain whose records are already in non-decreasing date order the sort
writes every record back where it was. -/
theorem ordenar_ordenado (lista : List NoEvento)
    (h : (lista.map (fun n => n.dados)).Pairwise data_le) :
    ordenar_eventos_por_data lista (lista.length : Int) = some lista := by
  cases lista with
  | nil => rfl
  | cons a t =>
    by_cases h1 : (((a :: t).length : Nat) : Int) ≤ 1
    · simp only [ordenar_eventos_por_data, h1, if_true]
    · have htk : (a :: t).take (((a :: t).length : Nat) : Int).toNat = a :: t := by
        rw [Int.toNat_ofNat, List.take_length]
      have hq : quicksort_eventos_por_data ((a :: t).map (fun n => n.dados)) 0
          ((((a :: t).length : Nat) : Int) - 1) = (a :: t).map (fun n => n.dados) := by
        rw [quicksort_eventos_por_data]
        apply quicksort_rec_ordenado
        have := ordenado_indices _ h
        simp only [List.length_map] at this
        exact this
      simp only [ordenar_eventos_por_data, h1, if_false, lt_self_iff_false, htk, hq,
        reconstruir_mesmos]

theorem data_le_cadeia : ∀ (l : List Evento), l.Chain' data_le → l.Pairwise data_le := by
  intro l
  induction l with
  | nil =>
    intro _
    exact List.Pairwise.nil
  | cons a t ih =>
    intro h
    rw [List.chain'_cons'] at h
    have ht := ih h.2
    rw [List.pairwise_cons]
    refine ⟨?_, ht⟩
    cases t with
    | nil =>
      intro b hb
      cases hb
    | cons b u =>
      have hab : data_le a b := h.1 b rfl
      rw [List.pairwise_cons] at ht
      intro c hc
      rcases List.mem_cons.1 hc with hc | hc
      · rw [hc]
        exact hab
      · exact data_le_trans hab (ht.1 c hc)


/-- C24: for every event chain, sorting it with its count (as `main` does after
every menu round) returns a chain, and sorting that chain again with its count
returns it unchanged; and a chain whose dates are already in non-decreasing
`strcmp` order (each date `<=` the next) comes back exactly as it was, every
record in its own node, also where neighbouring dates are equal. -/
theorem ordenar_idempotente (lista : List NoEvento) :
    (∃ l1, ordenar_eventos_por_data lista (contar_eventos lista) = some l1 ∧
      ordenar_eventos_por_data l1 (contar_eventos l1) = some l1) ∧
    ((lista.map (fun n => n.dados.data)).Chain' (fun d1 d2 => strcmp d1 d2 ≤ 0) →
      ordenar_eventos_por_data lista (contar_eventos lista) = some lista) := by
  refine ⟨?_, ?_⟩
  · obtain ⟨l1, h1, _, _, h4⟩ := ordenar_spec lista
    refine ⟨l1, ?_, ?_⟩
    · rw [contar_eventos_length]
      exact h1
    · rw [contar_eventos_length]
      exact ordenar_ordenado l1 h4
  · intro h
    rw [contar_eventos_length]
    apply ordenar_ordenado
    apply data_le_cadeia
    have e : lista.map (fun n => n.dados.data) =
        (lista.map (fun n => n.dados)).map (fun e => e.data) := by
      rw [List.map_map]
      rfl
    rw [e, List.chain'_map] at h
    exact h

/-- Witness for C24: the chain E2 (2025-01-10), E1 and E3 (both 2025-03-01) is
in order, and the sort returns it with E1 still before E3. -/
theorem ordenar_idempotente_witness :
    (lista_datas_iguais.map (fun n => n.dados.data)).Chain'
        (fun d1 d2 => strcmp d1 d2 ≤ 0) ∧
      ordenar_eventos_por_data lista_datas_iguais (contar_eventos lista_datas_iguais) =
        some lista_datas_iguais :=
  ⟨List.Chain.cons (by decide) (List.Chain.cons (by decide) List.Chain.nil),
    (ordenar_idempotente lista_datas_iguais).2
      (List.Chain.cons (by decide) (List.Chain.cons (by decide) List.Chain.nil))⟩

/-! ## Byte order and calendar order of dates (claim C23) -/

theorem digito_limites (c : Char) (h : c.isDigit = true) : 48 ≤ c.toNat ∧ c.toNat ≤ 57 := by
  simp only [Char.isDigit, Bool.and_eq_true, decide_eq_true_eq] at h
  have h1 : (48 : UInt32).toNat ≤ c.val.toNat := h.1
  have h2 : c.val.toNat ≤ (57 : UInt32).toNat := h.2
  exact ⟨h1, h2⟩

theorem bytes_ascii (c : Char) (h : c.toNat ≤ 127) :
    (String.utf8EncodeChar c).map UInt8.toNat = [c.toNat] := by
  have h1 : c.val ≤ 127 := h
  simp only [String.utf8EncodeChar, h1, if_true, List.map_cons, List.map_nil]
  have e : c.val.toUInt8.toNat = c.val.toNat % 256 := rfl
  rw [e]
  have h2 : c.val.toNat ≤ 127 := h
  have h3 : c.toNat = c.val.toNat := rfl
  rw [h3, Nat.mod_eq_of_lt (by omega)]

theorem forma_data_chars (s : String) (h : forma_data s = true) :
    ∃ a b c d e f g i : Char,
      s.toList = [a, b, c, d, Char.ofNat 45, e, f, Char.ofNat 45, g, i] ∧
      a.isDigit = true ∧ b.isDigit = true ∧ c.isDigit = true ∧ d.isDigit = true ∧
      e.isDigit = true ∧ f.isDigit = true ∧ g.isDigit = true ∧ i.isDigit = true := by
  unfold forma_data at h
  split at h
  · rename_i a b c d h1 e f h2 g i heq
    simp only [Bool.and_eq_true, decide_eq_true_eq] at h
    obtain ⟨⟨⟨⟨⟨⟨⟨⟨⟨ha, hb⟩, hc⟩, hd⟩, hh1⟩, he⟩, hf⟩, hh2⟩, hg⟩, hi⟩ := h
    subst hh1 hh2
    exact ⟨a, b, c, d, e, f, g, i, heq, ha, hb, hc, hd, he, hf, hg, hi⟩
  · cases h

theorem bytes_digito (c : Char) (h : c.isDigit = true) :
    (String.utf8EncodeChar c).map UInt8.toNat = [c.toNat] :=
  bytes_ascii c (by have := digito_limites c h; omega)

theorem forma_data_bytes (s : String) (h : forma_data s = true) :
    ∃ a b c d e f g i : Nat,
      a ≤ 9 ∧ b ≤ 9 ∧ c ≤ 9 ∧ d ≤ 9 ∧ e ≤ 9 ∧ f ≤ 9 ∧ g ≤ 9 ∧ i ≤ 9 ∧
      bytes s = [48 + a, 48 + b, 48 + c, 48 + d, 45, 48 + e, 48 + f, 45, 48 + g, 48 + i] ∧
      ano s = 10 * (10 * (10 * a + b) + c) + d ∧
      mes s = 10 * e + f ∧ dia s = 10 * g + i := by
  obtain ⟨a, b, c, d, e, f, g, i, hs, ha, hb, hc, hd, he, hf, hg, hi⟩ := forma_data_chars s h
  have la := digito_limites a ha
  have lb := digito_limites b hb
  have lc := digito_limites c hc
  have ld := digito_limites d hd
  have le := digito_limites e he
  have lf := digito_limites f hf
  have lg := digito_limites g hg
  have li := digito_limites i hi
  refine ⟨valor_digito a, valor_digito b, valor_digito c, valor_digito d, valor_digito e,
    valor_digito f, valor_digito g, valor_digito i, ?_, ?_, ?_, ?_, ?_, ?_, ?_, ?_,
    ?_, ?_, ?_, ?_⟩
  · simp only [valor_digito]
    omega
  · simp only [valor_digito]
    omega
  · simp only [valor_digito]
    omega
  · simp only [valor_digito]
    omega
  · simp only [valor_digito]
    omega
  · simp only [valor_digito]
    omega
  · simp only [valor_digito]
    omega
  · simp only [valor_digito]
    omega
  · have h45 : (String.utf8EncodeChar (Char.ofNat 45)).map UInt8.toNat = [45] := by decide
    have ea : 48 + valor_digito a = a.toNat := by
      simp only [valor_digito]
      omega
    have eb : 48 + valor_digito b = b.toNat := by
      simp only [valor_digito]
      omega
    have ec : 48 + valor_digito c = c.toNat := by
      simp only [valor_digito]
      omega
    have ed : 48 + valor_digito d = d.toNat := by
      simp only [valor_digito]
      omega
    have ee : 48 + valor_digito e = e.toNat := by
      simp only [valor_digito]
      omega
    have ef : 48 + valor_digito f = f.toNat := by
      simp only [valor_digito]
      omega
    have eg : 48 + valor_digito g = g.toNat := by
      simp only [valor_digito]
      omega
    have ei : 48 + valor_digito i = i.toNat := by
      simp only [valor_digito]
      omega
    rw [ea, eb, ec, ed, ee, ef, eg, ei]
    simp only [bytes, hs, List.flatMap_cons, List.flatMap_nil, List.map_append, List.map_nil,
      bytes_digito a ha, bytes_digito b hb, bytes_digito c hc, bytes_digito d hd,
      bytes_digito e he, bytes_digito f hf, bytes_digito g hg, bytes_digito i hi, h45,
      List.singleton_append, List.append_nil]
  · simp only [ano, hs]
    omega
  · simp only [mes, hs]
  · simp only [dia, hs]

theorem strcmp_bytes_cons_le (x y : Nat) (ra rb : List Nat) :
    strcmp_bytes (x :: ra) (y :: rb) ≤ 0 ↔
      (x < y ∨ (x = y ∧ (x = 0 ∨ strcmp_bytes ra rb ≤ 0))) := by
  rw [strcmp_bytes]
  by_cases h1 : x = y
  · subst h1
    by_cases h0 : x = 0
    · simp only [if_true, h0, le_refl, lt_self_iff_false, true_or, and_self, or_true]
    · simp only [if_true, h0, if_false, lt_self_iff_false, true_and, false_or]
  · simp only [h1, if_false, false_and, or_false]
    omega

theorem strcmp_bytes_nil_le : strcmp_bytes [] [] ≤ 0 ↔ True := by
  simp [strcmp_bytes]

theorem passo_lt (T T1 x x1 : Nat) (hx : x ≤ 9) (hx1 : x1 ≤ 9) :
    10 * T + x < 10 * T1 + x1 ↔ (T < T1 ∨ (T = T1 ∧ x < x1)) := by
  omega

theorem passo_eq (T T1 x x1 : Nat) (hx : x ≤ 9) (hx1 : x1 ≤ 9) :
    10 * T + x = 10 * T1 + x1 ↔ (T = T1 ∧ x = x1) := by
  omega

theorem passo_lex (T T1 x x1 : Nat) (hx : x ≤ 9) (hx1 : x1 ≤ 9) (X : Prop) :
    (10 * T + x < 10 * T1 + x1 ∨ (10 * T + x = 10 * T1 + x1 ∧ X)) ↔
      (T < T1 ∨ (T = T1 ∧ (x < x1 ∨ (x = x1 ∧ X)))) := by
  rw [passo_lt T T1 x x1 hx hx1, passo_eq T T1 x x1 hx hx1]
  tauto

theorem passo_le (T T1 x x1 : Nat) (hx : x ≤ 9) (hx1 : x1 ≤ 9) :
    10 * T + x ≤ 10 * T1 + x1 ↔ (T < T1 ∨ (T = T1 ∧ (x < x1 ∨ x = x1))) := by
  omega

/-- C23: for two dates written in the fixed form (four digits, hyphen, two
digits, hyphen, two digits), the test of the sort `strcmp(d1, d2) <= 0` holds
exactly when (year, month, day) of `d1` is not after (year, month, day) of `d2`
in the lexicographic order of the three numbers. -/
theorem strcmp_datas (d1 d2 : String) (h1 : forma_data d1 = true)
    (h2 : forma_data d2 = true) :
    strcmp d1 d2 ≤ 0 ↔
      (ano d1 < ano d2 ∨ (ano d1 = ano d2 ∧
        (mes d1 < mes d2 ∨ (mes d1 = mes d2 ∧ dia d1 ≤ dia d2)))) := by
  obtain ⟨a, b, c, d, e, f, g, i, ha, hb, hc, hd, he, hf, hg, hi, hby, hano, hmes, hdia⟩ :=
    forma_data_bytes d1 h1
  obtain ⟨a1, b1, c1, dd1, e1, f1, g1, i1, ha1, hb1, hc1, hd1, he1, hf1, hg1, hi1, hby1,
    hano1, hmes1, hdia1⟩ := forma_data_bytes d2 h2
  have hs : strcmp d1 d2 ≤ 0 ↔
      (a < a1 ∨ (a = a1 ∧ (b < b1 ∨ (b = b1 ∧ (c < c1 ∨ (c = c1 ∧ (d < dd1 ∨ (d = dd1 ∧
        (e < e1 ∨ (e = e1 ∧ (f < f1 ∨ (f = f1 ∧
          (g < g1 ∨ (g = g1 ∧ (i < i1 ∨ i = i1))))))))))))))) := by
    unfold strcmp
    rw [hby, hby1]
    simp only [strcmp_bytes_cons_le, strcmp_bytes_nil_le, and_true]
    have z : ∀ n : Nat, ¬ 48 + n = 0 := fun n => by omega
    have l : ∀ n m : Nat, 48 + n < 48 + m ↔ n < m := fun n m => by omega
    have q : ∀ n m : Nat, 48 + n = 48 + m ↔ n = m := fun n m => by omega
    have k : ¬ (45 : Nat) = 0 := by omega
    simp only [z, l, q, k, false_or, lt_self_iff_false, true_and, and_true]
  rw [hs, hano, hano1, hmes, hmes1, hdia, hdia1,
    passo_lex (10 * (10 * a + b) + c) (10 * (10 * a1 + b1) + c1) d dd1 hd hd1,
    passo_lex (10 * a + b) (10 * a1 + b1) c c1 hc hc1,
    passo_lex a a1 b b1 hb hb1,
    passo_lex e e1 f f1 hf hf1,
    passo_le g g1 i i1 hi hi1]

/-- Witness for C23: 2024-12-31 and 2025-01-10 are in the fixed form, and the
comparison agrees with the calendar on them. -/
theorem strcmp_datas_witness :
    forma_data "2024-12-31" = true ∧ forma_data "2025-01-10" = true ∧
      (strcmp "2024-12-31" "2025-01-10" ≤ 0 ↔
        (ano "2024-12-31" < ano "2025-01-10" ∨ (ano "2024-12-31" = ano "2025-01-10" ∧
          (mes "2024-12-31" < mes "2025-01-10" ∨ (mes "2024-12-31" = mes "2025-01-10" ∧
            dia "2024-12-31" ≤ dia "2025-01-10"))))) :=
  ⟨by decide, by decide, strcmp_datas "2024-12-31" "2025-01-10" (by decide) (by decide)⟩

/-! ## The id counters after a load (claim C22) -/

/-- Every variable of `carregar_eventos_csv` has been written. -/
theorem evento_das_vars_isSome (v : VarsEvento) :
    (evento_das_vars v).isSome = true ↔
      (v.id.isSome = true ∧ v.nome.isSome = true ∧ v.descricao.isSome = true ∧
        v.categoria.isSome = true ∧ v.data.isSome = true ∧ v.capacidade.isSome = true ∧
        v.vagas.isSome = true) := by
  cases v with
  | mk a b c d e f g =>
    cases a <;> cases b <;> cases c <;> cases d <;> cases e <;> cases f <;> cases g <;>
      simp [evento_das_vars]

theorem guardar_int_completas (v : VarsEvento) (c : Campo) (i : Int)
    (h : (evento_das_vars v).isSome = true) :
    (evento_das_vars (v.guardar_int c i)).isSome = true := by
  rw [evento_das_vars_isSome] at h ⊢
  obtain ⟨h1, h2, h3, h4, h5, h6, h7⟩ := h
  cases c <;> simp [VarsEvento.guardar_int, h1, h2, h3, h4, h5, h6, h7]

theorem guardar_texto_completas (v : VarsEvento) (c : Campo) (s : String)
    (h : (evento_das_vars v).isSome = true) :
    (evento_das_vars (v.guardar_texto c s)).isSome = true := by
  rw [evento_das_vars_isSome] at h ⊢
  obtain ⟨h1, h2, h3, h4, h5, h6, h7⟩ := h
  cases c <;> simp [VarsEvento.guardar_texto, h1, h2, h3, h4, h5, h6, h7]

/-- Once every variable has been written, it stays so after each scan. -/
theorem sscanf_completas : ∀ (ds : List Diretiva) (entrada : List Char) (v : VarsEvento),
    (evento_das_vars v).isSome = true → (evento_das_vars (sscanf ds entrada v)).isSome = true := by
  intro ds
  induction ds with
  | nil =>
    intro entrada v h
    exact h
  | cons d ds ih =>
    intro entrada v h
    cases d with
    | inteiro destino =>
      simp only [sscanf]
      cases hl : ler_inteiro entrada with
      | none => exact h
      | some r => exact ih _ _ (guardar_int_completas v destino r.1 h)
    | literal c =>
      cases entrada with
      | nil => exact h
      | cons x resto =>
        simp only [sscanf]
        split_ifs
        · exact ih _ _ h
        · exact h
    | conjunto largura excluido destino =>
      simp only [sscanf]
      rcases hl : ler_conjunto largura excluido entrada with ⟨lido, resto⟩
      cases lido with
      | nil => exact h
      | cons x lido => exact ih _ _ (guardar_texto_completas v destino _ h)

/-- The loop of `carregar_eventos_csv`, when the first line it reads fills every
variable: it returns, one node is linked per line, and the counter ends above
every id loaded, at its old value or at some loaded id plus 1. -/
theorem carregar_eventos_laco_spec : ∀ (linhas : List (List Char)) (v : VarsEvento)
    (lista : List NoEvento) (prox : Int),
    (∀ l1 resto, linhas = l1 :: resto →
      (evento_das_vars (sscanf formato_eventos l1 v)).isSome = true) →
    ∃ novos prox1, carregar_eventos_laco linhas v lista prox = some (lista ++ novos, prox1) ∧
      novos.length = linhas.length ∧ prox ≤ prox1 ∧
      (∀ x ∈ novos, x.dados.id < prox1) ∧
      (prox1 = prox ∨ ∃ x ∈ novos, prox1 = x.dados.id + 1) := by
  intro linhas
  induction linhas with
  | nil =>
    intro v lista prox _
    refine ⟨[], prox, ?_, rfl, le_refl _, ?_, Or.inl rfl⟩
    · simp [carregar_eventos_laco]
    · intro x hx
      cases hx
  | cons l1 resto ih =>
    intro v lista prox h
    have h1 := h l1 resto rfl
    obtain ⟨e, he⟩ := Option.isSome_iff_exists.1 h1
    have hv1 : ∀ l2 r2, resto = l2 :: r2 →
        (evento_das_vars (sscanf formato_eventos l2 (sscanf formato_eventos l1 v))).isSome =
          true := fun l2 r2 _ => sscanf_completas _ _ _ h1
    obtain ⟨novos, prox1, hr, hlen, hle, hlt, hor⟩ :=
      ih (sscanf formato_eventos l1 v) (eventos_adicionar lista (NoEvento.mk lista.length e))
        (if e.id ≥ prox then e.id + 1 else prox) hv1
    refine ⟨NoEvento.mk lista.length e :: novos, prox1, ?_, ?_, ?_, ?_, ?_⟩
    · simp only [carregar_eventos_laco, he]
      rw [hr, eventos_adicionar_append]
      simp
    · simp [hlen]
    · split_ifs at hle <;> omega
    · intro x hx
      rcases List.mem_cons.1 hx with hx | hx
      · subst hx
        show e.id < prox1
        split_ifs at hle <;> omega
      · exact hlt x hx
    · rcases hor with hor | ⟨x, hx, hx1⟩
      · by_cases hc : e.id ≥ prox
        · right
          refine ⟨NoEvento.mk lista.length e, List.mem_cons_self _ _, ?_⟩
          rw [hor, if_pos hc]
        · left
          rw [hor, if_neg hc]
      · exact Or.inr ⟨x, List.mem_cons_of_mem _ hx, hx1⟩

theorem participante_das_vars_isSome (v : VarsParticipante) :
    (participante_das_vars v).isSome = true ↔
      (v.id.isSome = true ∧ v.nome.isSome = true ∧ v.email.isSome = true ∧
        v.telefone.isSome = true) := by
  cases v with
  | mk a b c d =>
    cases a <;> cases b <;> cases c <;> cases d <;> simp [participante_das_vars]

theorem atribuir_int_isSome (antes : Option Int) (x : Option Valor)
    (h : antes.isSome = true) : (atribuir_int antes x).isSome = true := by
  cases x with
  | none => exact h
  | some val =>
    cases val with
    | inteiro i => rfl
    | texto s => exact h

theorem atribuir_texto_isSome (antes : Option String) (x : Option Valor)
    (h : antes.isSome = true) : (atribuir_texto antes x).isSome = true := by
  cases x with
  | none => exact h
  | some val =>
    cases val with
    | inteiro i => exact h
    | texto s => rfl

/-- Once every variable of `carregar_participantes_csv` has been written, it
stays so after each scan. -/
theorem ler_participante_completas (v : VarsParticipante) (linha : List Char)
    (h : (participante_das_vars v).isSome = true) :
    (participante_das_vars (v.ler linha)).isSome = true := by
  rw [participante_das_vars_isSome] at h ⊢
  obtain ⟨h1, h2, h3, h4⟩ := h
  exact ⟨atribuir_int_isSome _ _ h1, atribuir_texto_isSome _ _ h2,
    atribuir_texto_isSome _ _ h3, atribuir_texto_isSome _ _ h4⟩

/-- Linking a new node touches no address at which nothing is allocated, other
than the address of the new node. -/
theorem adicionar_fora (n : Nat) (l : Circular.ListaParticipantes) (a : Nat)
    (p : Participante) (l1 : Circular.ListaParticipantes)
    (h : Circular.lista_participantes_adicionar n
      { l with mem := Circular.participante_criar l.mem a p } a = some l1) :
    ∀ b, b ≠ a → l.mem b = none → l1.mem b = none := by
  intro b hba hb
  unfold Circular.lista_participantes_adicionar at h
  simp only [Circular.participante_criar] at h
  split at h
  · split at h
    · cases h
    · cases h
      simp [Function.update, hba, hb]
  · split at h
    · cases h
    · split at h
      · cases h
      · split at h
        · cases h
        · cases h
          rename_i x3 i hi x2 u hu x1 c hc x0 cu hcu
          show Function.update (Function.update (Function.update l.mem a _) a _) u _ b = none
          by_cases hbu : b = u
          · subst hbu
            rw [Function.update_noteq hba, Function.update_noteq hba, hb] at hcu
            cases hcu
          · rw [Function.update_noteq hbu, Function.update_noteq hba,
              Function.update_noteq hba, hb]

/-- The loop of `carregar_participantes_csv` on a well-formed cycle, with fresh
addresses from `livre` on and a bound that covers the nodes, when the first
line it reads fills every variable: it returns, one node is linked per line at
the end of the cycle, and the counter ends above every id loaded, at its old
value or at some loaded id plus 1. -/
theorem carregar_participantes_laco_spec (n : Nat) : ∀ (linhas : List (List Char))
    (v : VarsParticipante) (lista : Circular.ListaParticipantes)
    (nos : List NoParticipante) (livre : Nat) (prox : Int),
    Circular.representa lista nos → (∀ a, livre ≤ a → lista.mem a = none) →
    nos.length + linhas.length ≤ n →
    (∀ l1 resto, linhas = l1 :: resto →
      (participante_das_vars (v.ler l1)).isSome = true) →
    ∃ lista1 novos prox1,
      carregar_participantes_laco n linhas v lista livre prox = some (lista1, prox1) ∧
      Circular.representa lista1 (nos ++ novos) ∧ novos.length = linhas.length ∧
      prox ≤ prox1 ∧ (∀ x ∈ novos, x.dados.id < prox1) ∧
      (prox1 = prox ∨ ∃ x ∈ novos, prox1 = x.dados.id + 1) := by
  intro linhas
  induction linhas with
  | nil =>
    intro v lista nos livre prox hr _ _ _
    refine ⟨lista, [], prox, rfl, ?_, rfl, le_refl _, ?_, Or.inl rfl⟩
    · rw [List.append_nil]
      exact hr
    · intro x hx
      cases hx
  | cons l1 resto ih =>
    intro v lista nos livre prox hr hfresh hn h
    have h1 := h l1 resto rfl
    obtain ⟨p, hp⟩ := Option.isSome_iff_exists.1 h1
    simp only [List.length_cons] at hn
    obtain ⟨lista1, ha, hr1⟩ := Circular.adicionar_representa lista nos n livre p hr
      (hfresh livre (le_refl _)) (by omega)
    simp only [Circular.passo_participantes] at ha
    have hfresh1 : ∀ a, livre + 1 ≤ a → lista1.mem a = none := fun a hla =>
      adicionar_fora n lista livre p lista1 ha a (by omega) (hfresh a (by omega))
    obtain ⟨lista2, novos, prox1, hc, hr2, hlen, hle, hlt, hor⟩ :=
      ih (v.ler l1) lista1 (nos ++ [NoParticipante.mk livre p]) (livre + 1)
        (if p.id ≥ prox then p.id + 1 else prox) hr1 hfresh1
        (by simp only [List.length_append, List.length_cons, List.length_nil]; omega)
        (fun l2 r2 _ => ler_participante_completas _ _ h1)
    refine ⟨lista2, NoParticipante.mk livre p :: novos, prox1, ?_, ?_, ?_, ?_, ?_, ?_⟩
    · simp only [carregar_participantes_laco, hp, ha]
      exact hc
    · have e : nos ++ NoParticipante.mk livre p :: novos =
          nos ++ [NoParticipante.mk livre p] ++ novos := by simp
      rw [e]
      exact hr2
    · simp [hlen]
    · split_ifs at hle <;> omega
    · intro x hx
      rcases List.mem_cons.1 hx with hx | hx
      · subst hx
        show p.id < prox1
        split_ifs at hle <;> omega
      · exact hlt x hx
    · rcases hor with hor | ⟨x, hx, hx1⟩
      · by_cases hcnd : p.id ≥ prox
        · right
          refine ⟨NoParticipante.mk livre p, List.mem_cons_self _ _, ?_⟩
          rw [hor, if_pos hcnd]
        · left
          rw [hor, if_neg hcnd]
      · exact Or.inr ⟨x, List.mem_cons_of_mem _ hx, hx1⟩

theorem representa_criar : Circular.representa Circular.lista_participantes_criar [] :=
  ⟨rfl, rfl, List.nodup_nil, trivial⟩

/-- A counter that is above every id, and is 1 or some id plus 1, is the largest
id plus 1 as soon as one id is not negative, and 1 when all are negative. -/
theorem contador_maximo (ids : List Int) (prox : Int) (h0 : 1 ≤ prox)
    (h1 : ∀ x ∈ ids, x < prox) (h2 : prox = 1 ∨ ∃ x ∈ ids, prox = x + 1) :
    ((∃ x ∈ ids, 0 ≤ x) → ∃ x ∈ ids, prox = x + 1 ∧ ∀ y ∈ ids, y ≤ x) ∧
    ((∀ x ∈ ids, x < 0) → prox = 1) := by
  refine ⟨?_, ?_⟩
  · rintro ⟨z, hz, hz0⟩
    rcases h2 with h2 | ⟨x, hx, hx1⟩
    · refine ⟨z, hz, ?_, ?_⟩
      · have := h1 z hz
        omega
      · intro y hy
        have := h1 y hy
        omega
    · refine ⟨x, hx, hx1, ?_⟩
      intro y hy
      have := h1 y hy
      omega
  · intro hneg
    rcases h2 with h2 | ⟨x, hx, hx1⟩
    · exact h2
    · have := hneg x hx
      omega

/-- C22 as stated fails: an events file whose only row has id -1 is loaded with
the counter at 1; the id loaded is -1 and the counter stays 1, which is not
-1 + 1.  The same happens with a participants file. -/
theorem contador_contraexemplo :
    (carregar_eventos_csv texto_evento_negativo 1).map
        (fun r => (r.1.map (fun n => n.dados.id), r.2)) = some ([-1], 1) ∧
    ((carregar_participantes_csv 1 Circular.lista_participantes_criar
        texto_participante_negativo 0 1).bind
      (fun r => (Circular.lista_participantes_listar 1 r.1).map
        (fun nos => (nos.map (fun n => n.dados.id), r.2)))) = some ([-1], 1) := by
  decide

/-- C22 amended: a load that starts with the counter at 1, as in `main`, and
whose first row fills every variable of the scan returns with one node per row.
When every loaded id fits an `int` and is below `INT_MAX` = 2147483647 (so that
`id + 1` does not overflow), the counter ends above every loaded id; it is the
largest loaded id plus 1 as soon as one loaded id is not negative (every id
the program assigns is at least 1), and it is 1 when every loaded id is
negative.  This holds for `carregar_eventos_csv`, and for
`carregar_participantes_csv` on the empty list with a loop bound of at least
the number of rows, where the loaded nodes form the cycle. -/
theorem contador_depois_de_carregar :
    (∀ (texto cab l1 : List Char) (resto : List (List Char)),
      fgets_linhas 1024 texto [] 1023 = cab :: l1 :: resto →
      (evento_das_vars (sscanf formato_eventos l1
        (VarsEvento.mk none none none none none none none))).isSome = true →
      ∃ lista prox, carregar_eventos_csv texto 1 = some (lista, prox) ∧
        lista.length = resto.length + 1 ∧
        ((∀ x ∈ lista, cabe_int x.dados.id ∧ x.dados.id < 2147483647) →
          cabe_int prox ∧ (∀ x ∈ lista, x.dados.id < prox) ∧
          ((∃ x ∈ lista, 0 ≤ x.dados.id) →
            ∃ x ∈ lista, prox = x.dados.id + 1 ∧ ∀ y ∈ lista, y.dados.id ≤ x.dados.id) ∧
          ((∀ x ∈ lista, x.dados.id < 0) → prox = 1))) ∧
    (∀ (n livre : Nat) (texto cab l1 : List Char) (resto : List (List Char)),
      fgets_linhas 512 texto [] 511 = cab :: l1 :: resto →
      (participante_das_vars
        ((VarsParticipante.mk none none none none).ler l1)).isSome = true →
      resto.length + 1 ≤ n →
      ∃ lista prox nos,
        carregar_participantes_csv n Circular.lista_participantes_criar texto livre 1 =
          some (lista, prox) ∧
        Circular.representa lista nos ∧ nos.length = resto.length + 1 ∧
        ((∀ x ∈ nos, cabe_int x.dados.id ∧ x.dados.id < 2147483647) →
          cabe_int prox ∧ (∀ x ∈ nos, x.dados.id < prox) ∧
          ((∃ x ∈ nos, 0 ≤ x.dados.id) →
            ∃ x ∈ nos, prox = x.dados.id + 1 ∧ ∀ y ∈ nos, y.dados.id ≤ x.dados.id) ∧
          ((∀ x ∈ nos, x.dados.id < 0) → prox = 1))) := by
  refine ⟨?_, ?_⟩
  · intro texto cab l1 resto hl h1
    obtain ⟨novos, prox, hr, hlen, hle, hlt, hor⟩ := carregar_eventos_laco_spec (l1 :: resto)
      (VarsEvento.mk none none none none none none none) [] 1
      (fun l r e => by
        cases e
        exact h1)
    rw [List.nil_append] at hr
    have hm := contador_maximo (novos.map (fun n => n.dados.id)) prox hle
      (by
        intro x hx
        obtain ⟨m, hm, rfl⟩ := List.mem_map.1 hx
        exact hlt m hm)
      (by
        rcases hor with hor | ⟨m, hm, hm1⟩
        · exact Or.inl hor
        · exact Or.inr ⟨m.dados.id, List.mem_map_of_mem _ hm, hm1⟩)
    refine ⟨novos, prox, ?_, ?_, fun hfit => ⟨?_, hlt, ?_, ?_⟩⟩
    · simp only [carregar_eventos_csv, hl]
      exact hr
    · simpa using hlen
    · rcases hor with hor | ⟨m, hm1, hm2⟩
      · rw [hor]
        decide
      · have := hfit m hm1
        unfold cabe_int at this ⊢
        omega
    · rintro ⟨z, hz, hz0⟩
      obtain ⟨x, hx, hx1, hx2⟩ := hm.1 ⟨z.dados.id, List.mem_map_of_mem _ hz, hz0⟩
      obtain ⟨m, hm1, rfl⟩ := List.mem_map.1 hx
      exact ⟨m, hm1, hx1, fun y hy => hx2 _ (List.mem_map_of_mem _ hy)⟩
    · intro hneg
      apply hm.2
      intro x hx
      obtain ⟨m, hm1, rfl⟩ := List.mem_map.1 hx
      exact hneg m hm1
  · intro n livre texto cab l1 resto hl h1 hn
    obtain ⟨lista, novos, prox, hr, hrep, hlen, hle, hlt, hor⟩ :=
      carregar_participantes_laco_spec n (l1 :: resto) (VarsParticipante.mk none none none none)
        Circular.lista_participantes_criar [] livre 1 representa_criar (fun _ _ => rfl)
        (by simp only [List.length_nil, List.length_cons]; omega)
        (fun l r e => by
          cases e
          exact h1)
    rw [List.nil_append] at hrep
    have hm := contador_maximo (novos.map (fun n => n.dados.id)) prox hle
      (by
        intro x hx
        obtain ⟨m, hm, rfl⟩ := List.mem_map.1 hx
        exact hlt m hm)
      (by
        rcases hor with hor | ⟨m, hm, hm1⟩
        · exact Or.inl hor
        · exact Or.inr ⟨m.dados.id, List.mem_map_of_mem _ hm, hm1⟩)
    refine ⟨lista, prox, novos, ?_, hrep, ?_, fun hfit => ⟨?_, hlt, ?_, ?_⟩⟩
    · simp only [carregar_participantes_csv, hl]
      exact hr
    · simpa using hlen
    · rcases hor with hor | ⟨m, hm1, hm2⟩
      · rw [hor]
        decide
      · have := hfit m hm1
        unfold cabe_int at this ⊢
        omega
    · rintro ⟨z, hz, hz0⟩
      obtain ⟨x, hx, hx1, hx2⟩ := hm.1 ⟨z.dados.id, List.mem_map_of_mem _ hz, hz0⟩
      obtain ⟨m, hm1, rfl⟩ := List.mem_map.1 hx
      exact ⟨m, hm1, hx1, fun y hy => hx2 _ (List.mem_map_of_mem _ hy)⟩
    · intro hneg
      apply hm.2
      intro x hx
      obtain ⟨m, hm1, rfl⟩ := List.mem_map.1 hx
      exact hneg m hm1

/-- Witness for C22 amended: the file saved from the chain with ids 1 and 2 is
loaded with these ids, which fit, and the counter ends at 3; it has two rows
after the header, and so has the file with the rows of P1 and P2; both loads
fall under the theorem, the participants with bound 2 and first free address
0. -/
theorem contador_depois_de_carregar_witness :
    (carregar_eventos_csv (salvar_eventos_csv lista_cenario_csv_virgula) 1).map
        (fun r => (r.1.map (fun n => n.dados.id), r.2)) = some ([1, 2], 3) ∧
    (fgets_linhas 1024 (salvar_eventos_csv lista_cenario_csv_virgula) [] 1023 =
        cabecalho_eventos :: linha_evento (Evento.mk 1 "E1" "Desc1" "Cat1" "2025-03-01" 2 1) ::
          [linha_evento (Evento.mk 2 "A, B" "x,y,z" "c," "2025-01-10" 5 5)] ∧
      ∃ lista prox,
        carregar_eventos_csv (salvar_eventos_csv lista_cenario_csv_virgula) 1 =
          some (lista, prox) ∧
        lista.length = [linha_evento (Evento.mk 2 "A, B" "x,y,z" "c," "2025-01-10" 5 5)].length
          + 1 ∧
        ((∀ x ∈ lista, cabe_int x.dados.id ∧ x.dados.id < 2147483647) →
          cabe_int prox ∧ (∀ x ∈ lista, x.dados.id < prox) ∧
          ((∃ x ∈ lista, 0 ≤ x.dados.id) →
            ∃ x ∈ lista, prox = x.dados.id + 1 ∧ ∀ y ∈ lista, y.dados.id ≤ x.dados.id) ∧
          ((∀ x ∈ lista, x.dados.id < 0) → prox = 1))) ∧
    (fgets_linhas 512 texto_participantes_cenario [] 511 =
        cabecalho_participantes :: linha_participante P1.dados ::
          [linha_participante P2.dados] ∧
      ∃ lista prox nos,
        carregar_participantes_csv 2 Circular.lista_participantes_criar
          texto_participantes_cenario 0 1 = some (lista, prox) ∧
        Circular.representa lista nos ∧
        nos.length = [linha_participante P2.dados].length + 1 ∧
        ((∀ x ∈ nos, cabe_int x.dados.id ∧ x.dados.id < 2147483647) →
          cabe_int prox ∧ (∀ x ∈ nos, x.dados.id < prox) ∧
          ((∃ x ∈ nos, 0 ≤ x.dados.id) →
            ∃ x ∈ nos, prox = x.dados.id + 1 ∧ ∀ y ∈ nos, y.dados.id ≤ x.dados.id) ∧
          ((∀ x ∈ nos, x.dados.id < 0) → prox = 1))) :=
  ⟨by decide, ⟨by decide,
    contador_depois_de_carregar.1 (salvar_eventos_csv lista_cenario_csv_virgula)
      cabecalho_eventos (linha_evento (Evento.mk 1 "E1" "Desc1" "Cat1" "2025-03-01" 2 1))
      [linha_evento (Evento.mk 2 "A, B" "x,y,z" "c," "2025-01-10" 5 5)]
      (by decide) (by decide)⟩,
   ⟨by decide,
    contador_depois_de_carregar.2 2 0 texto_participantes_cenario
      cabecalho_participantes (linha_participante P1.dados) [linha_participante P2.dados]
      (by decide) (by decide) (by decide)⟩⟩

/-! ## Loading the registrations (claim C21) -/

theorem buscar_participante_none {l : List NoParticipante} {id : Int} :
    lista_participantes_buscar_por_id l id = none ↔ ∀ m ∈ l, m.dados.id ≠ id := by
  induction l with
  | nil => simp [lista_participantes_buscar_por_id]
  | cons a t ih =>
    simp only [lista_participantes_buscar_por_id, List.mem_cons, forall_eq_or_imp]
    by_cases ha : a.dados.id = id
    · simp [ha]
    · simp [ha, ih]

theorem status_de_int_codigo (s : StatusInscricao) : status_de_int s.codigo = some s := by
  cases s <;> rfl

/-- The variables after the scan of a well-formed row hold the values of the
row, whatever they held before. -/
theorem ler_bem_formada (v : VarsInscricao) (linha : List Char) (r : LinhaInscricao)
    (h : linha_bem_formada linha r) :
    v.ler linha = VarsInscricao.mk (some r.idParticipante) (some r.idEvento)
      (some r.dataInscricao) (some r.status.codigo) := by
  unfold linha_bem_formada at h
  simp only [VarsInscricao.ler, h, List.get?, atribuir_int, atribuir_texto]

/-- The loop of `carregar_inscricoes_csv` on well-formed rows: it returns, the
records added stand one for one, in order, for the rows whose two ids are
present, and `tamanho` grows by their number. -/
theorem carregar_inscricoes_laco_spec (lista_eventos : List NoEvento)
    (lista_participantes : List NoParticipante) :
    ∀ (linhas : List (List Char)) (rs : List LinhaInscricao) (v : VarsInscricao)
      (lista : ListaInscricoes),
      List.Forall₂ linha_bem_formada linhas rs →
      ∃ novos,
        carregar_inscricoes_laco lista_eventos lista_participantes linhas v lista =
          some { inicio := lista.inicio ++ novos,
                 tamanho := lista.tamanho +
                   ((linhas_mantidas lista_eventos lista_participantes rs).length : Int) } ∧
        List.Forall₂ (registro_da_linha lista_eventos lista_participantes) novos
          (linhas_mantidas lista_eventos lista_participantes rs) := by
  intro linhas
  induction linhas with
  | nil =>
    intro rs v lista h
    cases h
    refine ⟨[], ?_, List.Forall₂.nil⟩
    simp [carregar_inscricoes_laco, linhas_mantidas]
  | cons linha resto ih =>
    intro rs v lista h
    cases h with
    | cons hr hresto =>
      rename_i r rs1
      have hv := ler_bem_formada v linha r hr
      cases hp : lista_participantes_buscar_por_id lista_participantes r.idParticipante with
      | none =>
        have hnp : ¬ ids_presentes lista_eventos lista_participantes r := by
          rintro ⟨⟨p, hp1, hp2⟩, _⟩
          exact buscar_participante_none.1 hp p hp1 hp2
        obtain ⟨novos, h1, h2⟩ := ih rs1 _ lista hresto
        refine ⟨novos, ?_, ?_⟩
        · simp only [carregar_inscricoes_laco, hv, hp]
          rw [h1]
          simp [linhas_mantidas, hnp]
        · simpa [linhas_mantidas, hnp] using h2
      | some p =>
        cases he : eventos_buscar_por_id lista_eventos r.idEvento with
        | none =>
          have hnp : ¬ ids_presentes lista_eventos lista_participantes r := by
            rintro ⟨_, ⟨e, he1, he2⟩⟩
            exact buscar_evento_none.1 he e he1 he2
          obtain ⟨novos, h1, h2⟩ := ih rs1 _ lista hresto
          refine ⟨novos, ?_, ?_⟩
          · simp only [carregar_inscricoes_laco, hv, hp, he]
            rw [h1]
            simp [linhas_mantidas, hnp]
          · simpa [linhas_mantidas, hnp] using h2
        | some e =>
          have hpm := buscar_participante_mem hp
          have hem := buscar_evento_mem he
          have hsim : ids_presentes lista_eventos lista_participantes r :=
            ⟨⟨p, hpm.1, hpm.2⟩, ⟨e, hem.1, hem.2⟩⟩
          obtain ⟨novos, h1, h2⟩ := ih rs1
            (VarsInscricao.mk (some r.idParticipante) (some r.idEvento)
              (some r.dataInscricao) (some r.status.codigo))
            (lista_inscricoes_adicionar lista
              (inscricao_criar p.endereco e.endereco r.dataInscricao r.status)) hresto
          refine ⟨inscricao_criar p.endereco e.endereco r.dataInscricao r.status :: novos,
            ?_, ?_⟩
          · simp only [carregar_inscricoes_laco, hv, hp, he, Option.some_bind,
              status_de_int_codigo]
            rw [h1]
            simp [linhas_mantidas, hsim, lista_inscricoes_adicionar]
            omega
          · simp only [linhas_mantidas, List.filter_cons, hsim, decide_True, if_true]
            refine List.Forall₂.cons ?_ h2
            simp [registro_da_linha, hp, he, inscricao_criar]

theorem linhas_bem_formadas_forall : ∀ (linhas : List (List Char)) (rs : List LinhaInscricao),
    linhas_bem_formadas linhas rs = true → List.Forall₂ linha_bem_formada linhas rs := by
  intro linhas
  induction linhas with
  | nil =>
    intro rs h
    cases rs with
    | nil => exact List.Forall₂.nil
    | cons r rs => simp [linhas_bem_formadas] at h
  | cons l ls ih =>
    intro rs h
    cases rs with
    | nil => simp [linhas_bem_formadas] at h
    | cons r rs =>
      simp only [linhas_bem_formadas, Bool.and_eq_true, decide_eq_true_eq] at h
      exact List.Forall₂.cons h.1 (ih rs h.2)

/-- C21: when the lines after the header are well-formed rows holding the values
`rs`, `carregar_inscricoes_csv` returns; the records it adds to the log stand,
one for one and in file order, for exactly the rows whose participant id is
present in the participant store and whose event id is present in the event
store (each record points to the first participant and the first event with
these ids and has the date and status of its row); no other row adds a record,
and `tamanho` grows by the number of rows kept, so it is that number on the
empty log. -/
theorem carregar_inscricoes_mantem (lista_eventos : List NoEvento)
    (lista_participantes : List NoParticipante) (texto : List Char)
    (rs : List LinhaInscricao) (lista : ListaInscricoes)
    (h : linhas_bem_formadas (fgets_linhas 256 texto [] 255).tail rs = true) :
    ∃ novos,
      carregar_inscricoes_csv lista lista_eventos lista_participantes texto =
        some { inicio := lista.inicio ++ novos,
               tamanho := lista.tamanho +
                 ((rs.filter (fun r =>
                   decide (ids_presentes lista_eventos lista_participantes r))).length : Int) } ∧
      List.Forall₂ (registro_da_linha lista_eventos lista_participantes) novos
        (rs.filter (fun r => decide (ids_presentes lista_eventos lista_participantes r))) ∧
      (lista = lista_inscricoes_criar →
        carregar_inscricoes_csv lista lista_eventos lista_participantes texto =
          some { inicio := novos, tamanho := (novos.length : Int) }) := by
  have hf := linhas_bem_formadas_forall _ _ h
  cases hl : fgets_linhas 256 texto [] 255 with
  | nil =>
    rw [hl] at hf
    cases hf
    refine ⟨[], ?_, List.Forall₂.nil, ?_⟩
    · simp [carregar_inscricoes_csv, hl]
    · intro hv
      subst hv
      simp [carregar_inscricoes_csv, hl, lista_inscricoes_criar]
  | cons cab linhas =>
    rw [hl] at hf
    obtain ⟨novos, h1, h2⟩ := carregar_inscricoes_laco_spec lista_eventos lista_participantes
      linhas rs (VarsInscricao.mk none none none none) lista hf
    refine ⟨novos, ?_, h2, ?_⟩
    · simp only [carregar_inscricoes_csv, hl]
      exact h1
    · intro hv
      subst hv
      simp only [carregar_inscricoes_csv, hl]
      rw [h1]
      have hlen := h2.length_eq
      simp only [linhas_mantidas] at hlen
      simp [lista_inscricoes_criar, linhas_mantidas, hlen]

/-- Witness for C21: the four rows of the scenario are loaded against the events
1 and 2 and the participants P1 and P2; the rows naming participant 9 and event
7 are dropped and the log holds the first and the last row. -/
theorem carregar_inscricoes_mantem_witness :
    linhas_bem_formadas (fgets_linhas 256 texto_cenario_inscricoes [] 255).tail
        linhas_cenario_inscricoes = true ∧
      linhas_cenario_inscricoes.filter
          (fun r => decide (ids_presentes lista_cenario_csv_virgula [P1, P2] r)) =
        [LinhaInscricao.mk 1 1 "2025-01-05" StatusInscricao.CONFIRMADA,
         LinhaInscricao.mk 2 2 "2025-01-08" StatusInscricao.CANCELADA] ∧
      ∃ novos,
        carregar_inscricoes_csv lista_inscricoes_criar lista_cenario_csv_virgula [P1, P2]
            texto_cenario_inscricoes =
          some { inicio := lista_inscricoes_criar.inicio ++ novos,
                 tamanho := lista_inscricoes_criar.tamanho +
                   ((linhas_cenario_inscricoes.filter (fun r =>
                     decide (ids_presentes lista_cenario_csv_virgula [P1, P2] r))).length :
                       Int) } ∧
        List.Forall₂ (registro_da_linha lista_cenario_csv_virgula [P1, P2]) novos
          (linhas_cenario_inscricoes.filter
            (fun r => decide (ids_presentes lista_cenario_csv_virgula [P1, P2] r))) ∧
        (lista_inscricoes_criar = lista_inscricoes_criar →
          carregar_inscricoes_csv lista_inscricoes_criar lista_cenario_csv_virgula [P1, P2]
              texto_cenario_inscricoes =
            some { inicio := novos, tamanho := (novos.length : Int) }) :=
  ⟨by decide, by decide,
    carregar_inscricoes_mantem lista_cenario_csv_virgula [P1, P2] texto_cenario_inscricoes
      linhas_cenario_inscricoes lista_inscricoes_criar (by decide)⟩

/-! ## Rows printed by the save functions are read back by the scans -/

theorem toDigitsCore_acumulado : ∀ (n f1 f2 : Nat) (ds : List Char), n < f1 → n < f2 →
    Nat.toDigitsCore 10 f1 n ds = Nat.toDigitsCore 10 f2 n [] ++ ds := by
  intro n
  induction n using Nat.strong_induction_on with
  | _ n ih =>
    intro f1 f2 ds h1 h2
    cases f1 with
    | zero => omega
    | succ f1 =>
      cases f2 with
      | zero => omega
      | succ f2 =>
        simp only [Nat.toDigitsCore]
        by_cases h0 : n / 10 = 0
        · simp [h0]
        · simp only [h0, if_false]
          have hlt : n / 10 < n := by omega
          rw [ih (n / 10) hlt f1 f2 _ (by omega) (by omega),
            ih (n / 10) hlt f2 f2 [Nat.digitChar (n % 10)] (by omega) (by omega)]
          simp

/-- The decimal digits printed for a number: one digit below 10, and otherwise
the digits of the tenth part followed by the last digit. -/
theorem toDigits_dez (n : Nat) :
    Nat.toDigits 10 n =
      if n < 10 then [Nat.digitChar n]
      else Nat.toDigits 10 (n / 10) ++ [Nat.digitChar (n % 10)] := by
  by_cases hn : n < 10
  · have h0 : n / 10 = 0 := by omega
    have hm : n % 10 = n := Nat.mod_eq_of_lt hn
    simp [Nat.toDigits, Nat.toDigitsCore, h0, hn, hm]
  · have h0 : ¬ n / 10 = 0 := by omega
    simp only [hn, if_false]
    rw [Nat.toDigits, Nat.toDigitsCore]
    simp only [h0, if_false]
    rw [toDigitsCore_acumulado (n / 10) n (n / 10 + 1) _ (by omega) (by omega)]
    rfl

theorem digitChar_digito (n : Nat) (h : n < 10) :
    (Nat.digitChar n).isDigit = true ∧ (Nat.digitChar n).toNat - 48 = n ∧
      (Nat.digitChar n).toNat ≠ 45 ∧ (Nat.digitChar n).toNat ≠ 43 ∧
      eh_espaco (Nat.digitChar n) = false := by
  interval_cases n <;> decide

/-- Reading the digits printed for `n` adds them to the value read so far. -/
theorem ler_digitos_toDigits : ∀ (n : Nat), ∃ k, 0 < k ∧
    ∀ (resto : List Char) (valor quantos : Nat),
      ler_digitos (Nat.toDigits 10 n ++ resto) valor quantos =
        ler_digitos resto (valor * 10 ^ k + n) (quantos + k) := by
  intro n
  induction n using Nat.strong_induction_on with
  | _ n ih =>
    by_cases hn : n < 10
    · refine ⟨1, by omega, ?_⟩
      intro resto valor quantos
      obtain ⟨hd, hv, _⟩ := digitChar_digito n hn
      rw [toDigits_dez]
      simp only [hn, if_true, List.singleton_append, ler_digitos, hd, hv, pow_one]
    · obtain ⟨k, hk, hr⟩ := ih (n / 10) (by omega)
      refine ⟨k + 1, by omega, ?_⟩
      intro resto valor quantos
      obtain ⟨hd, hv, _⟩ := digitChar_digito (n % 10) (Nat.mod_lt _ (by omega))
      rw [toDigits_dez]
      simp only [hn, if_false, List.append_assoc, List.singleton_append]
      rw [hr]
      simp only [ler_digitos, hd, hv, if_true]
      have e1 : (valor * 10 ^ k + n / 10) * 10 + n % 10 = valor * 10 ^ (k + 1) + n := by
        rw [pow_succ]
        have := Nat.div_add_mod n 10
        nlinarith
      rw [e1, Nat.add_assoc]

theorem toDigits_cabeca : ∀ (n : Nat), ∃ c t, Nat.toDigits 10 n = c :: t ∧
    c.toNat ≠ 45 ∧ c.toNat ≠ 43 ∧ eh_espaco c = false := by
  intro n
  induction n using Nat.strong_induction_on with
  | _ n ih =>
    by_cases hn : n < 10
    · obtain ⟨_, _, h1, h2, h3⟩ := digitChar_digito n hn
      refine ⟨Nat.digitChar n, [], ?_, h1, h2, h3⟩
      rw [toDigits_dez]
      simp only [hn, if_true]
    · obtain ⟨c, t, hc, h1, h2, h3⟩ := ih (n / 10) (by omega)
      refine ⟨c, t ++ [Nat.digitChar (n % 10)], ?_, h1, h2, h3⟩
      rw [toDigits_dez]
      simp only [hn, if_false, hc, List.cons_append]

/-- The text does not go on with a digit. -/
theorem ler_digitos_parada (resto : List Char) (valor quantos : Nat)
    (h : ∀ c t, resto = c :: t → c.isDigit = false) :
    ler_digitos resto valor quantos = (valor, quantos, resto) := by
  cases resto with
  | nil => rfl
  | cons c t =>
    have hc := h c t rfl
    simp only [ler_digitos, hc, Bool.false_eq_true, if_false]

/-- The conversion `%d` reads back what `%d` printed, when the text does not go
on with a digit. -/
theorem ler_inteiro_formatar (i : Int) (resto : List Char)
    (h : ∀ c t, resto = c :: t → c.isDigit = false) :
    ler_inteiro (formatar_int i ++ resto) = some (i, resto) := by
  by_cases hi : i < 0
  · obtain ⟨k, hk, hr⟩ := ler_digitos_toDigits i.natAbs
    obtain ⟨k1, rfl⟩ : ∃ k1, k = k1 + 1 := ⟨k - 1, by omega⟩
    have hesp : eh_espaco (Char.ofNat 45) = false := by decide
    have h45 : (Char.ofNat 45).toNat = 45 := by decide
    simp only [formatar_int, hi, if_true, List.cons_append, ler_inteiro, pular_espacos, hesp,
      Bool.false_eq_true, if_false, h45, hr, ler_digitos_parada resto _ _ h]
    simp only [Nat.zero_mul, Nat.zero_add, Option.some.injEq, Prod.mk.injEq, and_true]
    omega
  · obtain ⟨k, hk, hr⟩ := ler_digitos_toDigits i.toNat
    obtain ⟨k1, rfl⟩ : ∃ k1, k = k1 + 1 := ⟨k - 1, by omega⟩
    obtain ⟨c, t, hc, h1, h2, h3⟩ := toDigits_cabeca i.toNat
    have hr0 := hr resto 0 0
    rw [hc] at hr0
    simp only [formatar_int, hi, if_false, hc, List.cons_append, ler_inteiro, pular_espacos, h3,
      Bool.false_eq_true, h1, h2]
    simp only [List.cons_append] at hr0
    rw [hr0, ler_digitos_parada resto _ _ h]
    simp only [Nat.zero_mul, Nat.zero_add, Option.some.injEq, Prod.mk.injEq, and_true]
    omega

/-- The conversion `%N[^c]` reads a text without `c` of at most `N` characters
up to the `c` that follows it. -/
theorem ler_conjunto_ate : ∀ (s : List Char) (largura : Nat) (excluido : Char)
    (resto : List Char), s.length ≤ largura → (∀ x ∈ s, x ≠ excluido) →
    ler_conjunto largura excluido (s ++ excluido :: resto) = (s, excluido :: resto) := by
  intro s
  induction s with
  | nil =>
    intro largura excluido resto _ _
    cases largura with
    | zero => rfl
    | succ k => simp [ler_conjunto]
  | cons x t ih =>
    intro largura excluido resto hl hx
    cases largura with
    | zero => simp at hl
    | succ k =>
      have hxe : x ≠ excluido := hx x (List.mem_cons_self _ _)
      have ht := ih k excluido resto (by simpa using hl)
        (fun y hy => hx y (List.mem_cons_of_mem _ hy))
      simp only [List.cons_append, ler_conjunto, hxe, if_false, List.append_eq, ht, List.cons]

theorem virgula_nao_digito (t : List Char) :
    ∀ c u, Char.ofNat 44 :: t = c :: u → c.isDigit = false := by
  intro c u h
  cases h
  decide

theorem nova_linha_nao_digito :
    ∀ c u, [nova_linha] = c :: u → c.isDigit = false := by
  intro c u h
  cases h
  decide

/-- A row printed by `salvar_inscricoes_csv` is a well-formed row holding the
values printed, when the date has from 1 to 10 characters and no comma. -/
theorem linha_inscricao_bem_formada (r : LinhaInscricao)
    (h1 : r.dataInscricao.toList ≠ []) (h2 : r.dataInscricao.toList.length ≤ 10)
    (h3 : ∀ x ∈ r.dataInscricao.toList, x ≠ Char.ofNat 44) :
    linha_bem_formada
      (linha_inscricao r.idParticipante r.idEvento r.dataInscricao r.status.codigo) r := by
  have e : linha_inscricao r.idParticipante r.idEvento r.dataInscricao r.status.codigo =
      formatar_int r.idParticipante ++ (Char.ofNat 44 :: (formatar_int r.idEvento ++
        (Char.ofNat 44 :: (r.dataInscricao.toList ++ (Char.ofNat 44 ::
          (formatar_int r.status.codigo ++ [nova_linha])))))) := by
    simp [linha_inscricao]
  have hc := ler_conjunto_ate r.dataInscricao.toList 10 (Char.ofNat 44)
    (formatar_int r.status.codigo ++ [nova_linha]) h2 h3
  unfold linha_bem_formada
  rw [e]
  cases hd : r.dataInscricao.toList with
  | nil => exact absurd hd h1
  | cons x lido =>
    rw [hd] at hc
    have hs : String.mk (x :: lido) = r.dataInscricao := by
      rw [← hd]
      rfl
    simp only [formato_inscricoes, sscanf_valores, ler_inteiro_formatar _ _ (virgula_nao_digito _),
      ler_inteiro_formatar _ _ nova_linha_nao_digito, if_true, hc, hs]

theorem aspas_nao_digito (t : List Char) :
    ∀ c u, aspas :: t = c :: u → c.isDigit = false := by
  intro c u h
  cases h
  decide

/-- A row printed by `salvar_eventos_csv` is read back field by field, whatever
the variables held before, when the name, the description and the category have
at least one character, at most 99, 499 and 49, and no double quote, and the
date has from 1 to 10 characters and no comma. -/
theorem linha_evento_lida (e : Evento) (v : VarsEvento)
    (hn1 : e.nome.toList ≠ []) (hn2 : e.nome.toList.length ≤ 99)
    (hn3 : ∀ x ∈ e.nome.toList, x ≠ aspas)
    (hd1 : e.descricao.toList ≠ []) (hd2 : e.descricao.toList.length ≤ 499)
    (hd3 : ∀ x ∈ e.descricao.toList, x ≠ aspas)
    (hc1 : e.categoria.toList ≠ []) (hc2 : e.categoria.toList.length ≤ 49)
    (hc3 : ∀ x ∈ e.categoria.toList, x ≠ aspas)
    (ht1 : e.data.toList ≠ []) (ht2 : e.data.toList.length ≤ 10)
    (ht3 : ∀ x ∈ e.data.toList, x ≠ Char.ofNat 44) :
    evento_das_vars (sscanf formato_eventos (linha_evento e) v) = some e := by
  have eq : linha_evento e =
      formatar_int e.id ++ (Char.ofNat 44 :: aspas :: (e.nome.toList ++
        (aspas :: Char.ofNat 44 :: aspas :: (e.descricao.toList ++
          (aspas :: Char.ofNat 44 :: aspas :: (e.categoria.toList ++
            (aspas :: Char.ofNat 44 :: (e.data.toList ++ (Char.ofNat 44 ::
              (formatar_int e.capacidade ++ (Char.ofNat 44 ::
                (formatar_int e.vagasDisponiveis ++ [nova_linha])))))))))))) := by
    simp [linha_evento]
  have hn := fun r => ler_conjunto_ate e.nome.toList 99 aspas r hn2 hn3
  have hd := fun r => ler_conjunto_ate e.descricao.toList 499 aspas r hd2 hd3
  have hc := fun r => ler_conjunto_ate e.categoria.toList 49 aspas r hc2 hc3
  have ht := fun r => ler_conjunto_ate e.data.toList 10 (Char.ofNat 44) r ht2 ht3
  rw [eq]
  cases e with
  | mk id nome descricao categoria data capacidade vagas =>
    cases nome with
    | mk ln =>
      cases descricao with
      | mk ld =>
        cases categoria with
        | mk lc =>
          cases data with
          | mk lt =>
            simp only [String.toList] at hn1 hd1 hc1 ht1 hn hd hc ht ⊢
            cases ln with
            | nil => exact absurd rfl hn1
            | cons a1 ln =>
              cases ld with
              | nil => exact absurd rfl hd1
              | cons a2 ld =>
                cases lc with
                | nil => exact absurd rfl hc1
                | cons a3 lc =>
                  cases lt with
                  | nil => exact absurd rfl ht1
                  | cons a4 lt =>
                    simp only [formato_eventos, sscanf,
                      ler_inteiro_formatar _ _ (virgula_nao_digito _),
                      ler_inteiro_formatar _ _ nova_linha_nao_digito, if_true, hn, hd, hc, ht,
                      VarsEvento.guardar_int, VarsEvento.guardar_texto, evento_das_vars,
                      evento_criar]

/-- A row printed by `salvar_participantes_csv` is read back field by field,
whatever the variables held before, when the name, the e-mail and the telephone
have at least one character, at most 99, 99 and 19, and no double quote. -/
theorem linha_participante_lida (p : Participante) (v : VarsParticipante)
    (hn1 : p.nome.toList ≠ []) (hn2 : p.nome.toList.length ≤ 99)
    (hn3 : ∀ x ∈ p.nome.toList, x ≠ aspas)
    (he1 : p.email.toList ≠ []) (he2 : p.email.toList.length ≤ 99)
    (he3 : ∀ x ∈ p.email.toList, x ≠ aspas)
    (ht1 : p.telefone.toList ≠ []) (ht2 : p.telefone.toList.length ≤ 19)
    (ht3 : ∀ x ∈ p.telefone.toList, x ≠ aspas) :
    participante_das_vars (v.ler (linha_participante p)) = some p := by
  have eq : linha_participante p =
      formatar_int p.id ++ (Char.ofNat 44 :: aspas :: (p.nome.toList ++
        (aspas :: Char.ofNat 44 :: aspas :: (p.email.toList ++
          (aspas :: Char.ofNat 44 :: aspas :: (p.telefone.toList ++
            (aspas :: [nova_linha]))))))) := by
    simp [linha_participante]
  have hn := fun r => ler_conjunto_ate p.nome.toList 99 aspas r hn2 hn3
  have he := fun r => ler_conjunto_ate p.email.toList 99 aspas r he2 he3
  have ht := fun r => ler_conjunto_ate p.telefone.toList 19 aspas r ht2 ht3
  rw [eq]
  cases p with
  | mk id nome email telefone =>
    cases nome with
    | mk ln =>
      cases email with
      | mk le =>
        cases telefone with
        | mk lt =>
          simp only [String.toList] at hn1 he1 ht1 hn he ht ⊢
          cases ln with
          | nil => exact absurd rfl hn1
          | cons a1 ln =>
            cases le with
            | nil => exact absurd rfl he1
            | cons a2 le =>
              cases lt with
              | nil => exact absurd rfl ht1
              | cons a3 lt =>
                simp only [VarsParticipante.ler, formato_participantes, sscanf_valores,
                  ler_inteiro_formatar _ _ (virgula_nao_digito _), if_true, hn, he, ht,
                  List.get?, atribuir_int, atribuir_texto, participante_das_vars]

/-- The function `fgets` returns a line that fits the buffer whole, with its
line feed. -/
theorem fgets_linhas_linha (n : Nat) : ∀ (corpo atual resto : List Char) (k : Nat),
    (∀ c ∈ corpo, c ≠ nova_linha) → corpo.length + 1 ≤ k →
    fgets_linhas n (corpo ++ nova_linha :: resto) atual k =
      (atual.reverse ++ corpo ++ [nova_linha]) :: fgets_linhas n resto [] (n - 1) := by
  intro corpo
  induction corpo with
  | nil =>
    intro atual resto k _ _
    simp [fgets_linhas]
  | cons c t ih =>
    intro atual resto k hc hk
    have hcn : c ≠ nova_linha := hc c (List.mem_cons_self _ _)
    simp only [List.length_cons] at hk
    have hk1 : ¬ k ≤ 1 := by omega
    simp only [List.cons_append, fgets_linhas, hcn, hk1, or_self, if_false, List.append_eq]
    rw [ih (c :: atual) resto (k - 1) (fun x hx => hc x (List.mem_cons_of_mem _ hx)) (by omega)]
    simp

/-- A text made of lines that fit the buffer is cut by `fgets` into these
lines. -/
theorem fgets_linhas_texto (n : Nat) : ∀ (corpos : List (List Char)),
    (∀ corpo ∈ corpos, (∀ c ∈ corpo, c ≠ nova_linha) ∧ corpo.length + 1 ≤ n - 1) →
    fgets_linhas n (corpos.map (fun corpo => corpo ++ [nova_linha])).flatten [] (n - 1) =
      corpos.map (fun corpo => corpo ++ [nova_linha]) := by
  intro corpos
  induction corpos with
  | nil =>
    intro _
    rfl
  | cons corpo t ih =>
    intro h
    have hc := h corpo (List.mem_cons_self _ _)
    have e : ((corpo :: t).map (fun corpo => corpo ++ [nova_linha])).flatten =
        corpo ++ nova_linha :: (t.map (fun corpo => corpo ++ [nova_linha])).flatten := by
      simp
    rw [e, fgets_linhas_linha n corpo [] _ (n - 1) hc.1 hc.2,
      ih (fun x hx => h x (List.mem_cons_of_mem _ hx))]
    simp

theorem toDigits_sem_nova_linha : ∀ (n : Nat), ∀ c ∈ Nat.toDigits 10 n, c ≠ nova_linha := by
  intro n
  induction n using Nat.strong_induction_on with
  | _ n ih =>
    intro c hc
    rw [toDigits_dez] at hc
    by_cases hn : n < 10
    · simp only [hn, if_true, List.mem_singleton] at hc
      subst hc
      interval_cases n <;> decide
    · simp only [hn, if_false, List.mem_append, List.mem_singleton] at hc
      rcases hc with hc | hc
      · exact ih (n / 10) (by omega) c hc
      · subst hc
        have hm : n % 10 < 10 := Nat.mod_lt _ (by omega)
        interval_cases n % 10 <;> decide

theorem formatar_int_sem_nova_linha (i : Int) : ∀ c ∈ formatar_int i, c ≠ nova_linha := by
  intro c hc
  unfold formatar_int at hc
  split_ifs at hc
  · rcases List.mem_cons.1 hc with hc | hc
    · subst hc
      decide
    · exact toDigits_sem_nova_linha _ c hc
  · exact toDigits_sem_nova_linha _ c hc

theorem linhas_bem_formadas_map : ∀ (rs : List LinhaInscricao),
    (∀ r ∈ rs, r.dataInscricao.toList ≠ [] ∧ r.dataInscricao.toList.length ≤ 10 ∧
      ∀ x ∈ r.dataInscricao.toList, x ≠ Char.ofNat 44) →
    linhas_bem_formadas
      (rs.map (fun r => linha_inscricao r.idParticipante r.idEvento r.dataInscricao
        r.status.codigo)) rs = true := by
  intro rs
  induction rs with
  | nil =>
    intro _
    rfl
  | cons r t ih =>
    intro h
    obtain ⟨h1, h2, h3⟩ := h r (List.mem_cons_self _ _)
    simp only [List.map_cons, linhas_bem_formadas, Bool.and_eq_true, decide_eq_true_eq]
    exact ⟨linha_inscricao_bem_formada r h1 h2 h3,
      ih (fun x hx => h x (List.mem_cons_of_mem _ hx))⟩

/-- The file that `salvar_inscricoes_csv` prints for the rows `rs` is made of
well-formed rows holding the values of `rs`, when every date has from 1 to 10
characters, none of them a comma or a line feed, and every row fits the line
buffer of the load. -/
theorem texto_inscricoes_bem_formado (rs : List LinhaInscricao)
    (h : ∀ r ∈ rs, r.dataInscricao.toList ≠ [] ∧ r.dataInscricao.toList.length ≤ 10 ∧
      (∀ x ∈ r.dataInscricao.toList, x ≠ Char.ofNat 44 ∧ x ≠ nova_linha) ∧
      (linha_inscricao r.idParticipante r.idEvento r.dataInscricao r.status.codigo).length
        ≤ 255) :
    linhas_bem_formadas
      (fgets_linhas 256
        (cabecalho_inscricoes ++
          (rs.map (fun r => linha_inscricao r.idParticipante r.idEvento r.dataInscricao
            r.status.codigo)).flatten) [] 255).tail rs = true := by
  have hcab : ∀ c ∈ "idParticipante,idEvento,dataInscricao,status".toList, c ≠ nova_linha := by
    decide
  have hcorpo : ∀ r : LinhaInscricao,
      linha_inscricao r.idParticipante r.idEvento r.dataInscricao r.status.codigo =
        (formatar_int r.idParticipante ++ [Char.ofNat 44] ++ formatar_int r.idEvento ++
          [Char.ofNat 44] ++ r.dataInscricao.toList ++ [Char.ofNat 44] ++
          formatar_int r.status.codigo) ++ [nova_linha] := fun r => rfl
  have hmap : rs.map (fun r => linha_inscricao r.idParticipante r.idEvento r.dataInscricao
      r.status.codigo) =
      (rs.map (fun r => formatar_int r.idParticipante ++ [Char.ofNat 44] ++
        formatar_int r.idEvento ++ [Char.ofNat 44] ++ r.dataInscricao.toList ++
        [Char.ofNat 44] ++ formatar_int r.status.codigo)).map
        (fun corpo => corpo ++ [nova_linha]) := by
    rw [List.map_map]
    rfl
  have h44 : Char.ofNat 44 ≠ nova_linha := by decide
  have hfg := fgets_linhas_texto 256
    (rs.map (fun r => formatar_int r.idParticipante ++ [Char.ofNat 44] ++
      formatar_int r.idEvento ++ [Char.ofNat 44] ++ r.dataInscricao.toList ++
      [Char.ofNat 44] ++ formatar_int r.status.codigo))
    (by
      intro corpo hc
      obtain ⟨r, hr, rfl⟩ := List.mem_map.1 hc
      obtain ⟨_, _, h3, h4⟩ := h r hr
      refine ⟨?_, ?_⟩
      · intro c hcm
        simp only [List.mem_append, List.mem_singleton] at hcm
        rcases hcm with (((((hcm | hcm) | hcm) | hcm) | hcm) | hcm) | hcm
        · exact formatar_int_sem_nova_linha _ c hcm
        · rw [hcm]
          exact h44
        · exact formatar_int_sem_nova_linha _ c hcm
        · rw [hcm]
          exact h44
        · exact (h3 c hcm).2
        · rw [hcm]
          exact h44
        · exact formatar_int_sem_nova_linha _ c hcm
      · rw [hcorpo r] at h4
        simp only [List.length_append, List.length_singleton] at h4 ⊢
        omega)
  rw [← hmap] at hfg
  have hf1 := fgets_linhas_linha 256 "idParticipante,idEvento,dataInscricao,status".toList []
    (rs.map (fun r => linha_inscricao r.idParticipante r.idEvento r.dataInscricao
      r.status.codigo)).flatten 255 hcab (by decide)
  have e : cabecalho_inscricoes ++
      (rs.map (fun r => linha_inscricao r.idParticipante r.idEvento r.dataInscricao
        r.status.codigo)).flatten =
      "idParticipante,idEvento,dataInscricao,status".toList ++ nova_linha ::
        (rs.map (fun r => linha_inscricao r.idParticipante r.idEvento r.dataInscricao
          r.status.codigo)).flatten := by
    simp [cabecalho_inscricoes]
  rw [e, hf1, List.tail_cons]
  have e2 : (256 : Nat) - 1 = 255 := rfl
  rw [e2] at hfg
  rw [hfg]
  exact linhas_bem_formadas_map rs (fun r hr =>
    ⟨(h r hr).1, (h r hr).2.1, fun x hx => ((h r hr).2.2.1 x hx).1⟩)

/-! ## Bounds on the places left along runs with sorts (claim C1) -/

/-- The sort keeps the addresses of the nodes and the places left at 0 or
more. -/
theorem ordenar_sistema_invariantes (s s1 : Sistema) (h : ordenar_sistema s = some s1)
    (hnd : (enderecos s.lista_eventos).Nodup)
    (hL : ∀ n ∈ s.lista_eventos, 0 ≤ n.dados.vagasDisponiveis) :
    (enderecos s1.lista_eventos).Nodup ∧
    (∀ n ∈ s1.lista_eventos, 0 ≤ n.dados.vagasDisponiveis) := by
  obtain ⟨l1, h1, h2, h3, _⟩ := ordenar_spec s.lista_eventos
  simp only [ordenar_sistema, contar_eventos_length, h1, Option.some.injEq] at h
  subst h
  refine ⟨?_, ?_⟩
  · show (enderecos l1).Nodup
    rw [h2]
    exact hnd
  · intro n hn
    have hm : n.dados ∈ l1.map (fun n => n.dados) := List.mem_map_of_mem _ hn
    obtain ⟨m, hm1, hm2⟩ := List.mem_map.1 (h3.mem_iff.1 hm)
    rw [← hm2]
    exact hL m hm1

/-- A run along which no `int` overflows ends in a state whose values fit. -/
theorem sem_transbordo_final : ∀ (ops : List Op) (s0 s : Sistema),
    sem_transbordo s0 ops = true → executar s0 ops = some s → s.cabe := by
  intro ops
  induction ops with
  | nil =>
    intro s0 s h hrun
    simp only [executar, Option.some.injEq] at hrun
    subst hrun
    simpa [sem_transbordo] using h
  | cons op t ih =>
    intro s0 s h hrun
    simp only [executar] at hrun
    cases hp : passo s0 op with
    | none => simp [hp] at hrun
    | some s1 =>
      simp only [hp] at hrun
      simp only [sem_transbordo, hp, Bool.and_eq_true] at h
      exact ih s1 s h.2 hrun

/-- C1 amended: in every state reached from the empty system (over any
participant store) by event additions with non-negative capacity, event edits,
registrations, cancellations and date sorts, along which no `int` overflows,
every event has `0 ≤ vagasDisponiveis` and every value stored fits an `int`; and
when the run has no sort and none of its edits hit the floor at 0, every event
also has `vagasDisponiveis ≤ capacidade`. -/
theorem limites_das_vagas (participantes : List NoParticipante) (ops : List Op)
    (s : Sistema)
    (hops : ∀ op ∈ ops, Op.capacidadeNaoNegativa op = true)
    (hint : sem_transbordo (sistema_vazio participantes) ops = true)
    (hrun : executar (sistema_vazio participantes) ops = some s) :
    (∀ n ∈ s.lista_eventos, 0 ≤ n.dados.vagasDisponiveis) ∧ s.cabe ∧
    ((∀ op ∈ ops, Op.semOrdenar op = true) →
      sem_piso (sistema_vazio participantes) ops = true → limites_ok s) := by
  have hgen : ∀ (ops : List Op) (s0 : Sistema), (enderecos s0.lista_eventos).Nodup →
      (∀ n ∈ s0.lista_eventos, 0 ≤ n.dados.vagasDisponiveis) →
      (∀ op ∈ ops, Op.capacidadeNaoNegativa op = true) →
      executar s0 ops = some s →
      (∀ n ∈ s.lista_eventos, 0 ≤ n.dados.vagasDisponiveis) ∧
      ((∀ op ∈ ops, Op.semOrdenar op = true) → contagem_ok s0 → sem_piso s0 ops = true →
        contagem_ok s) := by
    intro ops
    induction ops with
    | nil =>
      intro s0 _ hL _ hrun
      simp only [executar, Option.some.injEq] at hrun
      subst hrun
      exact ⟨hL, fun _ hK _ => hK⟩
    | cons op t ih =>
      intro s0 hnd hL hops hrun
      simp only [executar] at hrun
      cases hp : passo s0 op with
      | none => simp [hp] at hrun
      | some s1 =>
        simp only [hp] at hrun
        have hop := hops op (List.mem_cons_self _ _)
        by_cases hso : Op.semOrdenar op = true
        · obtain ⟨hnd1, hL1, hK1⟩ := passo_invariantes s0 s1 op hop hso hp hnd hL
          obtain ⟨r1, r2⟩ := ih s1 hnd1 hL1
            (fun o ho => hops o (List.mem_cons_of_mem _ ho)) hrun
          refine ⟨r1, ?_⟩
          intro hall hK hsp
          simp only [sem_piso, hp, Bool.and_eq_true] at hsp
          exact r2 (fun o ho => hall o (List.mem_cons_of_mem _ ho)) (hK1 hK hsp.1) hsp.2
        · have hord : op = Op.ordenar := by
            cases op <;> simp [Op.semOrdenar] at hso ⊢
          subst hord
          obtain ⟨hnd1, hL1⟩ := ordenar_sistema_invariantes s0 s1 hp hnd hL
          obtain ⟨r1, _⟩ := ih s1 hnd1 hL1
            (fun o ho => hops o (List.mem_cons_of_mem _ ho)) hrun
          refine ⟨r1, ?_⟩
          intro hall _ _
          exact absurd (hall Op.ordenar (List.mem_cons_self _ _)) hso
  have hK0 : contagem_ok (sistema_vazio participantes) := by
    refine ⟨List.nodup_nil, ?_, ?_⟩
    · intro r hr
      cases hr
    · intro n hn
      cases hn
  obtain ⟨r1, r2⟩ := hgen ops (sistema_vazio participantes) List.nodup_nil
    (fun n hn => by cases hn) hops hrun
  refine ⟨r1, sem_transbordo_final ops _ s hint hrun, ?_⟩
  intro hall hsp n hn
  have hK := r2 hall hK0 hsp
  have := hK.2.2 n hn
  exact ⟨r1 n hn, by omega⟩

/-- Witness for C1 amended: `corrida_com_ordenacao` has a sort and no overflow,
and every event of the state it ends in has 0 places or more (the event in the
first node has 2 places for a capacity of 1); `corrida_sem_piso` has no sort,
no overflow and no edit that hits the floor, and its event ends with 3 places
for a capacity of 3. -/
theorem limites_das_vagas_witness :
    (∀ n ∈ estado_com_ordenacao.lista_eventos, 0 ≤ n.dados.vagasDisponiveis) ∧
    limites_ok estado_sem_piso :=
  ⟨(limites_das_vagas [P1, P2] corrida_com_ordenacao estado_com_ordenacao
      (by decide) (by decide) (by decide)).1,
   (limites_das_vagas [P1, P2] corrida_sem_piso estado_sem_piso
      (by decide) (by decide) (by decide)).2.2 (by decide) (by decide)⟩

end SGE
